import Mathlib

/-!
# Custom document properties of excelize: xmlCustom.go

The file xmlCustom.go declares the records of the custom-properties part of a workbook:
the containers `xlsxCustomProperties` and `decodeCustomProperties`, the property records
`xlsxProperty` and `decodeProperty`, and the public holder `CustomProperty`.  The records
are driven by the reflection-based marshaller of encoding/xml, so the development has two
layers: the declarations of xmlCustom.go (field by field, tag by tag), and the rules of
encoding/xml that give the tags their meaning (tag parsing, element and attribute
matching, conversion of simple values to and from text).
-/

namespace excelize

/-! ## Go types and values -/

/-- The Go types that occur in the declarations of xmlCustom.go. -/
inductive GoType
  | string
  | bool
  | int
  | int8
  | int16
  | int32
  | int64
  | uint
  | uint8
  | uint16
  | uint32
  | uint64
  | float32
  | float64
  | xmlName
  | emptyInterface
  | timeTime
  | ptr (elem : GoType)
  | slice (elem : GoType)
  | named (typeName : String)
  deriving DecidableEq, Repr

/-- Width of the Go types int and uint (strconv.IntSize) on a 64-bit target. -/
@[reducible] def IntSize : Nat := 64

/-- A two's-complement signed integer of width w: the values of int8, int16, int32,
int64 and int. -/
structure SignedInt (w : Nat) where
  val : Int
  ge : -(2 ^ (w - 1) : Int) ≤ val
  lt : val < (2 ^ (w - 1) : Int)
  deriving DecidableEq

/-- An unsigned integer of width w: the values of uint8, uint16, uint32, uint64 and
uint. -/
structure UnsignedInt (w : Nat) where
  val : Nat
  lt : val < 2 ^ w
  deriving DecidableEq

/-- An IEEE 754 binary floating-point number of width w, kept as its bit pattern: the
values of float32 and float64.  No arithmetic is done on them here. -/
structure FloatBits (w : Nat) where
  bits : Nat
  lt : bits < 2 ^ w
  deriving DecidableEq

abbrev int8 := SignedInt 8
abbrev int16 := SignedInt 16
abbrev int32 := SignedInt 32
abbrev int64 := SignedInt 64
abbrev int := SignedInt IntSize
abbrev uint8 := UnsignedInt 8
abbrev uint16 := UnsignedInt 16
abbrev uint32 := UnsignedInt 32
abbrev uint64 := UnsignedInt 64
abbrev uint := UnsignedInt IntSize
abbrev float32 := FloatBits 32
abbrev float64 := FloatBits 64

/-- The zero value of a signed integer type. -/
def SignedInt.zero (w : Nat) : SignedInt w :=
  ⟨0, neg_nonpos.mpr (pow_nonneg (by decide) _), pow_pos (by decide) _⟩

/-- The zero value of an unsigned integer type. -/
def UnsignedInt.zero (w : Nat) : UnsignedInt w := ⟨0, by positivity⟩

/-- The zero value of a floating-point type (positive zero, all bits clear). -/
def FloatBits.zero (w : Nat) : FloatBits w := ⟨0, by positivity⟩

namespace xml

/-- The xml.Name of encoding/xml: a local name qualified by a name space. -/
structure Name where
  Space : String
  Local : String
  deriving DecidableEq, Repr

/-- The xml.Attr of encoding/xml. -/
structure Attr where
  Name : xml.Name
  Value : String
  deriving DecidableEq, Repr

end xml

/-- A value of one of the simple Go types of the records, tagged with its type: what
reflection hands to encoding/xml for a field (after following a non-nil pointer). -/
inductive Scalar
  | string (v : String)
  | bool (v : Bool)
  | int (v : excelize.int)
  | int8 (v : excelize.int8)
  | int16 (v : excelize.int16)
  | int32 (v : excelize.int32)
  | int64 (v : excelize.int64)
  | uint (v : excelize.uint)
  | uint8 (v : excelize.uint8)
  | uint16 (v : excelize.uint16)
  | uint32 (v : excelize.uint32)
  | uint64 (v : excelize.uint64)
  | float32 (v : excelize.float32)
  | float64 (v : excelize.float64)
  | xmlName (v : xml.Name)
  deriving DecidableEq

/-- The Go type of a tagged value. -/
def Scalar.goType : Scalar → GoType
  | .string _ => .string
  | .bool _ => .bool
  | .int _ => .int
  | .int8 _ => .int8
  | .int16 _ => .int16
  | .int32 _ => .int32
  | .int64 _ => .int64
  | .uint _ => .uint
  | .uint8 _ => .uint8
  | .uint16 _ => .uint16
  | .uint32 _ => .uint32
  | .uint64 _ => .uint64
  | .float32 _ => .float32
  | .float64 _ => .float64
  | .xmlName _ => .xmlName

/-- A simple Go type together with its values: the type, the tagging of a value and the
untagging of a tagged value of that type. -/
structure Kind (α : Type) where
  goType : GoType
  inj : α → Scalar
  proj : Scalar → Option α

def Kind.string : Kind String := ⟨.string, .string, fun | .string v => some v | _ => none⟩
def Kind.bool : Kind Bool := ⟨.bool, .bool, fun | .bool v => some v | _ => none⟩
def Kind.int : Kind int := ⟨.int, .int, fun | .int v => some v | _ => none⟩
def Kind.int8 : Kind int8 := ⟨.int8, .int8, fun | .int8 v => some v | _ => none⟩
def Kind.int16 : Kind int16 := ⟨.int16, .int16, fun | .int16 v => some v | _ => none⟩
def Kind.int32 : Kind int32 := ⟨.int32, .int32, fun | .int32 v => some v | _ => none⟩
def Kind.int64 : Kind int64 := ⟨.int64, .int64, fun | .int64 v => some v | _ => none⟩
def Kind.uint : Kind uint := ⟨.uint, .uint, fun | .uint v => some v | _ => none⟩
def Kind.uint8 : Kind uint8 := ⟨.uint8, .uint8, fun | .uint8 v => some v | _ => none⟩
def Kind.uint16 : Kind uint16 := ⟨.uint16, .uint16, fun | .uint16 v => some v | _ => none⟩
def Kind.uint32 : Kind uint32 := ⟨.uint32, .uint32, fun | .uint32 v => some v | _ => none⟩
def Kind.uint64 : Kind uint64 := ⟨.uint64, .uint64, fun | .uint64 v => some v | _ => none⟩
def Kind.float32 : Kind float32 :=
  ⟨.float32, .float32, fun | .float32 v => some v | _ => none⟩
def Kind.float64 : Kind float64 :=
  ⟨.float64, .float64, fun | .float64 v => some v | _ => none⟩
def Kind.xmlName : Kind xml.Name := ⟨.xmlName, .xmlName, fun | .xmlName v => some v | _ => none⟩

/-- One field of a Go struct type R as reflection shows it: the declared name, type and
xml tag, the current value of the field in a record (none for a nil pointer), and the
assignment of a value to the field (a value of another type leaves the record as it is). -/
structure Field (R : Type) where
  goName : String
  goType : GoType
  tag : String
  get : R → Option Scalar
  set : R → Scalar → R

/-- A field of a simple type T, declared as `goName T` with the given xml tag. -/
def valField {R α : Type} (goName : String) (k : Kind α) (tag : String)
    (get : R → α) (set : R → α → R) : Field R where
  goName := goName
  goType := k.goType
  tag := tag
  get := fun r => some (k.inj (get r))
  set := fun r v => set r ((k.proj v).getD (get r))

/-- A field of a pointer type *T, declared as `goName *T` with the given xml tag. -/
def ptrField {R α : Type} (goName : String) (k : Kind α) (tag : String)
    (get : R → Option α) (set : R → Option α → R) : Field R where
  goName := goName
  goType := .ptr k.goType
  tag := tag
  get := fun r => (get r).map k.inj
  set := fun r v => set r ((k.proj v).orElse (fun _ => get r))

/-- The declaration part of a field: name, type and tag. -/
structure StructField where
  goName : String
  goType : GoType
  tag : String
  deriving DecidableEq, Repr

/-- The declaration of a field, without its accessors. -/
def Field.decl {R : Type} (f : Field R) : StructField := ⟨f.goName, f.goType, f.tag⟩

/-! ## The declarations of xmlCustom.go -/

/-- Go struct xlsxProperty (xmlCustom.go): a nil pointer is none. -/
structure xlsxProperty where
  XMLName : xml.Name := ⟨"", ""⟩
  FmtID : String := ""
  PID : int := SignedInt.zero IntSize
  Name : String := ""
  LinkTarget : String := ""
  Vector : Option String := none
  Array : Option String := none
  Blob : Option String := none
  Oblob : Option String := none
  Empty : Option String := none
  Null : Option String := none
  I1 : Option int8 := none
  I2 : Option int16 := none
  I4 : Option int32 := none
  I8 : Option int64 := none
  Int : Option int := none
  Ui1 : Option uint8 := none
  Ui2 : Option uint16 := none
  Ui4 : Option uint32 := none
  Ui8 : Option uint64 := none
  Uint : Option uint := none
  R4 : Option float32 := none
  R8 : Option float64 := none
  Decimal : Option String := none
  Lpstr : Option String := none
  Lpwstr : Option String := none
  Bstr : Option String := none
  Date : Option String := none
  FileTime : Option String := none
  Bool : Option Bool := none
  Cy : Option String := none
  Error : Option String := none
  Stream : Option String := none
  Ostream : Option String := none
  Storage : Option String := none
  Ostorage : Option String := none
  Vstream : Option String := none
  ClsID : Option String := none
  deriving DecidableEq

/-- Go struct decodeProperty (xmlCustom.go): a nil pointer is none. -/
structure decodeProperty where
  XMLName : xml.Name := ⟨"", ""⟩
  FmtID : String := ""
  PID : int := SignedInt.zero IntSize
  Name : String := ""
  LinkTarget : String := ""
  Vector : Option String := none
  Array : Option String := none
  Blob : Option String := none
  Oblob : Option String := none
  Empty : Option String := none
  Null : Option String := none
  I1 : Option int8 := none
  I2 : Option int16 := none
  I4 : Option int32 := none
  I8 : Option int64 := none
  Int : Option int := none
  Ui1 : Option uint8 := none
  Ui2 : Option uint16 := none
  Ui4 : Option uint32 := none
  Ui8 : Option uint64 := none
  Uint : Option uint := none
  R4 : Option float32 := none
  R8 : Option float64 := none
  Decimal : Option String := none
  Lpstr : Option String := none
  Lpwstr : Option String := none
  Bstr : Option String := none
  Date : Option String := none
  FileTime : Option String := none
  Bool : Option Bool := none
  Cy : Option String := none
  Error : Option String := none
  Stream : Option String := none
  Ostream : Option String := none
  Storage : Option String := none
  Ostorage : Option String := none
  Vstream : Option String := none
  ClsID : Option String := none
  deriving DecidableEq

/-- Field declarations of xlsxProperty in source order: Go name, Go type, xml tag, and the
accessors of the field. -/
def xlsxProperty.fields : List (Field xlsxProperty) := [
  valField "XMLName" Kind.xmlName "property" (·.XMLName) (fun p v => { p with XMLName := v }),
  valField "FmtID" Kind.string "fmtid,attr" (·.FmtID) (fun p v => { p with FmtID := v }),
  valField "PID" Kind.int "pid,attr" (·.PID) (fun p v => { p with PID := v }),
  valField "Name" Kind.string "name,attr,omitempty" (·.Name) (fun p v => { p with Name := v }),
  valField "LinkTarget" Kind.string "linkTarget,attr,omitempty" (·.LinkTarget) (fun p v => { p with LinkTarget := v }),
  ptrField "Vector" Kind.string "vt:vector" (·.Vector) (fun p v => { p with Vector := v }),
  ptrField "Array" Kind.string "vt:array" (·.Array) (fun p v => { p with Array := v }),
  ptrField "Blob" Kind.string "vt:blob" (·.Blob) (fun p v => { p with Blob := v }),
  ptrField "Oblob" Kind.string "vt:oblob" (·.Oblob) (fun p v => { p with Oblob := v }),
  ptrField "Empty" Kind.string "vt:empty" (·.Empty) (fun p v => { p with Empty := v }),
  ptrField "Null" Kind.string "vt:null" (·.Null) (fun p v => { p with Null := v }),
  ptrField "I1" Kind.int8 "vt:i1" (·.I1) (fun p v => { p with I1 := v }),
  ptrField "I2" Kind.int16 "vt:i2" (·.I2) (fun p v => { p with I2 := v }),
  ptrField "I4" Kind.int32 "vt:i4" (·.I4) (fun p v => { p with I4 := v }),
  ptrField "I8" Kind.int64 "vt:i8" (·.I8) (fun p v => { p with I8 := v }),
  ptrField "Int" Kind.int "vt:int" (·.Int) (fun p v => { p with Int := v }),
  ptrField "Ui1" Kind.uint8 "vt:ui1" (·.Ui1) (fun p v => { p with Ui1 := v }),
  ptrField "Ui2" Kind.uint16 "vt:ui2" (·.Ui2) (fun p v => { p with Ui2 := v }),
  ptrField "Ui4" Kind.uint32 "vt:ui4" (·.Ui4) (fun p v => { p with Ui4 := v }),
  ptrField "Ui8" Kind.uint64 "vt:ui8" (·.Ui8) (fun p v => { p with Ui8 := v }),
  ptrField "Uint" Kind.uint "vt:uint" (·.Uint) (fun p v => { p with Uint := v }),
  ptrField "R4" Kind.float32 "vt:r4" (·.R4) (fun p v => { p with R4 := v }),
  ptrField "R8" Kind.float64 "vt:r8" (·.R8) (fun p v => { p with R8 := v }),
  ptrField "Decimal" Kind.string "vt:decimal" (·.Decimal) (fun p v => { p with Decimal := v }),
  ptrField "Lpstr" Kind.string "vt:lpstr" (·.Lpstr) (fun p v => { p with Lpstr := v }),
  ptrField "Lpwstr" Kind.string "vt:lpwstr" (·.Lpwstr) (fun p v => { p with Lpwstr := v }),
  ptrField "Bstr" Kind.string "vt:bstr" (·.Bstr) (fun p v => { p with Bstr := v }),
  ptrField "Date" Kind.string "vt:date" (·.Date) (fun p v => { p with Date := v }),
  ptrField "FileTime" Kind.string "vt:filetime" (·.FileTime) (fun p v => { p with FileTime := v }),
  ptrField "Bool" Kind.bool "vt:bool" (·.Bool) (fun p v => { p with Bool := v }),
  ptrField "Cy" Kind.string "vt:cy" (·.Cy) (fun p v => { p with Cy := v }),
  ptrField "Error" Kind.string "vt:error" (·.Error) (fun p v => { p with Error := v }),
  ptrField "Stream" Kind.string "vt:stream" (·.Stream) (fun p v => { p with Stream := v }),
  ptrField "Ostream" Kind.string "vt:ostream" (·.Ostream) (fun p v => { p with Ostream := v }),
  ptrField "Storage" Kind.string "vt:storage" (·.Storage) (fun p v => { p with Storage := v }),
  ptrField "Ostorage" Kind.string "vt:ostorage" (·.Ostorage) (fun p v => { p with Ostorage := v }),
  ptrField "Vstream" Kind.string "vt:vstream" (·.Vstream) (fun p v => { p with Vstream := v }),
  ptrField "ClsID" Kind.string "vt:clsid" (·.ClsID) (fun p v => { p with ClsID := v })]

/-- Field declarations of decodeProperty in source order: Go name, Go type, xml tag, and the
accessors of the field. -/
def decodeProperty.fields : List (Field decodeProperty) := [
  valField "XMLName" Kind.xmlName "property" (·.XMLName) (fun p v => { p with XMLName := v }),
  valField "FmtID" Kind.string "fmtid,attr" (·.FmtID) (fun p v => { p with FmtID := v }),
  valField "PID" Kind.int "pid,attr" (·.PID) (fun p v => { p with PID := v }),
  valField "Name" Kind.string "name,attr,omitempty" (·.Name) (fun p v => { p with Name := v }),
  valField "LinkTarget" Kind.string "linkTarget,attr,omitempty" (·.LinkTarget) (fun p v => { p with LinkTarget := v }),
  ptrField "Vector" Kind.string "vector" (·.Vector) (fun p v => { p with Vector := v }),
  ptrField "Array" Kind.string "array" (·.Array) (fun p v => { p with Array := v }),
  ptrField "Blob" Kind.string "blob" (·.Blob) (fun p v => { p with Blob := v }),
  ptrField "Oblob" Kind.string "oblob" (·.Oblob) (fun p v => { p with Oblob := v }),
  ptrField "Empty" Kind.string "empty" (·.Empty) (fun p v => { p with Empty := v }),
  ptrField "Null" Kind.string "null" (·.Null) (fun p v => { p with Null := v }),
  ptrField "I1" Kind.int8 "i1" (·.I1) (fun p v => { p with I1 := v }),
  ptrField "I2" Kind.int16 "i2" (·.I2) (fun p v => { p with I2 := v }),
  ptrField "I4" Kind.int32 "i4" (·.I4) (fun p v => { p with I4 := v }),
  ptrField "I8" Kind.int64 "i8" (·.I8) (fun p v => { p with I8 := v }),
  ptrField "Int" Kind.int "int" (·.Int) (fun p v => { p with Int := v }),
  ptrField "Ui1" Kind.uint8 "ui1" (·.Ui1) (fun p v => { p with Ui1 := v }),
  ptrField "Ui2" Kind.uint16 "ui2" (·.Ui2) (fun p v => { p with Ui2 := v }),
  ptrField "Ui4" Kind.uint32 "ui4" (·.Ui4) (fun p v => { p with Ui4 := v }),
  ptrField "Ui8" Kind.uint64 "ui8" (·.Ui8) (fun p v => { p with Ui8 := v }),
  ptrField "Uint" Kind.uint "uint" (·.Uint) (fun p v => { p with Uint := v }),
  ptrField "R4" Kind.float32 "r4" (·.R4) (fun p v => { p with R4 := v }),
  ptrField "R8" Kind.float64 "r8" (·.R8) (fun p v => { p with R8 := v }),
  ptrField "Decimal" Kind.string "decimal" (·.Decimal) (fun p v => { p with Decimal := v }),
  ptrField "Lpstr" Kind.string "lpstr" (·.Lpstr) (fun p v => { p with Lpstr := v }),
  ptrField "Lpwstr" Kind.string "lpwstr" (·.Lpwstr) (fun p v => { p with Lpwstr := v }),
  ptrField "Bstr" Kind.string "bstr" (·.Bstr) (fun p v => { p with Bstr := v }),
  ptrField "Date" Kind.string "date" (·.Date) (fun p v => { p with Date := v }),
  ptrField "FileTime" Kind.string "filetime" (·.FileTime) (fun p v => { p with FileTime := v }),
  ptrField "Bool" Kind.bool "bool" (·.Bool) (fun p v => { p with Bool := v }),
  ptrField "Cy" Kind.string "cy" (·.Cy) (fun p v => { p with Cy := v }),
  ptrField "Error" Kind.string "error" (·.Error) (fun p v => { p with Error := v }),
  ptrField "Stream" Kind.string "stream" (·.Stream) (fun p v => { p with Stream := v }),
  ptrField "Ostream" Kind.string "ostream" (·.Ostream) (fun p v => { p with Ostream := v }),
  ptrField "Storage" Kind.string "storage" (·.Storage) (fun p v => { p with Storage := v }),
  ptrField "Ostorage" Kind.string "ostorage" (·.Ostorage) (fun p v => { p with Ostorage := v }),
  ptrField "Vstream" Kind.string "vstream" (·.Vstream) (fun p v => { p with Vstream := v }),
  ptrField "ClsID" Kind.string "clsid" (·.ClsID) (fun p v => { p with ClsID := v })]
/-- Go struct xlsxCustomProperties (xmlCustom.go). -/
structure xlsxCustomProperties where
  XMLName : xml.Name := ⟨"", ""⟩
  Vt : String := ""
  Property : List xlsxProperty := []
  deriving DecidableEq

/-- Go struct decodeCustomProperties (xmlCustom.go). -/
structure decodeCustomProperties where
  XMLName : xml.Name := ⟨"", ""⟩
  Vt : String := ""
  Property : List decodeProperty := []
  deriving DecidableEq

/-- A field of a slice type []T of records, declared as goName []T with the given xml
tag.  Its elements are not a simple value: the container functions reach them directly. -/
def sliceField {R : Type} (goName : String) (elemType : String) (tag : String) : Field R where
  goName := goName
  goType := .slice (.named elemType)
  tag := tag
  get := fun _ => none
  set := fun r _ => r

/-- Field declarations of xlsxCustomProperties in source order. -/
def xlsxCustomProperties.fields : List (Field xlsxCustomProperties) := [
  valField "XMLName" Kind.xmlName
    "http://schemas.openxmlformats.org/officeDocument/2006/custom-properties Properties"
    (·.XMLName) (fun c v => { c with XMLName := v }),
  valField "Vt" Kind.string "xmlns:vt,attr" (·.Vt) (fun c v => { c with Vt := v }),
  sliceField "Property" "xlsxProperty" "property"]

/-- Field declarations of decodeCustomProperties in source order. -/
def decodeCustomProperties.fields : List (Field decodeCustomProperties) := [
  valField "XMLName" Kind.xmlName
    "http://schemas.openxmlformats.org/officeDocument/2006/custom-properties Properties"
    (·.XMLName) (fun c v => { c with XMLName := v }),
  valField "Vt" Kind.string "xmlns:vt,attr" (·.Vt) (fun c v => { c with Vt := v }),
  sliceField "Property" "decodeProperty" "property"]

/-- A value of type time.Time, kept as its instant; no calendar arithmetic is done here. -/
structure Time where
  unixNano : Int
  deriving DecidableEq

/-- A value of the Go type interface{}, as far as the types of this file go: nil, a value
of a simple type with its dynamic type, or a time.Time. -/
inductive Iface
  | nil
  | scalar (v : Scalar)
  | time (t : Time)
  deriving DecidableEq

/-- Go struct CustomProperty (xmlCustom.go). -/
structure CustomProperty where
  Name : String := ""
  Value : Iface := .nil
  deriving DecidableEq

/-- Field declarations of CustomProperty in source order; the struct has no xml tags. -/
def CustomProperty.fields : List StructField := [
  ⟨"Name", .string, ""⟩,
  ⟨"Value", .emptyInterface, ""⟩]

/-- The value types the comment on CustomProperty lists: int32, float64, string, bool,
time.Time, or nil. -/
def Iface.documented : Iface → Bool
  | .nil => true
  | .scalar (.int32 _) => true
  | .scalar (.float64 _) => true
  | .scalar (.string _) => true
  | .scalar (.bool _) => true
  | .time _ => true
  | .scalar _ => false

/-! ## encoding/xml: type information read from the struct tags (typeinfo.go) -/

/-- The function strings.Cut for a one-character separator: the text before and after
the first separator, none when there is no separator. -/
def cut (sep : Char) : List Char → Option (List Char × List Char)
  | [] => none
  | c :: cs =>
    if c = sep then some ([], cs)
    else match cut sep cs with
      | some (before, after) => some (c :: before, after)
      | none => none

/-- The function strings.Split for a one-character separator. -/
def splitOn (sep : Char) : List Char → List (List Char)
  | [] => [[]]
  | c :: cs =>
    if c = sep then [] :: splitOn sep cs
    else match splitOn sep cs with
      | [] => [[c]]
      | first :: more => (c :: first) :: more

def fElement : Nat := 1
def fAttr : Nat := 2
def fCDATA : Nat := 4
def fCharData : Nat := 8
def fInnerXML : Nat := 16
def fComment : Nat := 32
def fAny : Nat := 64
def fOmitEmpty : Nat := 128

def fMode : Nat := fElement ||| fAttr ||| fCDATA ||| fCharData ||| fInnerXML ||| fComment ||| fAny

/-- The fieldInfo of encoding/xml: what a field's tag says.  idx is the position of the
field in its struct. -/
structure fieldInfo where
  idx : Nat
  name : String
  xmlns : String
  flags : Nat
  parents : List String
  deriving DecidableEq, Repr

/-- The typeInfo of encoding/xml: the XMLName field apart, then the other fields. -/
structure typeInfo where
  xmlname : Option fieldInfo
  fields : List fieldInfo
  deriving DecidableEq, Repr

/-- The flag a tag option stands for (the switch in structFieldInfo); an unknown option
sets nothing. -/
def tagFlag (option : String) : Nat :=
  if option = "attr" then fAttr
  else if option = "cdata" then fCDATA
  else if option = "chardata" then fCharData
  else if option = "innerxml" then fInnerXML
  else if option = "comment" then fComment
  else if option = "any" then fAny
  else if option = "omitempty" then fOmitEmpty
  else 0

/-- Whether the type of a field is a struct type of the package, possibly behind pointers:
the types for which structFieldInfo looks for an XMLName field in the field type.  A slice,
an interface, a simple type, and the library structs xml.Name and time.Time (which have no
XMLName field) are not. -/
def hasStructBehind : GoType → Bool
  | .named _ => true
  | .ptr t => hasStructBehind t
  | _ => false

/-- The function structFieldInfo of encoding/xml (typeinfo.go).  The name space of a field
is the one its own tag spells, and empty when the tag spells none; nothing is taken from
the XMLName of the struct the field is declared in.  A field whose own type is a struct of
the package would need that struct's XMLName; no field of xmlCustom.go is one, and the
function reports such a field as an error instead. -/
def structFieldInfo (idx : Nat) (f : StructField) : Except String fieldInfo :=
  -- Split the tag from the xml namespace if necessary.
  let split : String × List Char :=
    match cut ' ' f.tag.data with
    | some (ns, t) => (String.mk ns, t)
    | none => ("", f.tag.data)
  let xmlns := split.1
  -- Parse flags.
  let tokens := (splitOn ',' split.2).map String.mk
  let parsed : Except String (String × Nat) :=
    match tokens with
    | first :: second :: more =>
      let flags := (second :: more).foldl (fun acc option => acc ||| tagFlag option) 0
      -- Validate the flags used.
      let mode := flags &&& fMode
      let checked : Bool × Nat :=
        if mode = 0 then (true, flags ||| fElement)
        else if mode ∈ [fAttr, fCDATA, fCharData, fInnerXML, fComment, fAny, fAny ||| fAttr] then
          (!(f.goName = "XMLName" || (first ≠ "" && mode ≠ fAttr)), flags)
        else (false, flags)
      let flags := if checked.2 &&& fMode = fAny then checked.2 ||| fElement else checked.2
      let valid := checked.1 &&
        !(flags &&& fOmitEmpty ≠ 0 && flags &&& (fElement ||| fAttr) = 0)
      if valid then .ok (first, flags) else .error "xml: invalid tag in field"
    | _ => .ok (String.mk split.2, fElement)
  match parsed with
  | .error e => .error e
  | .ok (tag, flags) =>
    -- Use of xmlns without a name is not allowed.
    if xmlns ≠ "" ∧ tag = "" then .error "xml: namespace without name in field"
    else if f.goName = "XMLName" then
      -- The XMLName field records the XML element name.
      .ok ⟨idx, tag, xmlns, flags, []⟩
    else if hasStructBehind f.goType then .error "field of a struct type: not covered"
    else if tag = "" then
      -- The name part of the tag is empty: the field type has no XMLName, use the field name.
      .ok ⟨idx, f.goName, xmlns, flags, []⟩
    else
      -- Prepare field name and parents.
      let path := (splitOn '>' tag.data).map String.mk
      let path := if path.head? = some "" then f.goName :: path.tail else path
      if path.getLast? = some "" then .error "xml: trailing '>' in field"
      else if path.length > 1 ∧ flags &&& fElement = 0 then
        .error "xml: chain not valid with this flag"
      else .ok ⟨idx, path.getLast?.getD "", xmlns, flags, path.dropLast⟩

/-- Whether two fields conflict (the loop of addFieldInfo): same mode, compatible name
spaces, and one path is the other or runs through it. -/
def conflicts (oldf newf : fieldInfo) : Bool :=
  if oldf.flags &&& fMode ≠ newf.flags &&& fMode then false
  else if oldf.xmlns ≠ "" ∧ newf.xmlns ≠ "" ∧ oldf.xmlns ≠ newf.xmlns then false
  else
    let minl := min newf.parents.length oldf.parents.length
    if oldf.parents.take minl ≠ newf.parents.take minl then false
    else if oldf.parents.length > newf.parents.length then
      oldf.parents[newf.parents.length]? = some newf.name
    else if oldf.parents.length < newf.parents.length then
      newf.parents[oldf.parents.length]? = some oldf.name
    else newf.name = oldf.name ∧ newf.xmlns = oldf.xmlns

/-- The function addFieldInfo of encoding/xml for structs without embedded fields: all
fields are at the same depth, so a conflict is a TagPathError. -/
def addFieldInfo (tinfo : typeInfo) (newf : fieldInfo) : Except String typeInfo :=
  if tinfo.fields.any (fun oldf => conflicts oldf newf) then .error "xml: tag path conflict"
  else .ok ⟨tinfo.xmlname, tinfo.fields ++ [newf]⟩

/-- Whether a field name is exported: it starts with an upper-case letter. -/
def isExported (goName : String) : Bool :=
  match goName.data with
  | c :: _ => c.isUpper
  | [] => false

/-- The function getTypeInfo of encoding/xml for a struct type without embedded fields,
given by its field declarations. -/
def getTypeInfo (fields : List StructField) : Except String typeInfo :=
  fields.enum.foldl
    (fun acc entry =>
      match acc with
      | .error e => .error e
      | .ok tinfo =>
        if !isExported entry.2.goName || entry.2.tag = "-" then .ok tinfo
        else
          match structFieldInfo entry.1 entry.2 with
          | .error e => .error e
          | .ok finfo =>
            if entry.2.goName = "XMLName" then .ok ⟨some finfo, tinfo.fields⟩
            else addFieldInfo tinfo finfo)
    (.ok ⟨none, []⟩)

/-- The fields of a struct type as encoding/xml sees them (XMLName apart); empty when the
tags are refused. -/
def typeFields (fields : List StructField) : List fieldInfo :=
  match getTypeInfo fields with
  | .ok tinfo => tinfo.fields
  | .error _ => []

/-- The variant slots of a property record: the fields that encoding/xml treats as child
elements. -/
def variantSlots (fields : List StructField) : List fieldInfo :=
  (typeFields fields).filter (fun finfo => finfo.flags &&& fElement ≠ 0)

/-- The attribute fields of a record. -/
def attrFields (fields : List StructField) : List fieldInfo :=
  (typeFields fields).filter (fun finfo => finfo.flags &&& fAttr ≠ 0)

/-- The declared type of the field a fieldInfo belongs to. -/
def fieldType (fields : List StructField) (finfo : fieldInfo) : Option GoType :=
  (fields[finfo.idx]?).map (·.goType)

/-- Declarations of the emit container. -/
def emitContainerDecls : List StructField := xlsxCustomProperties.fields.map Field.decl

/-- Declarations of the accept container. -/
def acceptContainerDecls : List StructField := decodeCustomProperties.fields.map Field.decl

/-- The emit dialect: declarations of xlsxProperty. -/
def emitDecls : List StructField := xlsxProperty.fields.map Field.decl

/-- The accept dialect: declarations of decodeProperty. -/
def acceptDecls : List StructField := decodeProperty.fields.map Field.decl

/-- The catalogue of variant type names: the element names of the accept dialect. -/
def catalogue : List String := (variantSlots acceptDecls).map (·.name)

/-- The declared type of the variant slot with the given element name. -/
def slotType (fields : List StructField) (name : String) : Option GoType :=
  ((variantSlots fields).find? (fun finfo => finfo.name = name)).bind (fieldType fields)


/-! ## strconv and strings: text of simple values -/

namespace strconv

/-- The decimal digit character of a number below ten. -/
def digitChar (d : Nat) : Char := Char.ofNat (48 + d)

/-- The decimal digits of n in front of `acc`, most significant first; `fuel` bounds the
number of digits. -/
def digits : Nat → Nat → List Char → List Char
  | 0, _, acc => acc
  | fuel + 1, n, acc =>
    if n / 10 = 0 then digitChar (n % 10) :: acc
    else digits fuel (n / 10) (digitChar (n % 10) :: acc)

/-- The function strconv.FormatUint in base 10. -/
def FormatUint (n : Nat) : String := String.mk (digits (n + 1) n [])

/-- The function strconv.FormatInt in base 10. -/
def FormatInt (i : Int) : String :=
  if i < 0 then String.mk ('-' :: (FormatUint i.natAbs).data) else FormatUint i.toNat

/-- The value of a decimal digit character. -/
def digitValue (c : Char) : Option Nat :=
  if 48 ≤ c.toNat ∧ c.toNat ≤ 57 then some (c.toNat - 48) else none

/-- The number a run of decimal digits continues from `acc`; none when a character is not
a decimal digit. -/
def parseDigits : List Char → Nat → Option Nat
  | [], acc => some acc
  | c :: cs, acc =>
    match digitValue c with
    | some d => parseDigits cs (acc * 10 + d)
    | none => none

/-- The function strconv.ParseUint in base 10: no sign, at least one digit, and the value
must fit the bit size. -/
def ParseUint (s : String) (bitSize : Nat) : Except String (UnsignedInt bitSize) :=
  match s.data with
  | [] => .error "strconv.ParseUint: invalid syntax"
  | cs =>
    match parseDigits cs 0 with
    | none => .error "strconv.ParseUint: invalid syntax"
    | some n =>
      if h : n < 2 ^ bitSize then .ok ⟨n, h⟩
      else .error "strconv.ParseUint: value out of range"

/-- The sign and the digits of a signed numeral: the leading sign is picked off. -/
def splitSign : List Char → Bool × List Char
  | '+' :: cs => (false, cs)
  | '-' :: cs => (true, cs)
  | cs => (false, cs)

/-- The function strconv.ParseInt in base 10: an optional sign, at least one digit, and
the value must fit the signed bit size. -/
def ParseInt (s : String) (bitSize : Nat) : Except String (SignedInt bitSize) :=
  match s.data with
  | [] => .error "strconv.ParseInt: invalid syntax"
  | cs =>
    match (splitSign cs).2 with
    | [] => .error "strconv.ParseInt: invalid syntax"
    | ds =>
      match parseDigits ds 0 with
      | none => .error "strconv.ParseInt: invalid syntax"
      | some n =>
        let v : Int := if (splitSign cs).1 then -(n : Int) else (n : Int)
        if h : -(2 ^ (bitSize - 1) : Int) ≤ v ∧ v < (2 ^ (bitSize - 1) : Int) then
          .ok ⟨v, h.1, h.2⟩
        else .error "strconv.ParseInt: value out of range"

/-- The function strconv.FormatBool. -/
def FormatBool (b : Bool) : String := if b then "true" else "false"

/-- The function strconv.ParseBool. -/
def ParseBool (s : String) : Except String Bool :=
  if s ∈ ["1", "t", "T", "TRUE", "true", "True"] then .ok true
  else if s ∈ ["0", "f", "F", "FALSE", "false", "False"] then .ok false
  else .error "strconv.ParseBool: invalid syntax"

end strconv

/-- The function unicode.IsSpace: the white space characters of Unicode. -/
def isSpace (c : Char) : Bool :=
  let n := c.toNat
  (9 ≤ n ∧ n ≤ 13) ∨ n = 32 ∨ n = 0x85 ∨ n = 0xA0 ∨ n = 0x1680 ∨ (0x2000 ≤ n ∧ n ≤ 0x200A) ∨
    n = 0x2028 ∨ n = 0x2029 ∨ n = 0x202F ∨ n = 0x205F ∨ n = 0x3000

/-- The function strings.TrimSpace. -/
def TrimSpace (s : String) : String :=
  String.mk ((s.data.dropWhile isSpace).reverse.dropWhile isSpace).reverse

/-- The conversions of strconv between floats and text, for both widths, where they turn on
the digits of the number: FormatFloat (format g, shortest precision) on a finite value, and
ParseFloat on every text but the ones decided before it below.  Binary floating point is
outside this development: these conversions are a parameter of everything that touches a
float. -/
structure FloatConv where
  format32 : float32 → String
  parse32 : String → Except String float32
  format64 : float64 → String
  parse64 : String → Except String float64

namespace strconv

/-- The special values in genericFtoa of strconv (ftoa.go), decided before any digit is
produced: when all exponent bits are set, the text is NaN for a mantissa that is not zero,
and otherwise -Inf or +Inf by the sign bit.  The result is none for a finite value. -/
def specialText (expbits mantbits bits : Nat) : Option String :=
  if bits / 2 ^ mantbits % 2 ^ expbits = 2 ^ expbits - 1 then
    some (if bits % 2 ^ mantbits ≠ 0 then "NaN"
      else if bits / 2 ^ (expbits + mantbits) ≠ 0 then "-Inf" else "+Inf")
  else none

/-- The function strconv.FormatFloat at format g, shortest precision and bit size 32, as
marshalSimple calls it. -/
def FormatFloat32 (fc : FloatConv) (x : float32) : String :=
  match specialText 8 23 x.bits with
  | some s => s
  | none => fc.format32 x

/-- The function strconv.FormatFloat at format g, shortest precision and bit size 64. -/
def FormatFloat64 (fc : FloatConv) (x : float64) : String :=
  match specialText 11 52 x.bits with
  | some s => s
  | none => fc.format64 x

/-- The function strconv.ParseFloat at bit size 32.  The two texts FormatFloat writes for
the infinities are decided by the function special of atof.go; every other text, the
text NaN among them (its float32 comes out of a conversion from float64), goes to the
parameter. -/
def ParseFloat32 (fc : FloatConv) (s : String) : Except String float32 :=
  if s = "+Inf" then .ok ⟨0x7F800000, by decide⟩
  else if s = "-Inf" then .ok ⟨0xFF800000, by decide⟩
  else fc.parse32 s

/-- The function strconv.ParseFloat at bit size 64.  The three texts FormatFloat writes
for the special values are decided by the function special of atof.go: NaN is math.NaN(),
the one bit pattern 0x7FF8000000000001, whatever NaN was written.  Every other text goes
to the parameter. -/
def ParseFloat64 (fc : FloatConv) (s : String) : Except String float64 :=
  if s = "NaN" then .ok ⟨0x7FF8000000000001, by decide⟩
  else if s = "+Inf" then .ok ⟨0x7FF0000000000000, by decide⟩
  else if s = "-Inf" then .ok ⟨0xFFF0000000000000, by decide⟩
  else fc.parse64 s

end strconv

/-- The function marshalSimple of encoding/xml (marshal.go): the text of a value of a
simple type.  A struct such as xml.Name is not a simple type. -/
def marshalSimple (fc : FloatConv) : Scalar → Except String String
  | .int v => .ok (strconv.FormatInt v.val)
  | .int8 v => .ok (strconv.FormatInt v.val)
  | .int16 v => .ok (strconv.FormatInt v.val)
  | .int32 v => .ok (strconv.FormatInt v.val)
  | .int64 v => .ok (strconv.FormatInt v.val)
  | .uint v => .ok (strconv.FormatUint v.val)
  | .uint8 v => .ok (strconv.FormatUint v.val)
  | .uint16 v => .ok (strconv.FormatUint v.val)
  | .uint32 v => .ok (strconv.FormatUint v.val)
  | .uint64 v => .ok (strconv.FormatUint v.val)
  | .float32 v => .ok (strconv.FormatFloat32 fc v)
  | .float64 v => .ok (strconv.FormatFloat64 fc v)
  | .string v => .ok v
  | .bool v => .ok (strconv.FormatBool v)
  | .xmlName _ => .error "xml: unsupported type"

/-- The function copyValue of encoding/xml (read.go): the value of a simple type that a
text stands for.  A pointer is allocated and the value goes to what it points to; empty
text gives the zero value of a number or a boolean. -/
def copyValue (fc : FloatConv) (dst : GoType) (src : String) : Except String Scalar :=
  let elem := match dst with
    | .ptr t => t
    | t => t
  match elem with
  | .int => if src = "" then .ok (.int (SignedInt.zero _))
      else (strconv.ParseInt (TrimSpace src) IntSize).map .int
  | .int8 => if src = "" then .ok (.int8 (SignedInt.zero _))
      else (strconv.ParseInt (TrimSpace src) 8).map .int8
  | .int16 => if src = "" then .ok (.int16 (SignedInt.zero _))
      else (strconv.ParseInt (TrimSpace src) 16).map .int16
  | .int32 => if src = "" then .ok (.int32 (SignedInt.zero _))
      else (strconv.ParseInt (TrimSpace src) 32).map .int32
  | .int64 => if src = "" then .ok (.int64 (SignedInt.zero _))
      else (strconv.ParseInt (TrimSpace src) 64).map .int64
  | .uint => if src = "" then .ok (.uint (UnsignedInt.zero _))
      else (strconv.ParseUint (TrimSpace src) IntSize).map .uint
  | .uint8 => if src = "" then .ok (.uint8 (UnsignedInt.zero _))
      else (strconv.ParseUint (TrimSpace src) 8).map .uint8
  | .uint16 => if src = "" then .ok (.uint16 (UnsignedInt.zero _))
      else (strconv.ParseUint (TrimSpace src) 16).map .uint16
  | .uint32 => if src = "" then .ok (.uint32 (UnsignedInt.zero _))
      else (strconv.ParseUint (TrimSpace src) 32).map .uint32
  | .uint64 => if src = "" then .ok (.uint64 (UnsignedInt.zero _))
      else (strconv.ParseUint (TrimSpace src) 64).map .uint64
  | .float32 => if src = "" then .ok (.float32 (FloatBits.zero _))
      else (strconv.ParseFloat32 fc (TrimSpace src)).map .float32
  | .float64 => if src = "" then .ok (.float64 (FloatBits.zero _))
      else (strconv.ParseFloat64 fc (TrimSpace src)).map .float64
  | .bool => if src = "" then .ok (.bool false)
      else (strconv.ParseBool (TrimSpace src)).map .bool
  | .string => .ok (.string src)
  | _ => .error "cannot unmarshal into this type"

/-- The function isInCharacterRange of encoding/xml: the characters the XML
specification allows in a document. -/
def isInCharacterRange (c : Char) : Bool :=
  let n := c.toNat
  n = 0x09 ∨ n = 0x0A ∨ n = 0x0D ∨ (0x20 ≤ n ∧ n ≤ 0xD7FF) ∨ (0xE000 ≤ n ∧ n ≤ 0xFFFD) ∨
    (0x10000 ≤ n ∧ n ≤ 0x10FFFF)

/-- The text that reads back from what EscapeText of encoding/xml writes: markup
characters are written as entities and read back unchanged, a character outside the XML
range is written as U+FFFD. -/
def escapeText (s : String) : String :=
  String.mk (s.data.map (fun c => if isInCharacterRange c then c else Char.ofNat 0xFFFD))


/-! ## Documents: what the printer writes and what the reader hands over -/

/-- A start tag as written in a document: the name as spelled, prefix included, and the
attributes as spelled, name space declarations among them. -/
structure RawStart where
  name : String
  attrs : List (String × String)
  deriving DecidableEq, Repr

namespace xml

/-- The xml.StartElement of encoding/xml: a start tag with its names resolved. -/
structure StartElement where
  Name : xml.Name
  Attr : List xml.Attr
  deriving DecidableEq, Repr

end xml

/-- An element: its start tag and its content. -/
structure Node (S χ : Type) where
  start : S
  content : χ
  deriving DecidableEq, Repr

/-- A variant element: its content is character data. -/
abbrev VariantElement (S : Type) := Node S String

/-- A property element: its content is a sequence of variant elements. -/
abbrev PropertyElement (S : Type) := Node S (List (VariantElement S))

/-- The Properties document: its content is a sequence of property elements. -/
abbrev PropertiesElement (S : Type) := Node S (List (PropertyElement S))

deriving instance DecidableEq for Except

/-- Apply a fallible function to every element of a list, in order; the first failure is
the result. -/
def traverse {α β : Type} (f : α → Except String β) : List α → Except String (List β)
  | [] => .ok []
  | a :: more =>
    match f a with
    | .error e => .error e
    | .ok b =>
      match traverse f more with
      | .error e => .error e
      | .ok bs => .ok (b :: bs)

/-- The name space bindings in scope, innermost first: prefix and URI; the empty prefix is
the default name space. -/
abbrev NsMap := List (String × String)

/-- The method nsname of the Decoder (xml.go): a spelled name is split at its colon into
prefix and local name; a name with more than one colon is refused. -/
def nsname (s : String) : Except String xml.Name :=
  if s.data.count ':' > 1 then .error "XML syntax error: invalid name"
  else
    match cut ':' s.data with
    | some (space, loc) =>
      if space = [] ∨ loc = [] then .ok ⟨"", s⟩ else .ok ⟨String.mk space, String.mk loc⟩
    | none => .ok ⟨"", s⟩

def xmlURL : String := "http://www.w3.org/XML/1998/namespace"

/-- The method translate of the Decoder (xml.go): the prefix of a name is replaced by the
name space bound to it. -/
def translate (ns : NsMap) (n : xml.Name) (isElementName : Bool) : xml.Name :=
  let resolve := fun (m : xml.Name) =>
    match ns.lookup m.Space with
    | some uri => (⟨uri, m.Local⟩ : xml.Name)
    | none => m
  if n.Space = "xmlns" then n
  else if n.Space = "" ∧ !isElementName then n
  else if n.Space = "xml" then resolve ⟨xmlURL, n.Local⟩
  else if n.Space = "" ∧ n.Local = "xmlns" then n
  else resolve n

/-- The bindings the attributes of a start tag add (the loop at StartElement in Token). -/
def declare (ns : NsMap) : List xml.Attr → NsMap
  | [] => ns
  | a :: more =>
    if a.Name.Space = "xmlns" then declare ((a.Name.Local, a.Value) :: ns) more
    else if a.Name.Space = "" ∧ a.Name.Local = "xmlns" then declare (("", a.Value) :: ns) more
    else declare ns more

/-- The start tag the reader hands over for a written one, and the bindings in scope
inside the element: names are split, the declarations of the tag are applied, then the
element name and the attribute names are translated. -/
def readStart (ns : NsMap) (s : RawStart) : Except String (NsMap × xml.StartElement) :=
  match nsname s.name with
  | .error e => .error e
  | .ok name =>
    match traverse (fun a => (nsname a.1).map (fun n => (⟨n, a.2⟩ : xml.Attr))) s.attrs with
    | .error e => .error e
    | .ok attrs =>
      let inner := declare ns attrs
      .ok (inner, ⟨translate inner name true,
        attrs.map (fun a => ⟨translate inner a.Name false, a.Value⟩)⟩)

/-- Reading a variant element. -/
def readVariant (ns : NsMap) (e : VariantElement RawStart) :
    Except String (VariantElement xml.StartElement) :=
  (readStart ns e.start).map (fun r => ⟨r.2, e.content⟩)

/-- Reading a property element. -/
def readProperty (ns : NsMap) (e : PropertyElement RawStart) :
    Except String (PropertyElement xml.StartElement) :=
  match readStart ns e.start with
  | .error err => .error err
  | .ok (inner, start) => (traverse (readVariant inner) e.content).map (fun cs => ⟨start, cs⟩)

/-- Reading a Properties document; no binding is in scope at the root. -/
def readProperties (e : PropertiesElement RawStart) :
    Except String (PropertiesElement xml.StartElement) :=
  match readStart [] e.start with
  | .error err => .error err
  | .ok (inner, start) => (traverse (readProperty inner) e.content).map (fun cs => ⟨start, cs⟩)

/-! ## encoding/xml: marshalling a record (marshal.go) -/

/-- The function isEmptyValue of encoding/xml: a nil pointer, an empty string, false, or a
zero number. -/
def isEmptyValue (t : GoType) (fv : Option Scalar) : Bool :=
  match t, fv with
  | .ptr _, fv => fv.isNone
  | _, none => true
  | _, some (.string v) => v = ""
  | _, some (.bool v) => !v
  | _, some (.int v) => v.val = 0
  | _, some (.int8 v) => v.val = 0
  | _, some (.int16 v) => v.val = 0
  | _, some (.int32 v) => v.val = 0
  | _, some (.int64 v) => v.val = 0
  | _, some (.uint v) => v.val = 0
  | _, some (.uint8 v) => v.val = 0
  | _, some (.uint16 v) => v.val = 0
  | _, some (.uint32 v) => v.val = 0
  | _, some (.uint64 v) => v.val = 0
  | _, some (.float32 v) => v.bits = 0
  | _, some (.float64 v) => v.bits = 0
  | _, some (.xmlName _) => false

/-- The attributes written for the attribute fields of a record, in field order (the
attribute loop of marshalValue with marshalAttr): a field marked omitempty is left out when
empty, a nil pointer is left out. -/
def marshalAttrs {R : Type} (fc : FloatConv) (fields : List (Field R)) (r : R) :
    List fieldInfo → Except String (List (String × String))
  | [] => .ok []
  | finfo :: more =>
    if finfo.flags &&& fAttr = 0 then marshalAttrs fc fields r more
    else
      match fields[finfo.idx]? with
      | none => .error "no such field"
      | some f =>
        if finfo.flags &&& fOmitEmpty ≠ 0 ∧ isEmptyValue f.goType (f.get r) then
          marshalAttrs fc fields r more
        else
          match f.get r with
          | none => marshalAttrs fc fields r more
          | some v =>
            if finfo.xmlns ≠ "" then .error "attribute in a name space: not covered"
            else
              match marshalSimple fc v, marshalAttrs fc fields r more with
              | .ok s, .ok rest =>
                if finfo.name = "" then .ok rest else .ok ((finfo.name, escapeText s) :: rest)
              | .error e, _ => .error e
              | _, .error e => .error e

/-- The start tag written for an element name: the local name as given, the name space as
a default name space declaration (writeStart). -/
def writeStart (name : xml.Name) (attrs : List (String × String)) : RawStart :=
  ⟨name.Local, (if name.Space = "" then [] else [("xmlns", name.Space)]) ++ attrs⟩

/-- The child elements written for the element fields of a record, in field order (the
loop of marshalStruct with marshalValue for a field of a simple type): nothing is written
for a nil pointer. -/
def marshalElems {R : Type} (fc : FloatConv) (fields : List (Field R)) (r : R) :
    List fieldInfo → Except String (List (VariantElement RawStart))
  | [] => .ok []
  | finfo :: more =>
    if finfo.flags &&& fAttr ≠ 0 then marshalElems fc fields r more
    else if finfo.flags &&& fMode ≠ fElement ∨ finfo.parents ≠ [] then
      .error "character data, comment, any or a parent chain: not covered"
    else
      match fields[finfo.idx]? with
      | none => .error "no such field"
      | some f =>
        match f.get r with
        | none => marshalElems fc fields r more
        | some v =>
          if finfo.flags &&& fOmitEmpty ≠ 0 ∧ isEmptyValue f.goType (some v) then
            marshalElems fc fields r more
          else if finfo.name = "" then .error "xml: start tag with no name"
          else
            match marshalSimple fc v, marshalElems fc fields r more with
            | .ok s, .ok rest => .ok (⟨writeStart ⟨finfo.xmlns, finfo.name⟩ [], escapeText s⟩ :: rest)
            | .error e, _ => .error e
            | _, .error e => .error e

/-- The element name of a struct value (marshalValue): the name in the tag of its XMLName
field, else the value of that field, else the name of the field that holds the value,
else the name of the type. -/
def startName (xmlname : Option fieldInfo) (value : Option Scalar) (finfo : Option fieldInfo)
    (typeName : String) : xml.Name :=
  let own : xml.Name :=
    match xmlname with
    | some x =>
      if x.name ≠ "" then ⟨x.xmlns, x.name⟩
      else
        match value with
        | some (.xmlName v) => if v.Local ≠ "" then v else ⟨"", ""⟩
        | _ => ⟨"", ""⟩
    | none => ⟨"", ""⟩
  let named : xml.Name :=
    if own.Local = "" then
      match finfo with
      | some fi => ⟨fi.xmlns, fi.name⟩
      | none => own
    else own
  if named.Local = "" then ⟨named.Space, typeName⟩ else named

/-- Marshalling a property record (marshalValue for a struct of simple fields): the
element with its attributes and its variant children.  `finfo` is the field that holds
the record, `typeName` the name of its type. -/
def marshalStruct {R : Type} (fc : FloatConv) (typeName : String) (fields : List (Field R))
    (finfo : Option fieldInfo) (r : R) : Except String (PropertyElement RawStart) :=
  match getTypeInfo (fields.map Field.decl) with
  | .error e => .error e
  | .ok tinfo =>
    let name := startName tinfo.xmlname
      ((tinfo.xmlname.bind (fun x => fields[x.idx]?)).bind (fun f => f.get r)) finfo typeName
    match marshalAttrs fc fields r tinfo.fields, marshalElems fc fields r tinfo.fields with
    | .ok attrs, .ok elems => .ok ⟨writeStart name attrs, elems⟩
    | .error e, _ => .error e
    | _, .error e => .error e

/-! ## encoding/xml: unmarshalling a record (read.go) -/

/-- One attribute against the fields of a record (the attribute loop of unmarshal with
unmarshalAttr): every attribute field of that local name, in any name space when the tag
names none, takes the value. -/
def unmarshalAttr {R : Type} (fc : FloatConv) (fields : List (Field R)) (a : xml.Attr) :
    List fieldInfo → R → Except String R
  | [], r => .ok r
  | finfo :: more, r =>
    if finfo.flags &&& fMode = fAttr ∧ a.Name.Local = finfo.name ∧
        (finfo.xmlns = "" ∨ finfo.xmlns = a.Name.Space) then
      match fields[finfo.idx]? with
      | none => .error "no such field"
      | some f =>
        match copyValue fc f.goType a.Value with
        | .error e => .error e
        | .ok v => unmarshalAttr fc fields a more (f.set r v)
    else unmarshalAttr fc fields a more r

/-- All attributes of a start tag, in order. -/
def unmarshalAttrs {R : Type} (fc : FloatConv) (fields : List (Field R))
    (tfields : List fieldInfo) : List xml.Attr → R → Except String R
  | [], r => .ok r
  | a :: more, r =>
    match unmarshalAttr fc fields a tfields r with
    | .error e => .error e
    | .ok r1 => unmarshalAttrs fc fields tfields more r1

/-- Whether a type is one whose element content is character data (the simple kinds in
the switch of unmarshal), possibly behind a pointer. -/
def isSimple : GoType → Bool
  | .ptr (.ptr _) => false
  | .ptr t => isSimple t
  | .string | .bool | .int | .int8 | .int16 | .int32 | .int64 => true
  | .uint | .uint8 | .uint16 | .uint32 | .uint64 | .float32 | .float64 => true
  | _ => false

/-- Unmarshalling a child element into the field it matched (unmarshal for a field of a
simple type): the character data of the child is converted by copyValue, a nil pointer
being allocated first; a field of type xml.Name takes the name of the child. -/
def assignElement {R : Type} (fc : FloatConv) (fields : List (Field R)) (finfo : fieldInfo)
    (child : VariantElement xml.StartElement) (r : R) : Except String R :=
  match fields[finfo.idx]? with
  | none => .error "no such field"
  | some f =>
    if f.goType = .xmlName then .ok (f.set r (.xmlName child.start.Name))
    else if isSimple f.goType then
      match copyValue fc f.goType child.content with
      | .error e => .error e
      | .ok v => .ok (f.set r v)
    else .error "field of a struct, slice or interface type: not covered"

/-- One child element against the fields of a record (unmarshalPath at the top of the
path): the first element field of that local name, in any name space when the tag names
none, takes the child; a child that matches no field is skipped. -/
def unmarshalPath {R : Type} (fc : FloatConv) (fields : List (Field R))
    (child : VariantElement xml.StartElement) : List fieldInfo → R → Except String R
  | [], r => .ok r
  | finfo :: more, r =>
    if finfo.flags &&& fElement = 0 ∨
        (finfo.xmlns ≠ "" ∧ finfo.xmlns ≠ child.start.Name.Space) then
      unmarshalPath fc fields child more r
    else if finfo.parents = [] ∧ finfo.name = child.start.Name.Local then
      assignElement fc fields finfo child r
    else if finfo.parents.head? = some child.start.Name.Local then
      .error "parent chain: not covered"
    else unmarshalPath fc fields child more r

/-- All child elements, in order. -/
def unmarshalChildren {R : Type} (fc : FloatConv) (fields : List (Field R))
    (tfields : List fieldInfo) : List (VariantElement xml.StartElement) → R → Except String R
  | [], r => .ok r
  | child :: more, r =>
    match unmarshalPath fc fields child tfields r with
    | .error e => .error e
    | .ok r1 => unmarshalChildren fc fields tfields more r1

/-- The start of unmarshalling a struct: the element name is checked against the tag of
the XMLName field and stored in that field, then the attributes are assigned. -/
def unmarshalStart {R : Type} (fc : FloatConv) (fields : List (Field R)) (tinfo : typeInfo)
    (start : xml.StartElement) (r : R) : Except String R :=
  let named : Except String R :=
    match tinfo.xmlname with
    | none => .ok r
    | some finfo =>
      if finfo.name ≠ "" ∧ finfo.name ≠ start.Name.Local then
        .error "expected element type of another name"
      else if finfo.xmlns ≠ "" ∧ finfo.xmlns ≠ start.Name.Space then
        .error "expected element in another name space"
      else
        match fields[finfo.idx]? with
        | none => .error "no such field"
        | some f => .ok (f.set r (.xmlName start.Name))
  match named with
  | .error e => .error e
  | .ok r1 => unmarshalAttrs fc fields tinfo.fields start.Attr r1

/-- Unmarshalling a property element into a record of simple fields, starting from `r`
(the zero record for a fresh value). -/
def unmarshalStruct {R : Type} (fc : FloatConv) (fields : List (Field R)) (r : R)
    (e : PropertyElement xml.StartElement) : Except String R :=
  match getTypeInfo (fields.map Field.decl) with
  | .error err => .error err
  | .ok tinfo =>
    match unmarshalStart fc fields tinfo e.start r with
    | .error err => .error err
    | .ok r1 => unmarshalChildren fc fields tinfo.fields e.content r1

/-- Reading a written property element with the given bindings in scope and unmarshalling
it into a fresh accept record. -/
def decodeWritten (fc : FloatConv) (ns : NsMap) (e : PropertyElement RawStart) :
    Except String decodeProperty :=
  match readProperty ns e with
  | .error err => .error err
  | .ok element => unmarshalStruct fc decodeProperty.fields {} element

/-! ## The containers -/

/-- The name space of the custom-properties part, as the tag of XMLName spells it. -/
def customPropertiesNs : String :=
  "http://schemas.openxmlformats.org/officeDocument/2006/custom-properties"

/-- The name space of the variant types, which the library binds to the qualifier vt. -/
def variantTypesNs : String :=
  "http://schemas.openxmlformats.org/officeDocument/2006/docPropsVTypes"


/-- The property elements written for the element fields of the emit container (the loop
of marshalStruct; marshalValue writes a slice as its elements one after another, with no
enclosing tag). -/
def marshalPropertyFields (fc : FloatConv) (c : xlsxCustomProperties) :
    List fieldInfo → Except String (List (PropertyElement RawStart))
  | [] => .ok []
  | finfo :: more =>
    if finfo.flags &&& fAttr ≠ 0 then marshalPropertyFields fc c more
    else if finfo.flags &&& fMode ≠ fElement ∨ finfo.parents ≠ [] then
      .error "character data, comment, any or a parent chain: not covered"
    else if (xlsxCustomProperties.fields[finfo.idx]?).map (·.goType) =
        some (.slice (.named "xlsxProperty")) then
      match traverse (marshalStruct fc "xlsxProperty" xlsxProperty.fields (some finfo)) c.Property,
        marshalPropertyFields fc c more with
      | .ok props, .ok rest => .ok (props ++ rest)
      | .error e, _ => .error e
      | _, .error e => .error e
    else .error "element field of another type: not covered"

/-- The function xml.Marshal on an emit container, up to the spelling of the document. -/
def marshalProperties (fc : FloatConv) (c : xlsxCustomProperties) :
    Except String (PropertiesElement RawStart) :=
  match getTypeInfo emitContainerDecls with
  | .error e => .error e
  | .ok tinfo =>
    let name := startName tinfo.xmlname (some (.xmlName c.XMLName)) none "xlsxCustomProperties"
    match marshalAttrs fc xlsxCustomProperties.fields c tinfo.fields,
      marshalPropertyFields fc c tinfo.fields with
    | .ok attrs, .ok props => .ok ⟨writeStart name attrs, props⟩
    | .error e, _ => .error e
    | _, .error e => .error e

/-- One child element of the root against the fields of the accept container
(unmarshalPath): a child that matches the Property field is unmarshalled into a fresh
record appended to the slice; a child that matches no field is skipped. -/
def unmarshalPropertyChild (fc : FloatConv) (child : PropertyElement xml.StartElement) :
    List fieldInfo → decodeCustomProperties → Except String decodeCustomProperties
  | [], c => .ok c
  | finfo :: more, c =>
    if finfo.flags &&& fElement = 0 ∨
        (finfo.xmlns ≠ "" ∧ finfo.xmlns ≠ child.start.Name.Space) then
      unmarshalPropertyChild fc child more c
    else if finfo.parents = [] ∧ finfo.name = child.start.Name.Local then
      if (decodeCustomProperties.fields[finfo.idx]?).map (·.goType) =
          some (.slice (.named "decodeProperty")) then
        match unmarshalStruct fc decodeProperty.fields {} child with
        | .error e => .error e
        | .ok p => .ok { c with Property := c.Property ++ [p] }
      else .error "element field of another type: not covered"
    else if finfo.parents.head? = some child.start.Name.Local then
      .error "parent chain: not covered"
    else unmarshalPropertyChild fc child more c

/-- All child elements of the root, in order. -/
def unmarshalPropertyChildren (fc : FloatConv) (tfields : List fieldInfo) :
    List (PropertyElement xml.StartElement) → decodeCustomProperties →
      Except String decodeCustomProperties
  | [], c => .ok c
  | child :: more, c =>
    match unmarshalPropertyChild fc child tfields c with
    | .error e => .error e
    | .ok c1 => unmarshalPropertyChildren fc tfields more c1

/-- The function xml.Unmarshal into an accept container `c` (the zero container for a
fresh value), from the document as the reader hands it over. -/
def unmarshalProperties (fc : FloatConv) (c : decodeCustomProperties)
    (e : PropertiesElement xml.StartElement) : Except String decodeCustomProperties :=
  match getTypeInfo acceptContainerDecls with
  | .error err => .error err
  | .ok tinfo =>
    match unmarshalStart fc decodeCustomProperties.fields tinfo e.start c with
    | .error err => .error err
    | .ok c1 => unmarshalPropertyChildren fc tinfo.fields e.content c1

/-- An emit container for the closed examples: a string, an integer, a boolean and a date,
each in the slot the encode construction uses, and the variant-types name space as the
declaration string. -/
def exampleContainer : xlsxCustomProperties where
  Vt := variantTypesNs
  Property := [
    { FmtID := "D5CDD505-2E9C-101B-9397-08002B2CF9AE", PID := ⟨2, by decide, by decide⟩,
      Name := "Department", Lpwstr := some "Finance" },
    { FmtID := "D5CDD505-2E9C-101B-9397-08002B2CF9AE", PID := ⟨3, by decide, by decide⟩,
      Name := "Answer", I4 := some ⟨42, by decide, by decide⟩ },
    { FmtID := "D5CDD505-2E9C-101B-9397-08002B2CF9AE", PID := ⟨4, by decide, by decide⟩,
      Name := "Checked", Bool := some true },
    { FmtID := "D5CDD505-2E9C-101B-9397-08002B2CF9AE", PID := ⟨5, by decide, by decide⟩,
      Name := "Since", Date := some "2024-01-31T00:00:00Z" }]

/-- Encoding an emit container and decoding the document into a fresh accept container. -/
def decodeEncoded (fc : FloatConv) (c : xlsxCustomProperties) :
    Except String decodeCustomProperties :=
  match marshalProperties fc c with
  | .error e => .error e
  | .ok written =>
    match readProperties written with
    | .error e => .error e
    | .ok document => unmarshalProperties fc {} document

/-! ## Views of a record used in the statements -/

/-- The values of all fields of a record, in declaration order (none for a nil pointer and
for the slice of a container). -/
def fieldValues {R : Type} (fields : List (Field R)) (r : R) : List (Option Scalar) :=
  fields.map (fun f => f.get r)

/-- A value as it reads back from a document: in a string every character outside the XML
range has become U+FFFD; any other value is as it was. -/
def Scalar.asRead : Scalar → Scalar
  | .string s => .string (escapeText s)
  | v => v

/-- A record of the emit dialect and a record of the accept dialect agree on every field
but XMLName: the same fmtid, pid, name and linkTarget, and slot by slot the same pointer
state and value. -/
def sameFields (p : xlsxProperty) (d : decodeProperty) : Prop :=
  (fieldValues xlsxProperty.fields p).tail = (fieldValues decodeProperty.fields d).tail

/-- A record of the accept dialect holds every field of a record of the emit dialect but
XMLName as it reads back from a document: the same fmtid, pid, name and linkTarget and
slot by slot the same pointer state and value, up to the characters outside the XML range
in strings. -/
def sameFieldsAsRead (p : xlsxProperty) (d : decodeProperty) : Prop :=
  (fieldValues xlsxProperty.fields p).tail.map (Option.map Scalar.asRead) =
    (fieldValues decodeProperty.fields d).tail

/-- The element names of the variant slots of a record that are not nil, in declaration
order. -/
def populatedSlots {R : Type} (fields : List (Field R)) (r : R) : List String :=
  ((variantSlots (fields.map Field.decl)).filter
    (fun finfo => ((fieldValues fields r)[finfo.idx]?).join.isSome)).map (·.name)

/-- The value of the variant slot with the given element name; none for a nil pointer. -/
def slotValue {R : Type} (fields : List (Field R)) (r : R) (name : String) : Option Scalar :=
  (((variantSlots (fields.map Field.decl)).find? (fun finfo => finfo.name = name)).bind
    (fun finfo => (fieldValues fields r)[finfo.idx]?)).join

/-- The type a pointer type points to; any other type is left as it is. -/
def GoType.deref : GoType → GoType
  | .ptr t => t
  | t => t

/-- The accessors of a field table are lawful: assigning a value of the type of the field
(or of the type its pointer points to) changes the value of that field and of no other;
assigning a value of another type changes nothing. -/
def Lawful {R : Type} (fields : List (Field R)) : Prop :=
  ∀ k f, fields[k]? = some f → ∀ (r : R) (v : Scalar),
    fieldValues fields (f.set r v) =
      if f.goType.deref = v.goType then (fieldValues fields r).set k (some v)
      else fieldValues fields r

/-- A character that is in the XML range and is not white space. -/
def isPlain (c : Char) : Bool := isInCharacterRange c && !isSpace c

/-- Assigning a value to the variant slot with the given element name; a name that is no
slot leaves the record as it is. -/
def setSlot {R : Type} (fields : List (Field R)) (r : R) (name : String) (v : Scalar) : R :=
  match ((variantSlots (fields.map Field.decl)).find? (fun finfo => finfo.name = name)).bind
      (fun finfo => fields[finfo.idx]?) with
  | some f => f.set r v
  | none => r

/-- A value survives the document as a field of type t: the text marshalSimple gives for
it, as it reads back, is converted by copyValue to the value as it reads back. -/
def Scalar.Survives (fc : FloatConv) (t : GoType) (v : Scalar) : Prop :=
  ∃ s, marshalSimple fc v = .ok s ∧ copyValue fc t (escapeText s) = .ok v.asRead

/-- Every string of a property record is made of characters of the XML range. -/
def xlsxProperty.TextClean (p : xlsxProperty) : Prop :=
  ∀ s, some (Scalar.string s) ∈ fieldValues xlsxProperty.fields p →
    ∀ ch ∈ s.data, isInCharacterRange ch = true

/-- The floats of a property record (the slots r4 and r8) survive the text conversions of
strconv. -/
def xlsxProperty.FloatsSurvive (fc : FloatConv) (p : xlsxProperty) : Prop :=
  ∀ v, some v ∈ fieldValues xlsxProperty.fields p →
    v.goType = .float32 ∨ v.goType = .float64 → Scalar.Survives fc (.ptr v.goType) v

/-- A stand-in for the parameter in closed examples: a finite float is written as the
decimal numeral of its bit pattern.  It is not the conversion of strconv; the closed
examples that use it hold no finite float, so they do not depend on it. -/
def FloatConv.ofBits : FloatConv where
  format32 := fun x => strconv.FormatUint x.bits
  parse32 := fun s => (strconv.ParseUint s 32).map (fun u => ⟨u.val, u.lt⟩)
  format64 := fun x => strconv.FormatUint x.bits
  parse64 := fun s => (strconv.ParseUint s 64).map (fun u => ⟨u.val, u.lt⟩)

/-- Whether an element field has the given local name (the test of unmarshalPath for a
field without name space and parents). -/
def elementMatch (loc : String) (finfo : fieldInfo) : Bool :=
  finfo.flags &&& fElement ≠ 0 && finfo.name = loc

/-- A slot of the emit dialect is aligned with the accept dialect: it is a plain element
field, its written name reads back as a local name that the accept dialect resolves to the
field at the same position, and both fields have the same pointer-to-simple type. -/
def slotAligned (eDecls aDecls : List StructField) (ta : List fieldInfo) (fe : fieldInfo) :
    Bool :=
  fe.flags = fElement && fe.parents = [] && fe.xmlns = "" && fe.name ≠ "" &&
  match nsname fe.name, eDecls[fe.idx]? with
  | .ok nm, some de =>
    (match ta.find? (elementMatch nm.Local) with
      | some fa => fa.idx = fe.idx && (aDecls[fa.idx]?).map (·.goType) = some de.goType
      | none => false) &&
    isSimple de.goType && de.goType ≠ .xmlName
  | _, _ => false

/-- The slots of an emit record carried over to an accept record one by one, in the
order of the given fields: a non-nil slot is assigned the value as it reads back, a nil
slot is passed over. -/
def transfer {R D : Type} (eFields : List (Field R)) (aFields : List (Field D)) (p : R) :
    List fieldInfo → D → D
  | [], d => d
  | fe :: more, d =>
    match (eFields[fe.idx]?).bind (fun f => f.get p), aFields[fe.idx]? with
    | some v, some fa => transfer eFields aFields p more (fa.set d v.asRead)
    | _, _ => transfer eFields aFields p more d

/-- The accept record an emit record decodes to: XMLName is the name of the element, the
attributes are taken over as they read back, then the slots are carried over one by one. -/
def decodedFrom (nm : xml.Name) (p : xlsxProperty) : decodeProperty :=
  transfer xlsxProperty.fields decodeProperty.fields p (variantSlots emitDecls)
    ({ XMLName := nm, FmtID := escapeText p.FmtID, PID := p.PID, Name := escapeText p.Name,
       LinkTarget := escapeText p.LinkTarget } : decodeProperty)

/-! # Theorems -/

/-! ## The tables as encoding/xml reads them

The type information of the two property records is computed once; the statements below
are then read off the literal tables. -/

theorem getTypeInfo_accept_table : getTypeInfo (decodeProperty.fields.map Field.decl) =
    .ok ⟨some ⟨0, "property", "", 1, []⟩,
      [⟨1, "fmtid", "", 2, []⟩, ⟨2, "pid", "", 2, []⟩, ⟨3, "name", "", 130, []⟩,
       ⟨4, "linkTarget", "", 130, []⟩, ⟨5, "vector", "", 1, []⟩, ⟨6, "array", "", 1, []⟩,
       ⟨7, "blob", "", 1, []⟩, ⟨8, "oblob", "", 1, []⟩, ⟨9, "empty", "", 1, []⟩,
       ⟨10, "null", "", 1, []⟩, ⟨11, "i1", "", 1, []⟩, ⟨12, "i2", "", 1, []⟩,
       ⟨13, "i4", "", 1, []⟩, ⟨14, "i8", "", 1, []⟩, ⟨15, "int", "", 1, []⟩,
       ⟨16, "ui1", "", 1, []⟩, ⟨17, "ui2", "", 1, []⟩, ⟨18, "ui4", "", 1, []⟩,
       ⟨19, "ui8", "", 1, []⟩, ⟨20, "uint", "", 1, []⟩, ⟨21, "r4", "", 1, []⟩,
       ⟨22, "r8", "", 1, []⟩, ⟨23, "decimal", "", 1, []⟩, ⟨24, "lpstr", "", 1, []⟩,
       ⟨25, "lpwstr", "", 1, []⟩, ⟨26, "bstr", "", 1, []⟩, ⟨27, "date", "", 1, []⟩,
       ⟨28, "filetime", "", 1, []⟩, ⟨29, "bool", "", 1, []⟩, ⟨30, "cy", "", 1, []⟩,
       ⟨31, "error", "", 1, []⟩, ⟨32, "stream", "", 1, []⟩, ⟨33, "ostream", "", 1, []⟩,
       ⟨34, "storage", "", 1, []⟩, ⟨35, "ostorage", "", 1, []⟩, ⟨36, "vstream", "", 1, []⟩,
       ⟨37, "clsid", "", 1, []⟩]⟩ := by
  decide!

theorem typeFields_accept_table : typeFields acceptDecls =
    [⟨1, "fmtid", "", 2, []⟩, ⟨2, "pid", "", 2, []⟩, ⟨3, "name", "", 130, []⟩,
     ⟨4, "linkTarget", "", 130, []⟩, ⟨5, "vector", "", 1, []⟩, ⟨6, "array", "", 1, []⟩,
     ⟨7, "blob", "", 1, []⟩, ⟨8, "oblob", "", 1, []⟩, ⟨9, "empty", "", 1, []⟩,
     ⟨10, "null", "", 1, []⟩, ⟨11, "i1", "", 1, []⟩, ⟨12, "i2", "", 1, []⟩,
     ⟨13, "i4", "", 1, []⟩, ⟨14, "i8", "", 1, []⟩, ⟨15, "int", "", 1, []⟩,
     ⟨16, "ui1", "", 1, []⟩, ⟨17, "ui2", "", 1, []⟩, ⟨18, "ui4", "", 1, []⟩,
     ⟨19, "ui8", "", 1, []⟩, ⟨20, "uint", "", 1, []⟩, ⟨21, "r4", "", 1, []⟩,
     ⟨22, "r8", "", 1, []⟩, ⟨23, "decimal", "", 1, []⟩, ⟨24, "lpstr", "", 1, []⟩,
     ⟨25, "lpwstr", "", 1, []⟩, ⟨26, "bstr", "", 1, []⟩, ⟨27, "date", "", 1, []⟩,
     ⟨28, "filetime", "", 1, []⟩, ⟨29, "bool", "", 1, []⟩, ⟨30, "cy", "", 1, []⟩,
     ⟨31, "error", "", 1, []⟩, ⟨32, "stream", "", 1, []⟩, ⟨33, "ostream", "", 1, []⟩,
     ⟨34, "storage", "", 1, []⟩, ⟨35, "ostorage", "", 1, []⟩, ⟨36, "vstream", "", 1, []⟩,
     ⟨37, "clsid", "", 1, []⟩] := by
  rw [typeFields, acceptDecls, getTypeInfo_accept_table]

theorem typeFields_accept_fields : typeFields (decodeProperty.fields.map Field.decl) =
    [⟨1, "fmtid", "", 2, []⟩, ⟨2, "pid", "", 2, []⟩, ⟨3, "name", "", 130, []⟩,
     ⟨4, "linkTarget", "", 130, []⟩, ⟨5, "vector", "", 1, []⟩, ⟨6, "array", "", 1, []⟩,
     ⟨7, "blob", "", 1, []⟩, ⟨8, "oblob", "", 1, []⟩, ⟨9, "empty", "", 1, []⟩,
     ⟨10, "null", "", 1, []⟩, ⟨11, "i1", "", 1, []⟩, ⟨12, "i2", "", 1, []⟩,
     ⟨13, "i4", "", 1, []⟩, ⟨14, "i8", "", 1, []⟩, ⟨15, "int", "", 1, []⟩,
     ⟨16, "ui1", "", 1, []⟩, ⟨17, "ui2", "", 1, []⟩, ⟨18, "ui4", "", 1, []⟩,
     ⟨19, "ui8", "", 1, []⟩, ⟨20, "uint", "", 1, []⟩, ⟨21, "r4", "", 1, []⟩,
     ⟨22, "r8", "", 1, []⟩, ⟨23, "decimal", "", 1, []⟩, ⟨24, "lpstr", "", 1, []⟩,
     ⟨25, "lpwstr", "", 1, []⟩, ⟨26, "bstr", "", 1, []⟩, ⟨27, "date", "", 1, []⟩,
     ⟨28, "filetime", "", 1, []⟩, ⟨29, "bool", "", 1, []⟩, ⟨30, "cy", "", 1, []⟩,
     ⟨31, "error", "", 1, []⟩, ⟨32, "stream", "", 1, []⟩, ⟨33, "ostream", "", 1, []⟩,
     ⟨34, "storage", "", 1, []⟩, ⟨35, "ostorage", "", 1, []⟩, ⟨36, "vstream", "", 1, []⟩,
     ⟨37, "clsid", "", 1, []⟩] :=
  typeFields_accept_table

theorem variantSlots_accept_table : variantSlots acceptDecls =
    [⟨5, "vector", "", 1, []⟩, ⟨6, "array", "", 1, []⟩, ⟨7, "blob", "", 1, []⟩,
     ⟨8, "oblob", "", 1, []⟩, ⟨9, "empty", "", 1, []⟩, ⟨10, "null", "", 1, []⟩,
     ⟨11, "i1", "", 1, []⟩, ⟨12, "i2", "", 1, []⟩, ⟨13, "i4", "", 1, []⟩, ⟨14, "i8", "", 1, []⟩,
     ⟨15, "int", "", 1, []⟩, ⟨16, "ui1", "", 1, []⟩, ⟨17, "ui2", "", 1, []⟩,
     ⟨18, "ui4", "", 1, []⟩, ⟨19, "ui8", "", 1, []⟩, ⟨20, "uint", "", 1, []⟩,
     ⟨21, "r4", "", 1, []⟩, ⟨22, "r8", "", 1, []⟩, ⟨23, "decimal", "", 1, []⟩,
     ⟨24, "lpstr", "", 1, []⟩, ⟨25, "lpwstr", "", 1, []⟩, ⟨26, "bstr", "", 1, []⟩,
     ⟨27, "date", "", 1, []⟩, ⟨28, "filetime", "", 1, []⟩, ⟨29, "bool", "", 1, []⟩,
     ⟨30, "cy", "", 1, []⟩, ⟨31, "error", "", 1, []⟩, ⟨32, "stream", "", 1, []⟩,
     ⟨33, "ostream", "", 1, []⟩, ⟨34, "storage", "", 1, []⟩, ⟨35, "ostorage", "", 1, []⟩,
     ⟨36, "vstream", "", 1, []⟩, ⟨37, "clsid", "", 1, []⟩] := by
  rw [variantSlots, typeFields_accept_table]
  decide!

theorem variantSlots_accept_fields : variantSlots (decodeProperty.fields.map Field.decl) =
    [⟨5, "vector", "", 1, []⟩, ⟨6, "array", "", 1, []⟩, ⟨7, "blob", "", 1, []⟩,
     ⟨8, "oblob", "", 1, []⟩, ⟨9, "empty", "", 1, []⟩, ⟨10, "null", "", 1, []⟩,
     ⟨11, "i1", "", 1, []⟩, ⟨12, "i2", "", 1, []⟩, ⟨13, "i4", "", 1, []⟩, ⟨14, "i8", "", 1, []⟩,
     ⟨15, "int", "", 1, []⟩, ⟨16, "ui1", "", 1, []⟩, ⟨17, "ui2", "", 1, []⟩,
     ⟨18, "ui4", "", 1, []⟩, ⟨19, "ui8", "", 1, []⟩, ⟨20, "uint", "", 1, []⟩,
     ⟨21, "r4", "", 1, []⟩, ⟨22, "r8", "", 1, []⟩, ⟨23, "decimal", "", 1, []⟩,
     ⟨24, "lpstr", "", 1, []⟩, ⟨25, "lpwstr", "", 1, []⟩, ⟨26, "bstr", "", 1, []⟩,
     ⟨27, "date", "", 1, []⟩, ⟨28, "filetime", "", 1, []⟩, ⟨29, "bool", "", 1, []⟩,
     ⟨30, "cy", "", 1, []⟩, ⟨31, "error", "", 1, []⟩, ⟨32, "stream", "", 1, []⟩,
     ⟨33, "ostream", "", 1, []⟩, ⟨34, "storage", "", 1, []⟩, ⟨35, "ostorage", "", 1, []⟩,
     ⟨36, "vstream", "", 1, []⟩, ⟨37, "clsid", "", 1, []⟩] :=
  variantSlots_accept_table

theorem attrFields_accept_table : attrFields acceptDecls =
    [⟨1, "fmtid", "", 2, []⟩, ⟨2, "pid", "", 2, []⟩, ⟨3, "name", "", 130, []⟩,
     ⟨4, "linkTarget", "", 130, []⟩] := by
  rw [attrFields, typeFields_accept_table]
  decide!

theorem getTypeInfo_emit_table : getTypeInfo (xlsxProperty.fields.map Field.decl) =
    .ok ⟨some ⟨0, "property", "", 1, []⟩,
      [⟨1, "fmtid", "", 2, []⟩, ⟨2, "pid", "", 2, []⟩, ⟨3, "name", "", 130, []⟩,
       ⟨4, "linkTarget", "", 130, []⟩, ⟨5, "vt:vector", "", 1, []⟩, ⟨6, "vt:array", "", 1, []⟩,
       ⟨7, "vt:blob", "", 1, []⟩, ⟨8, "vt:oblob", "", 1, []⟩, ⟨9, "vt:empty", "", 1, []⟩,
       ⟨10, "vt:null", "", 1, []⟩, ⟨11, "vt:i1", "", 1, []⟩, ⟨12, "vt:i2", "", 1, []⟩,
       ⟨13, "vt:i4", "", 1, []⟩, ⟨14, "vt:i8", "", 1, []⟩, ⟨15, "vt:int", "", 1, []⟩,
       ⟨16, "vt:ui1", "", 1, []⟩, ⟨17, "vt:ui2", "", 1, []⟩, ⟨18, "vt:ui4", "", 1, []⟩,
       ⟨19, "vt:ui8", "", 1, []⟩, ⟨20, "vt:uint", "", 1, []⟩, ⟨21, "vt:r4", "", 1, []⟩,
       ⟨22, "vt:r8", "", 1, []⟩, ⟨23, "vt:decimal", "", 1, []⟩, ⟨24, "vt:lpstr", "", 1, []⟩,
       ⟨25, "vt:lpwstr", "", 1, []⟩, ⟨26, "vt:bstr", "", 1, []⟩, ⟨27, "vt:date", "", 1, []⟩,
       ⟨28, "vt:filetime", "", 1, []⟩, ⟨29, "vt:bool", "", 1, []⟩, ⟨30, "vt:cy", "", 1, []⟩,
       ⟨31, "vt:error", "", 1, []⟩, ⟨32, "vt:stream", "", 1, []⟩, ⟨33, "vt:ostream", "", 1, []⟩,
       ⟨34, "vt:storage", "", 1, []⟩, ⟨35, "vt:ostorage", "", 1, []⟩,
       ⟨36, "vt:vstream", "", 1, []⟩, ⟨37, "vt:clsid", "", 1, []⟩]⟩ := by
  decide!

theorem typeFields_emit_table : typeFields emitDecls =
    [⟨1, "fmtid", "", 2, []⟩, ⟨2, "pid", "", 2, []⟩, ⟨3, "name", "", 130, []⟩,
     ⟨4, "linkTarget", "", 130, []⟩, ⟨5, "vt:vector", "", 1, []⟩, ⟨6, "vt:array", "", 1, []⟩,
     ⟨7, "vt:blob", "", 1, []⟩, ⟨8, "vt:oblob", "", 1, []⟩, ⟨9, "vt:empty", "", 1, []⟩,
     ⟨10, "vt:null", "", 1, []⟩, ⟨11, "vt:i1", "", 1, []⟩, ⟨12, "vt:i2", "", 1, []⟩,
     ⟨13, "vt:i4", "", 1, []⟩, ⟨14, "vt:i8", "", 1, []⟩, ⟨15, "vt:int", "", 1, []⟩,
     ⟨16, "vt:ui1", "", 1, []⟩, ⟨17, "vt:ui2", "", 1, []⟩, ⟨18, "vt:ui4", "", 1, []⟩,
     ⟨19, "vt:ui8", "", 1, []⟩, ⟨20, "vt:uint", "", 1, []⟩, ⟨21, "vt:r4", "", 1, []⟩,
     ⟨22, "vt:r8", "", 1, []⟩, ⟨23, "vt:decimal", "", 1, []⟩, ⟨24, "vt:lpstr", "", 1, []⟩,
     ⟨25, "vt:lpwstr", "", 1, []⟩, ⟨26, "vt:bstr", "", 1, []⟩, ⟨27, "vt:date", "", 1, []⟩,
     ⟨28, "vt:filetime", "", 1, []⟩, ⟨29, "vt:bool", "", 1, []⟩, ⟨30, "vt:cy", "", 1, []⟩,
     ⟨31, "vt:error", "", 1, []⟩, ⟨32, "vt:stream", "", 1, []⟩, ⟨33, "vt:ostream", "", 1, []⟩,
     ⟨34, "vt:storage", "", 1, []⟩, ⟨35, "vt:ostorage", "", 1, []⟩,
     ⟨36, "vt:vstream", "", 1, []⟩, ⟨37, "vt:clsid", "", 1, []⟩] := by
  rw [typeFields, emitDecls, getTypeInfo_emit_table]

theorem typeFields_emit_fields : typeFields (xlsxProperty.fields.map Field.decl) =
    [⟨1, "fmtid", "", 2, []⟩, ⟨2, "pid", "", 2, []⟩, ⟨3, "name", "", 130, []⟩,
     ⟨4, "linkTarget", "", 130, []⟩, ⟨5, "vt:vector", "", 1, []⟩, ⟨6, "vt:array", "", 1, []⟩,
     ⟨7, "vt:blob", "", 1, []⟩, ⟨8, "vt:oblob", "", 1, []⟩, ⟨9, "vt:empty", "", 1, []⟩,
     ⟨10, "vt:null", "", 1, []⟩, ⟨11, "vt:i1", "", 1, []⟩, ⟨12, "vt:i2", "", 1, []⟩,
     ⟨13, "vt:i4", "", 1, []⟩, ⟨14, "vt:i8", "", 1, []⟩, ⟨15, "vt:int", "", 1, []⟩,
     ⟨16, "vt:ui1", "", 1, []⟩, ⟨17, "vt:ui2", "", 1, []⟩, ⟨18, "vt:ui4", "", 1, []⟩,
     ⟨19, "vt:ui8", "", 1, []⟩, ⟨20, "vt:uint", "", 1, []⟩, ⟨21, "vt:r4", "", 1, []⟩,
     ⟨22, "vt:r8", "", 1, []⟩, ⟨23, "vt:decimal", "", 1, []⟩, ⟨24, "vt:lpstr", "", 1, []⟩,
     ⟨25, "vt:lpwstr", "", 1, []⟩, ⟨26, "vt:bstr", "", 1, []⟩, ⟨27, "vt:date", "", 1, []⟩,
     ⟨28, "vt:filetime", "", 1, []⟩, ⟨29, "vt:bool", "", 1, []⟩, ⟨30, "vt:cy", "", 1, []⟩,
     ⟨31, "vt:error", "", 1, []⟩, ⟨32, "vt:stream", "", 1, []⟩, ⟨33, "vt:ostream", "", 1, []⟩,
     ⟨34, "vt:storage", "", 1, []⟩, ⟨35, "vt:ostorage", "", 1, []⟩,
     ⟨36, "vt:vstream", "", 1, []⟩, ⟨37, "vt:clsid", "", 1, []⟩] :=
  typeFields_emit_table

theorem variantSlots_emit_table : variantSlots emitDecls =
    [⟨5, "vt:vector", "", 1, []⟩, ⟨6, "vt:array", "", 1, []⟩, ⟨7, "vt:blob", "", 1, []⟩,
     ⟨8, "vt:oblob", "", 1, []⟩, ⟨9, "vt:empty", "", 1, []⟩, ⟨10, "vt:null", "", 1, []⟩,
     ⟨11, "vt:i1", "", 1, []⟩, ⟨12, "vt:i2", "", 1, []⟩, ⟨13, "vt:i4", "", 1, []⟩,
     ⟨14, "vt:i8", "", 1, []⟩, ⟨15, "vt:int", "", 1, []⟩, ⟨16, "vt:ui1", "", 1, []⟩,
     ⟨17, "vt:ui2", "", 1, []⟩, ⟨18, "vt:ui4", "", 1, []⟩, ⟨19, "vt:ui8", "", 1, []⟩,
     ⟨20, "vt:uint", "", 1, []⟩, ⟨21, "vt:r4", "", 1, []⟩, ⟨22, "vt:r8", "", 1, []⟩,
     ⟨23, "vt:decimal", "", 1, []⟩, ⟨24, "vt:lpstr", "", 1, []⟩, ⟨25, "vt:lpwstr", "", 1, []⟩,
     ⟨26, "vt:bstr", "", 1, []⟩, ⟨27, "vt:date", "", 1, []⟩, ⟨28, "vt:filetime", "", 1, []⟩,
     ⟨29, "vt:bool", "", 1, []⟩, ⟨30, "vt:cy", "", 1, []⟩, ⟨31, "vt:error", "", 1, []⟩,
     ⟨32, "vt:stream", "", 1, []⟩, ⟨33, "vt:ostream", "", 1, []⟩, ⟨34, "vt:storage", "", 1, []⟩,
     ⟨35, "vt:ostorage", "", 1, []⟩, ⟨36, "vt:vstream", "", 1, []⟩, ⟨37, "vt:clsid", "", 1, []⟩] := by
  rw [variantSlots, typeFields_emit_table]
  decide!

theorem variantSlots_emit_fields : variantSlots (xlsxProperty.fields.map Field.decl) =
    [⟨5, "vt:vector", "", 1, []⟩, ⟨6, "vt:array", "", 1, []⟩, ⟨7, "vt:blob", "", 1, []⟩,
     ⟨8, "vt:oblob", "", 1, []⟩, ⟨9, "vt:empty", "", 1, []⟩, ⟨10, "vt:null", "", 1, []⟩,
     ⟨11, "vt:i1", "", 1, []⟩, ⟨12, "vt:i2", "", 1, []⟩, ⟨13, "vt:i4", "", 1, []⟩,
     ⟨14, "vt:i8", "", 1, []⟩, ⟨15, "vt:int", "", 1, []⟩, ⟨16, "vt:ui1", "", 1, []⟩,
     ⟨17, "vt:ui2", "", 1, []⟩, ⟨18, "vt:ui4", "", 1, []⟩, ⟨19, "vt:ui8", "", 1, []⟩,
     ⟨20, "vt:uint", "", 1, []⟩, ⟨21, "vt:r4", "", 1, []⟩, ⟨22, "vt:r8", "", 1, []⟩,
     ⟨23, "vt:decimal", "", 1, []⟩, ⟨24, "vt:lpstr", "", 1, []⟩, ⟨25, "vt:lpwstr", "", 1, []⟩,
     ⟨26, "vt:bstr", "", 1, []⟩, ⟨27, "vt:date", "", 1, []⟩, ⟨28, "vt:filetime", "", 1, []⟩,
     ⟨29, "vt:bool", "", 1, []⟩, ⟨30, "vt:cy", "", 1, []⟩, ⟨31, "vt:error", "", 1, []⟩,
     ⟨32, "vt:stream", "", 1, []⟩, ⟨33, "vt:ostream", "", 1, []⟩, ⟨34, "vt:storage", "", 1, []⟩,
     ⟨35, "vt:ostorage", "", 1, []⟩, ⟨36, "vt:vstream", "", 1, []⟩, ⟨37, "vt:clsid", "", 1, []⟩] :=
  variantSlots_emit_table

theorem attrFields_emit_table : attrFields emitDecls =
    [⟨1, "fmtid", "", 2, []⟩, ⟨2, "pid", "", 2, []⟩, ⟨3, "name", "", 130, []⟩,
     ⟨4, "linkTarget", "", 130, []⟩] := by
  rw [attrFields, typeFields_emit_table]
  decide!

theorem catalogue_eq : catalogue =
    ["vector", "array", "blob", "oblob", "empty", "null", "i1", "i2", "i4", "i8", "int",
     "ui1", "ui2", "ui4", "ui8", "uint", "r4", "r8", "decimal", "lpstr", "lpwstr", "bstr",
     "date", "filetime", "bool", "cy", "error", "stream", "ostream", "storage", "ostorage",
     "vstream", "clsid"] := by
  rw [catalogue, variantSlots_accept_table]
  decide!

theorem typeFields_accept : typeFields acceptDecls =
    [⟨1, "fmtid", "", 2, []⟩, ⟨2, "pid", "", 2, []⟩, ⟨3, "name", "", 130, []⟩,
     ⟨4, "linkTarget", "", 130, []⟩] ++
    (catalogue.enumFrom 5).map (fun e => ⟨e.1, e.2, "", 1, []⟩) := by
  rw [catalogue_eq, typeFields_accept_table]
  decide!

theorem typeFields_emit : typeFields emitDecls =
    [⟨1, "fmtid", "", 2, []⟩, ⟨2, "pid", "", 2, []⟩, ⟨3, "name", "", 130, []⟩,
     ⟨4, "linkTarget", "", 130, []⟩] ++
    (catalogue.enumFrom 5).map (fun e => ⟨e.1, "vt:" ++ e.2, "", 1, []⟩) := by
  rw [catalogue_eq, typeFields_emit_table]
  decide!

/-! ## The catalogue in both dialects -/

/-- C1: the emit record xlsxProperty and the accept record decodeProperty cover the same
catalogue of variant type names: every variant slot of xlsxProperty is named "vt:" ++ T
for a slot T of decodeProperty, and every variant slot T of decodeProperty has a slot
"vt:" ++ T in xlsxProperty; hence a name is in one dialect exactly when it is in the
other. -/
theorem dialects_cover_same_catalogue :
    (∀ f ∈ variantSlots emitDecls, ∃ T, f.name = "vt:" ++ T ∧
      ∃ g ∈ variantSlots acceptDecls, g.name = T) ∧
    (∀ g ∈ variantSlots acceptDecls, ∃ f ∈ variantSlots emitDecls, f.name = "vt:" ++ g.name) ∧
    (variantSlots emitDecls).map (·.name) = catalogue.map (fun T => "vt:" ++ T) ∧
    (variantSlots acceptDecls).map (·.name) = catalogue ∧
    catalogue.length = 33 := by
  have h : ∀ f ∈ variantSlots emitDecls, ∃ g ∈ variantSlots acceptDecls,
      f.name = "vt:" ++ g.name := by
    rw [variantSlots_emit_table, variantSlots_accept_table]
    decide!
  refine ⟨?_, ?_, ?_, rfl, ?_⟩
  · intro f hf
    obtain ⟨g, hg, hfg⟩ := h f hf
    exact ⟨g.name, hfg, g, hg, rfl⟩
  · rw [variantSlots_emit_table, variantSlots_accept_table]
    decide!
  · rw [catalogue_eq, variantSlots_emit_table]
    decide!
  · rw [catalogue_eq]
    decide!

/-- C2: element names are pairwise distinct within each record, every type name of the
catalogue has exactly one slot in xlsxProperty and exactly one in decodeProperty, and the
two slots have the same native type, a pointer to a simple type (both *int8 for i1, both
*bool for bool, both *string for lpwstr). -/
theorem one_slot_per_type_name :
    ((variantSlots emitDecls).map (·.name)).Nodup ∧
    ((variantSlots acceptDecls).map (·.name)).Nodup ∧
    (∀ T ∈ catalogue,
      ((variantSlots emitDecls).map (·.name)).count ("vt:" ++ T) = 1 ∧
      ((variantSlots acceptDecls).map (·.name)).count T = 1 ∧
      (∃ t, slotType emitDecls ("vt:" ++ T) = some (.ptr t) ∧
        slotType acceptDecls T = some (.ptr t))) ∧
    (∀ f ∈ variantSlots emitDecls, ∀ g ∈ variantSlots acceptDecls,
      f.name = "vt:" ++ g.name →
        fieldType emitDecls f = fieldType acceptDecls g ∧ (fieldType emitDecls f).isSome) ∧
    slotType emitDecls "vt:i1" = some (.ptr .int8) ∧
    slotType acceptDecls "i1" = some (.ptr .int8) ∧
    slotType emitDecls "vt:bool" = some (.ptr .bool) ∧
    slotType acceptDecls "bool" = some (.ptr .bool) ∧
    slotType emitDecls "vt:lpwstr" = some (.ptr .string) ∧
    slotType acceptDecls "lpwstr" = some (.ptr .string) := by
  have h : ∀ T ∈ catalogue,
      ((variantSlots emitDecls).map (·.name)).count ("vt:" ++ T) = 1 ∧
      ((variantSlots acceptDecls).map (·.name)).count T = 1 ∧
      (slotType emitDecls ("vt:" ++ T)).isSome ∧
      slotType emitDecls ("vt:" ++ T) = slotType acceptDecls T ∧
      (∀ t, slotType acceptDecls T = some t → t ∈ [GoType.ptr .string, .ptr .int8,
        .ptr .int16, .ptr .int32, .ptr .int64, .ptr .int, .ptr .uint8, .ptr .uint16,
        .ptr .uint32, .ptr .uint64, .ptr .uint, .ptr .float32, .ptr .float64,
        .ptr .bool]) := by
    unfold slotType
    rw [catalogue_eq, variantSlots_emit_table, variantSlots_accept_table]
    decide!
  have hpair : ∀ f ∈ variantSlots emitDecls, ∀ g ∈ variantSlots acceptDecls,
      f.name = "vt:" ++ g.name →
        fieldType emitDecls f = fieldType acceptDecls g ∧ (fieldType emitDecls f).isSome := by
    rw [variantSlots_emit_table, variantSlots_accept_table]
    decide!
  have hex : slotType emitDecls "vt:i1" = some (.ptr .int8) ∧
      slotType acceptDecls "i1" = some (.ptr .int8) ∧
      slotType emitDecls "vt:bool" = some (.ptr .bool) ∧
      slotType acceptDecls "bool" = some (.ptr .bool) ∧
      slotType emitDecls "vt:lpwstr" = some (.ptr .string) ∧
      slotType acceptDecls "lpwstr" = some (.ptr .string) := by
    unfold slotType
    rw [variantSlots_emit_table, variantSlots_accept_table]
    decide!
  refine ⟨?_, ?_, ?_, hpair, hex⟩
  · rw [variantSlots_emit_table]
    decide!
  · rw [variantSlots_accept_table]
    decide!
  intro T hT
  obtain ⟨h1, h2, h3, h4, h5⟩ := h T hT
  refine ⟨h1, h2, ?_⟩
  obtain ⟨t, ht⟩ := Option.isSome_iff_exists.mp h3
  have ht' : slotType acceptDecls T = some t := h4 ▸ ht
  have := h5 t ht'
  simp only [List.mem_cons, List.mem_singleton, List.not_mem_nil, or_false] at this
  rcases this with h | h | h | h | h | h | h | h | h | h | h | h | h | h <;>
    exact ⟨_, h ▸ ht, h ▸ ht'⟩

/-- C3: every variant slot of the emit record xlsxProperty has an element name that begins
with "vt:", every variant slot of the accept record decodeProperty has a bare element
name (no colon, no name space part), and the attribute fields fmtid, pid, name and
linkTarget carry no qualifier in either dialect. -/
theorem emit_names_qualified_accept_names_bare :
    (∀ f ∈ variantSlots emitDecls, "vt:".data <+: f.name.data) ∧
    (∀ g ∈ variantSlots acceptDecls, ':' ∉ g.name.data ∧ g.xmlns = "") ∧
    (attrFields emitDecls).map (fun f => (f.name, f.xmlns)) =
      [("fmtid", ""), ("pid", ""), ("name", ""), ("linkTarget", "")] ∧
    (attrFields acceptDecls).map (fun f => (f.name, f.xmlns)) =
      [("fmtid", ""), ("pid", ""), ("name", ""), ("linkTarget", "")] := by
  rw [variantSlots_emit_table, variantSlots_accept_table, attrFields_emit_table,
    attrFields_accept_table]
  decide!

/-! ## strconv: a numeral parses back to its number -/

theorem digitValue_digitChar (d : Nat) (h : d < 10) :
    strconv.digitValue (strconv.digitChar d) = some d := by
  interval_cases d <;> rfl


theorem digitChar_plain (d : Nat) (h : d < 10) :
    isPlain (strconv.digitChar d) = true ∧ strconv.digitChar d ≠ '+' ∧
      strconv.digitChar d ≠ '-' := by
  interval_cases d <;> decide!

theorem digits_spec (fuel : Nat) : ∀ (n : Nat) (acc : List Char), n < fuel →
    ∃ ds : List Char, strconv.digits fuel n acc = ds ++ acc ∧ ds ≠ [] ∧
      (∀ c ∈ ds, isPlain c = true ∧ c ≠ '+' ∧ c ≠ '-') ∧
      ∀ (a : Nat) (rest : List Char),
        strconv.parseDigits (ds ++ rest) a = strconv.parseDigits rest (a * 10 ^ ds.length + n) := by
  induction fuel with
  | zero => intro n acc h; omega
  | succ fuel ih =>
    intro n acc h
    unfold strconv.digits
    have hmod : n % 10 < 10 := Nat.mod_lt _ (by decide!)
    by_cases h0 : n / 10 = 0
    · rw [if_pos h0]
      refine ⟨[strconv.digitChar (n % 10)], rfl, by simp, ?_, ?_⟩
      · intro c hc
        rw [List.mem_singleton] at hc
        subst hc
        exact digitChar_plain _ hmod
      · intro a rest
        have hn : n % 10 = n := by omega
        have e := digitValue_digitChar _ hmod
        simp only [List.singleton_append, strconv.parseDigits, e, List.length_singleton,
          pow_one]
        rw [hn]
        rfl
    · rw [if_neg h0]
      have hlt : n / 10 < fuel := by omega
      obtain ⟨ds, hds, hne, hplain, hparse⟩ := ih (n / 10) (strconv.digitChar (n % 10) :: acc) hlt
      refine ⟨ds ++ [strconv.digitChar (n % 10)], by simp [hds], by simp, ?_, ?_⟩
      · intro c hc
        rw [List.mem_append, List.mem_singleton] at hc
        rcases hc with hc | hc
        · exact hplain c hc
        · subst hc; exact digitChar_plain _ hmod
      · intro a rest
        rw [List.append_assoc, hparse]
        simp only [List.singleton_append, strconv.parseDigits, digitValue_digitChar _ hmod,
          List.length_append, List.length_singleton]
        congr 1
        rw [pow_succ]
        have := Nat.div_add_mod n 10
        nlinarith [Nat.div_add_mod n 10]

theorem formatUint_spec (n : Nat) :
    ∃ ds : List Char, (strconv.FormatUint n).data = ds ∧ ds ≠ [] ∧
      (∀ c ∈ ds, isPlain c = true ∧ c ≠ '+' ∧ c ≠ '-') ∧
      strconv.parseDigits ds 0 = some n := by
  obtain ⟨ds, hds, hne, hplain, hparse⟩ := digits_spec (n + 1) n [] (Nat.lt_succ_self n)
  refine ⟨ds, by simp [strconv.FormatUint, hds], hne, hplain, ?_⟩
  have := hparse 0 []
  simpa [strconv.parseDigits] using this

theorem parseUint_formatUint (w : Nat) (x : UnsignedInt w) :
    strconv.ParseUint (strconv.FormatUint x.val) w = .ok x := by
  obtain ⟨ds, hds, hne, _, hparse⟩ := formatUint_spec x.val
  unfold strconv.ParseUint
  rw [hds]
  cases ds with
  | nil => exact absurd rfl hne
  | cons c cs =>
    simp only [hparse]
    rw [dif_pos x.lt]

theorem parseInt_formatInt (w : Nat) (x : SignedInt w) :
    strconv.ParseInt (strconv.FormatInt x.val) w = .ok x := by
  obtain ⟨v, hge, hlt⟩ := x
  unfold strconv.ParseInt strconv.FormatInt
  by_cases hneg : v < 0
  · obtain ⟨ds, hds, hne, _, hparse⟩ := formatUint_spec v.natAbs
    simp only [hneg, if_true, hds]
    cases ds with
    | nil => exact absurd rfl hne
    | cons c cs =>
      have hv : -((v.natAbs : Nat) : Int) = v := by omega
      simp only [strconv.splitSign, hparse, if_true, hv]
      rw [dif_pos ⟨hge, hlt⟩]
  · obtain ⟨ds, hds, hne, hplain, hparse⟩ := formatUint_spec v.toNat
    simp only [hneg, if_false, hds]
    cases ds with
    | nil => exact absurd rfl hne
    | cons c cs =>
      have hc := hplain c (List.mem_cons_self _ _)
      have hsplit : strconv.splitSign (c :: cs) = (false, c :: cs) := by
        unfold strconv.splitSign
        split
        · rename_i h; injection h with h1 _; exact absurd h1.symm (fun h => hc.2.1 h.symm)
        · rename_i h; injection h with h1 _; exact absurd h1.symm (fun h => hc.2.2 h.symm)
        · rfl
      have hv : ((v.toNat : Nat) : Int) = v := by omega
      simp only [hsplit, hparse, hv]
      rw [dif_pos ⟨hge, hlt⟩]
      simp

/-! ## Text of simple values in a document -/

theorem escapeText_of_clean (s : String) (h : ∀ c ∈ s.data, isInCharacterRange c = true) :
    escapeText s = s := by
  unfold escapeText
  have : s.data.map (fun c => if isInCharacterRange c then c else Char.ofNat 0xFFFD) = s.data := by
    conv_rhs => rw [← List.map_id s.data]
    apply List.map_congr_left
    intro c hc
    simp [h c hc]
  rw [this]

theorem dropWhile_of_all_false {α : Type} (p : α → Bool) (l : List α)
    (h : ∀ a ∈ l, p a = false) : l.dropWhile p = l := by
  cases l with
  | nil => rfl
  | cons a as => simp [List.dropWhile, h a (List.mem_cons_self _ _)]

theorem trimSpace_of_no_space (s : String) (h : ∀ c ∈ s.data, isSpace c = false) :
    TrimSpace s = s := by
  unfold TrimSpace
  rw [dropWhile_of_all_false _ _ h, dropWhile_of_all_false _ _ (by simpa using h),
    List.reverse_reverse]

theorem text_of_plain (s : String) (h : ∀ c ∈ s.data, isPlain c = true) :
    escapeText s = s ∧ TrimSpace s = s := by
  constructor
  · apply escapeText_of_clean
    intro c hc
    have := h c hc
    simp only [isPlain, Bool.and_eq_true] at this
    exact this.1
  · apply trimSpace_of_no_space
    intro c hc
    have := h c hc
    simp only [isPlain, Bool.and_eq_true, Bool.not_eq_true'] at this
    exact this.2

theorem formatUint_plain (n : Nat) :
    (∀ c ∈ (strconv.FormatUint n).data, isPlain c = true) ∧ strconv.FormatUint n ≠ "" := by
  obtain ⟨ds, hds, hne, hplain, _⟩ := formatUint_spec n
  constructor
  · intro c hc
    rw [hds] at hc
    exact (hplain c hc).1
  · intro h
    rw [h] at hds
    exact hne hds.symm

theorem formatInt_plain (v : Int) :
    (∀ c ∈ (strconv.FormatInt v).data, isPlain c = true) ∧ strconv.FormatInt v ≠ "" := by
  unfold strconv.FormatInt
  by_cases hneg : v < 0
  · simp only [hneg, if_true]
    constructor
    · intro c hc
      rcases List.mem_cons.mp hc with hc | hc
      · subst hc; decide!
      · exact (formatUint_plain _).1 c hc
    · intro h
      have := congrArg String.data h
      simp at this
  · simp only [hneg, if_false]
    exact formatUint_plain _

theorem formatBool_plain (b : Bool) :
    (∀ c ∈ (strconv.FormatBool b).data, isPlain c = true) ∧ strconv.FormatBool b ≠ "" := by
  cases b <;> decide!

theorem parseBool_formatBool (b : Bool) :
    strconv.ParseBool (strconv.FormatBool b) = .ok b := by
  cases b <;> rfl

/-- Every signed and unsigned integer and every boolean survives the document, whatever
the float conversions are. -/
theorem survives_of_exact (fc : FloatConv) (v : Scalar)
    (hv : v.goType ∈ [GoType.int, .int8, .int16, .int32, .int64, .uint, .uint8, .uint16,
      .uint32, .uint64, .bool]) :
    Scalar.Survives fc (.ptr v.goType) v ∧ Scalar.Survives fc v.goType v := by
  cases v with
  | int x | int8 x | int16 x | int32 x | int64 x =>
    obtain ⟨h1, h2⟩ := formatInt_plain x.val
    obtain ⟨h3, h4⟩ := text_of_plain _ h1
    constructor <;>
      exact ⟨_, rfl, by
        simp [copyValue, Scalar.goType, Scalar.asRead, h3, h4, h2, parseInt_formatInt,
          Except.map]⟩
  | uint x | uint8 x | uint16 x | uint32 x | uint64 x =>
    obtain ⟨h1, h2⟩ := formatUint_plain x.val
    obtain ⟨h3, h4⟩ := text_of_plain _ h1
    constructor <;>
      exact ⟨_, rfl, by
        simp [copyValue, Scalar.goType, Scalar.asRead, h3, h4, h2, parseUint_formatUint,
          Except.map]⟩
  | bool x =>
    obtain ⟨h1, h2⟩ := formatBool_plain x
    obtain ⟨h3, h4⟩ := text_of_plain _ h1
    constructor <;>
      exact ⟨_, rfl, by
        simp [copyValue, Scalar.goType, Scalar.asRead, h3, h4, h2, parseBool_formatBool,
          Except.map]⟩
  | string _ | float32 _ | float64 _ | xmlName _ => simp [Scalar.goType] at hv

/-- Every string survives the document, as it reads back. -/
theorem survives_string (fc : FloatConv) (s : String) :
    Scalar.Survives fc (.ptr .string) (.string s) ∧ Scalar.Survives fc .string (.string s) := by
  constructor <;> exact ⟨s, rfl, by simp [copyValue, Scalar.asRead]⟩

theorem asRead_goType (v : Scalar) : v.asRead.goType = v.goType := by
  cases v <;> rfl

/-- A value whose strings are made of XML characters reads back as it is. -/
theorem asRead_of_clean (v : Scalar)
    (h : ∀ s, v = .string s → ∀ c ∈ s.data, isInCharacterRange c = true) : v.asRead = v := by
  cases v with
  | string s => simp only [Scalar.asRead]; rw [escapeText_of_clean s (h s rfl)]
  | _ => rfl

theorem escapeText_eq_empty (s : String) : escapeText s = "" ↔ s = "" := by
  unfold escapeText
  constructor
  · intro h
    have := congrArg String.data h
    simp only [List.map_eq_nil_iff] at this
    exact String.ext this
  · intro h
    subst h
    rfl

theorem except_map_ok {ε α β : Type} (f : α → β) (x : Except ε α) (b : β)
    (h : x.map f = .ok b) : ∃ a, x = .ok a ∧ b = f a := by
  cases x with
  | error e => simp [Except.map] at h
  | ok a => exact ⟨a, rfl, by simpa [Except.map] using h.symm⟩

theorem ite_map_ok {α : Type} (c : Prop) [Decidable c] (ctor : α → Scalar) (z : α)
    (x : Except String α) (v : Scalar)
    (h : (if c then Except.ok (ctor z) else x.map ctor) = .ok v) : ∃ a, v = ctor a := by
  by_cases hc : c
  · rw [if_pos hc] at h
    exact ⟨z, by injection h with h; exact h.symm⟩
  · rw [if_neg hc] at h
    obtain ⟨a, _, ha⟩ := except_map_ok _ _ _ h
    exact ⟨a, ha⟩

theorem copyValue_elem (fc : FloatConv) (e : GoType) (s : String) (v : Scalar)
    (h : copyValue fc e s = .ok v) (he : ∀ u, e ≠ .ptr u) : v.goType = e := by
  cases e with
  | ptr u => exact absurd rfl (he u)
  | string => simp only [copyValue] at h; injection h with h; subst h; rfl
  | int | int8 | int16 | int32 | int64 | uint | uint8 | uint16 | uint32 | uint64
    | float32 | float64 | bool =>
    simp only [copyValue] at h
    obtain ⟨a, ha⟩ := ite_map_ok _ _ _ _ _ h
    subst ha; rfl
  | xmlName | emptyInterface | timeTime | slice _ | named _ =>
    simp [copyValue] at h

theorem copyValue_goType (fc : FloatConv) (t : GoType) (s : String) (v : Scalar)
    (h : copyValue fc t s = .ok v) : v.goType = t.deref := by
  cases t with
  | ptr e =>
    cases e with
    | ptr u => simp [copyValue] at h
    | _ => exact copyValue_elem fc _ s v h (by intro u; simp [GoType.deref])
  | _ => exact copyValue_elem fc _ s v h (by intro u; simp [GoType.deref])

/-! ## The accessors of the records -/

theorem lawful_decodeProperty : Lawful decodeProperty.fields := by
  intro k f hf r v
  have hk : k < 38 := by
    obtain ⟨h, _⟩ := List.getElem?_eq_some.mp hf
    simpa [decodeProperty.fields] using h
  interval_cases k <;>
    (simp only [decodeProperty.fields, List.getElem?_cons_succ, List.getElem?_cons_zero,
       Option.some.injEq] at hf; subst hf;
     cases v <;> rfl)

theorem lawful_xlsxProperty : Lawful xlsxProperty.fields := by
  intro k f hf r v
  have hk : k < 38 := by
    obtain ⟨h, _⟩ := List.getElem?_eq_some.mp hf
    simpa [xlsxProperty.fields] using h
  interval_cases k <;>
    (simp only [xlsxProperty.fields, List.getElem?_cons_succ, List.getElem?_cons_zero,
       Option.some.injEq] at hf; subst hf;
     cases v <;> rfl)

theorem lawful_decodeCustomProperties : Lawful decodeCustomProperties.fields := by
  intro k f hf r v
  have hk : k < 3 := by
    obtain ⟨h, _⟩ := List.getElem?_eq_some.mp hf
    simpa [decodeCustomProperties.fields] using h
  interval_cases k <;>
    (simp only [decodeCustomProperties.fields, List.getElem?_cons_succ, List.getElem?_cons_zero,
       Option.some.injEq] at hf; subst hf;
     cases v <;> rfl)

/-- Assigning to the field at position k leaves the value of every other field. -/
theorem Lawful.get_other {R : Type} {fields : List (Field R)} (h : Lawful fields)
    {k : Nat} {f : Field R} (hf : fields[k]? = some f) (r : R) (v : Scalar) (j : Nat)
    (hj : j ≠ k) :
    (fieldValues fields (f.set r v))[j]? = (fieldValues fields r)[j]? := by
  rw [h k f hf r v]
  split
  · simp [List.getElem?_set, Ne.symm hj]
  · rfl

/-! ## Reading and unmarshalling one element -/

theorem translate_local (ns : NsMap) (n : xml.Name) (b : Bool) :
    (translate ns n b).Local = n.Local := by
  unfold translate
  simp only
  split_ifs <;> first | rfl | (split <;> rfl)

theorem unmarshalPath_eq_find {R : Type} (fc : FloatConv) (fields : List (Field R))
    (child : VariantElement xml.StartElement) (tfields : List fieldInfo)
    (h : ∀ f ∈ tfields, f.xmlns = "" ∧ f.parents = []) (r : R) :
    unmarshalPath fc fields child tfields r =
      match tfields.find? (elementMatch child.start.Name.Local) with
      | some finfo => assignElement fc fields finfo child r
      | none => .ok r := by
  induction tfields with
  | nil => rfl
  | cons f more ih =>
    have hf := h f (List.mem_cons_self _ _)
    have ih' := ih (fun g hg => h g (List.mem_cons_of_mem _ hg))
    unfold unmarshalPath
    rw [List.find?_cons]
    by_cases hm : elementMatch child.start.Name.Local f = true
    · have hm' := hm
      simp only [elementMatch, Bool.and_eq_true, decide_eq_true_eq] at hm'
      rw [hm]
      simp [hf.1, hf.2, hm'.1, hm'.2]
    · have hm2 : elementMatch child.start.Name.Local f = false := by
        simpa using hm
      rw [hm2]
      simp only [elementMatch, Bool.and_eq_true, decide_eq_true_eq, not_and] at hm
      by_cases he : f.flags &&& fElement = 0
      · simp [he, ih']
      · have hn := hm he
        simp [he, hf.1, hf.2, hn, ih']

/-! ## What the start of unmarshalling leaves alone -/

theorem unmarshalAttr_frame {R : Type} (fc : FloatConv) {fields : List (Field R)}
    (hl : Lawful fields) (a : xml.Attr) (k : Nat) (tfields : List fieldInfo)
    (hk : ∀ f ∈ tfields, f.flags &&& fMode = fAttr → f.idx ≠ k) :
    ∀ r r1, unmarshalAttr fc fields a tfields r = .ok r1 →
      (fieldValues fields r1)[k]? = (fieldValues fields r)[k]? := by
  induction tfields with
  | nil =>
    intro r r1 h
    simp only [unmarshalAttr, Except.ok.injEq] at h
    rw [h]
  | cons f more ih =>
    intro r r1 h
    have ih' := ih (fun g hg => hk g (List.mem_cons_of_mem _ hg))
    unfold unmarshalAttr at h
    split at h
    · rename_i hcond
      cases hget : fields[f.idx]? with
      | none => simp [hget] at h
      | some fld =>
        simp only [hget] at h
        cases hcv : copyValue fc fld.goType a.Value with
        | error e => simp [hcv] at h
        | ok v =>
          simp only [hcv] at h
          rw [ih' _ _ h]
          exact hl.get_other hget r v k (Ne.symm (hk f (List.mem_cons_self _ _) hcond.1))
    · exact ih' _ _ h

theorem unmarshalAttrs_frame {R : Type} (fc : FloatConv) {fields : List (Field R)}
    (hl : Lawful fields) (k : Nat) (tfields : List fieldInfo)
    (hk : ∀ f ∈ tfields, f.flags &&& fMode = fAttr → f.idx ≠ k) (attrs : List xml.Attr) :
    ∀ r r1, unmarshalAttrs fc fields tfields attrs r = .ok r1 →
      (fieldValues fields r1)[k]? = (fieldValues fields r)[k]? := by
  induction attrs with
  | nil =>
    intro r r1 h
    simp only [unmarshalAttrs, Except.ok.injEq] at h
    rw [h]
  | cons a more ih =>
    intro r r1 h
    unfold unmarshalAttrs at h
    cases h1 : unmarshalAttr fc fields a tfields r with
    | error e => simp [h1] at h
    | ok r2 =>
      simp only [h1] at h
      rw [ih _ _ h]
      exact unmarshalAttr_frame fc hl a k tfields hk _ _ h1

theorem unmarshalStart_frame {R : Type} (fc : FloatConv) {fields : List (Field R)}
    (hl : Lawful fields) (tinfo : typeInfo) (start : xml.StartElement) (k : Nat)
    (hx : ∀ x, tinfo.xmlname = some x → x.idx ≠ k)
    (hk : ∀ f ∈ tinfo.fields, f.flags &&& fMode = fAttr → f.idx ≠ k) (r r1 : R)
    (h : unmarshalStart fc fields tinfo start r = .ok r1) :
    (fieldValues fields r1)[k]? = (fieldValues fields r)[k]? := by
  unfold unmarshalStart at h
  simp only at h
  cases hx' : tinfo.xmlname with
  | none =>
    simp only [hx'] at h
    exact unmarshalAttrs_frame fc hl k _ hk _ _ _ h
  | some x =>
    simp only [hx'] at h
    split at h
    · simp at h
    · rename_i r2 hnamed
      rw [unmarshalAttrs_frame fc hl k _ hk _ _ _ h]
      split at hnamed
      · simp at hnamed
      · split at hnamed
        · simp at hnamed
        · cases hget : fields[x.idx]? with
          | none => simp [hget] at hnamed
          | some fld =>
            simp only [hget, Except.ok.injEq] at hnamed
            rw [← hnamed]
            exact hl.get_other hget r _ k (Ne.symm (hx x hx'))

/-! ## Populated slots -/

theorem filter_idx_singleton (slots : List fieldInfo) (hnd : (slots.map (·.idx)).Nodup)
    (fa : fieldInfo) (hfa : fa ∈ slots) :
    slots.filter (fun fi => decide (fi.idx = fa.idx)) = [fa] := by
  induction slots with
  | nil => exact absurd hfa (List.not_mem_nil _)
  | cons x xs ih =>
    rw [List.map_cons, List.nodup_cons] at hnd
    rcases List.mem_cons.mp hfa with h | h
    · subst h
      have hrest : xs.filter (fun fi => decide (fi.idx = fa.idx)) = [] := by
        rw [List.filter_eq_nil_iff]
        intro y hy hyk
        exact hnd.1 (List.mem_map.mpr ⟨y, hy, by simpa using hyk⟩)
      simp [List.filter_cons, hrest]
    · have hx : x.idx ≠ fa.idx := by
        intro he
        exact hnd.1 (List.mem_map.mpr ⟨fa, h, he.symm⟩)
      simp [List.filter_cons, hx, ih hnd.2 h]

theorem filter_idx_length_le (slots : List fieldInfo) (hnd : (slots.map (·.idx)).Nodup)
    (k : Nat) : (slots.filter (fun fi => decide (fi.idx = k))).length ≤ 1 := by
  by_cases h : ∃ fa ∈ slots, fa.idx = k
  · obtain ⟨fa, hfa, hk⟩ := h
    subst hk
    rw [filter_idx_singleton slots hnd fa hfa]
    simp
  · have : slots.filter (fun fi => decide (fi.idx = k)) = [] := by
      rw [List.filter_eq_nil_iff]
      intro y hy hyk
      exact h ⟨y, hy, by simpa using hyk⟩
    simp [this]

theorem filter_length_le_add {α : Type} (p q s : α → Bool) (l : List α)
    (h : ∀ a ∈ l, p a = true → q a = true ∨ s a = true) :
    (l.filter p).length ≤ (l.filter q).length + (l.filter s).length := by
  induction l with
  | nil => simp
  | cons a as ih =>
    have ih' := ih (fun b hb => h b (List.mem_cons_of_mem _ hb))
    have ha := h a (List.mem_cons_self _ _)
    simp only [List.filter_cons]
    cases hp : p a <;> cases hq : q a <;> cases hs : s a <;>
      simp_all <;> omega

/-- The populated slots depend on the values of the slot fields only. -/
theorem populatedSlots_congr {R : Type} (fields : List (Field R)) (r d : R)
    (h : ∀ fi ∈ variantSlots (fields.map Field.decl),
      (fieldValues fields d)[fi.idx]? = (fieldValues fields r)[fi.idx]?) :
    populatedSlots fields d = populatedSlots fields r := by
  unfold populatedSlots
  congr 1
  apply List.filter_congr
  intro fi hfi
  rw [h fi hfi]

/-- Assigning into a record with no slot populated populates exactly the assigned slot. -/
theorem populatedSlots_set {R : Type} (fields : List (Field R)) (r d : R) (fa : fieldInfo)
    (x : Scalar) (hfa : fa ∈ variantSlots (fields.map Field.decl))
    (hnd : ((variantSlots (fields.map Field.decl)).map (·.idx)).Nodup)
    (hnone : populatedSlots fields r = [])
    (hlen : fa.idx < (fieldValues fields r).length)
    (hd : fieldValues fields d = (fieldValues fields r).set fa.idx (some x)) :
    populatedSlots fields d = [fa.name] := by
  have hnone' : ∀ fi ∈ variantSlots (fields.map Field.decl),
      ((fieldValues fields r)[fi.idx]?).join.isSome = false := by
    intro fi hfi
    unfold populatedSlots at hnone
    rw [List.map_eq_nil_iff, List.filter_eq_nil_iff] at hnone
    simpa using hnone fi hfi
  unfold populatedSlots
  rw [hd]
  have : (variantSlots (fields.map Field.decl)).filter
      (fun finfo => (((fieldValues fields r).set fa.idx (some x))[finfo.idx]?).join.isSome) =
      (variantSlots (fields.map Field.decl)).filter (fun fi => decide (fi.idx = fa.idx)) := by
    apply List.filter_congr
    intro fi hfi
    by_cases hk : fi.idx = fa.idx
    · rw [hk, List.getElem?_set_self hlen]
      simp
    · rw [List.getElem?_set_ne (Ne.symm hk), hnone' fi hfi]
      simp [hk]
  rw [this, filter_idx_singleton _ hnd fa hfa]
  rfl

/-- Assigning one field populates at most one more slot. -/
theorem populatedSlots_set_le {R : Type} (fields : List (Field R)) (r d : R) (k : Nat)
    (w : Option Scalar)
    (hnd : ((variantSlots (fields.map Field.decl)).map (·.idx)).Nodup)
    (hd : fieldValues fields d = (fieldValues fields r).set k w) :
    (populatedSlots fields d).length ≤ (populatedSlots fields r).length + 1 := by
  unfold populatedSlots
  rw [hd, List.length_map, List.length_map]
  refine le_trans (filter_length_le_add _
    (fun finfo => ((fieldValues fields r)[finfo.idx]?).join.isSome)
    (fun fi => decide (fi.idx = k)) _ ?_) ?_
  · intro fi _ hp
    by_cases hk : fi.idx = k
    · right; simpa using hk
    · left
      rw [List.getElem?_set_ne (Ne.symm hk)] at hp
      exact hp
  · have := filter_idx_length_le _ hnd k
    omega

/-! ## Decoding one property element -/

theorem getTypeInfo_accept : getTypeInfo (decodeProperty.fields.map Field.decl) =
    .ok ⟨some ⟨0, "property", "", 1, []⟩, typeFields acceptDecls⟩ := by
  rw [typeFields_accept_table, getTypeInfo_accept_table]

theorem accept_fields_plain : ∀ f ∈ typeFields acceptDecls, f.xmlns = "" ∧ f.parents = [] := by
  rw [typeFields_accept_table]
  decide!

theorem accept_slot_idx_nodup :
    ((variantSlots (decodeProperty.fields.map Field.decl)).map (·.idx)).Nodup := by
  rw [variantSlots_accept_fields]
  decide!

theorem accept_slots_not_start : ∀ fi ∈ variantSlots (decodeProperty.fields.map Field.decl),
    fi.idx ≠ 0 ∧ ∀ f ∈ typeFields acceptDecls, f.flags &&& fMode = fAttr → f.idx ≠ fi.idx := by
  rw [variantSlots_accept_fields, typeFields_accept_table]
  decide!

theorem accept_slot_found : ∀ T ∈ catalogue,
    ((typeFields acceptDecls).find? (elementMatch T)).any (fun fa =>
      decide (fa ∈ variantSlots acceptDecls) && decide (fa.name = T) &&
      decide ((variantSlots acceptDecls).find? (fun fi => fi.name = T) = some fa) &&
      ((acceptDecls[fa.idx]?).map (·.goType)).any (fun t =>
        isSimple t && decide (t ≠ .xmlName) && decide (t = .ptr t.deref)) &&
      decide (fa.idx < 38)) = true := by
  rw [catalogue_eq, typeFields_accept_table, variantSlots_accept_table]
  decide!

theorem catalogue_names_read : ∀ T ∈ catalogue,
    nsname T = .ok ⟨"", T⟩ ∧ nsname ("vt:" ++ T) = .ok ⟨"vt", T⟩ := by
  rw [catalogue_eq]
  decide!

theorem assignElement_simple {R : Type} (fc : FloatConv) (fields : List (Field R))
    (finfo : fieldInfo) (f : Field R) (hf : fields[finfo.idx]? = some f)
    (hx : f.goType ≠ .xmlName) (hs : isSimple f.goType = true)
    (child : VariantElement xml.StartElement) (r : R) :
    assignElement fc fields finfo child r =
      match copyValue fc f.goType child.content with
      | .error e => .error e
      | .ok x => .ok (f.set r x) := by
  unfold assignElement
  simp only [hf, hx, hs, if_false, if_true]

/-- Reading a variant element written without attributes: the name is split and
translated, nothing else changes. -/
theorem readVariant_plain (ns : NsMap) (name : String) (nm : xml.Name) (v : String)
    (h : nsname name = .ok nm) :
    readVariant ns ⟨⟨name, []⟩, v⟩ = .ok ⟨⟨translate ns nm true, []⟩, v⟩ := by
  simp [readVariant, readStart, h, traverse, declare, Except.map]

/-- The result of decoding a property element with one variant child whose name reads as
a local name that the accept dialect resolves to the field f. -/
theorem decodeWritten_one (fc : FloatConv) (ns : NsMap) (attrs : List (String × String))
    (name : String) (nm : xml.Name) (v : String) (fa : fieldInfo) (f : Field decodeProperty)
    (hname : nsname name = .ok nm)
    (hfind : (typeFields acceptDecls).find? (elementMatch nm.Local) = some fa)
    (hf : decodeProperty.fields[fa.idx]? = some f)
    (hx : f.goType ≠ .xmlName) (hs : isSimple f.goType = true) :
    decodeWritten fc ns ⟨⟨"property", attrs⟩, [⟨⟨name, []⟩, v⟩]⟩ =
      match readStart ns ⟨"property", attrs⟩ with
      | .error e => .error e
      | .ok (_, st) =>
        match unmarshalStart fc decodeProperty.fields
            ⟨some ⟨0, "property", "", 1, []⟩, typeFields acceptDecls⟩ st {} with
        | .error e => .error e
        | .ok r1 =>
          match copyValue fc f.goType v with
          | .error e => .error e
          | .ok x => .ok (f.set r1 x) := by
  unfold decodeWritten readProperty
  cases hrs : readStart ns ⟨"property", attrs⟩ with
  | error e => rfl
  | ok p =>
    obtain ⟨inner, st⟩ := p
    simp only [traverse, readVariant_plain inner name nm v hname, Except.map]
    unfold unmarshalStruct
    rw [getTypeInfo_accept]
    simp only
    cases hst : unmarshalStart fc decodeProperty.fields
        ⟨some ⟨0, "property", "", 1, []⟩, typeFields acceptDecls⟩ st {} with
    | error e => rfl
    | ok r1 =>
      simp only [unmarshalChildren]
      rw [unmarshalPath_eq_find fc _ _ _ accept_fields_plain]
      simp only [translate_local, hfind]
      rw [assignElement_simple fc _ fa f hf hx hs]
      cases copyValue fc f.goType v <;> rfl

theorem populatedSlots_zero : populatedSlots decodeProperty.fields {} = [] := by
  rw [populatedSlots, variantSlots_accept_fields]
  decide!

theorem fieldValues_length (r : decodeProperty) :
    (fieldValues decodeProperty.fields r).length = 38 := by
  simp [fieldValues, decodeProperty.fields]

/-- The start of unmarshalling a property element populates no slot. -/
theorem unmarshalStart_populates_nothing (fc : FloatConv) (st : xml.StartElement)
    (r r1 : decodeProperty)
    (h : unmarshalStart fc decodeProperty.fields
      ⟨some ⟨0, "property", "", 1, []⟩, typeFields acceptDecls⟩ st r = .ok r1) :
    populatedSlots decodeProperty.fields r1 = populatedSlots decodeProperty.fields r := by
  apply populatedSlots_congr
  intro fi hfi
  obtain ⟨h0, hattr⟩ := accept_slots_not_start fi hfi
  refine unmarshalStart_frame fc lawful_decodeProperty _ st fi.idx ?_ hattr r r1 h
  intro x hx
  simp only [Option.some.injEq] at hx
  subst hx
  exact Ne.symm h0

/-- C4: decoding into decodeProperty tolerates the qualifier.  For every variant type
name T of the catalogue, every element text v, every attribute list and every set of
bindings in scope, the property element whose child is written vt:T and the one whose
child is written T decode to the same result; and when that result is a record, T is its
single populated slot and holds the value copyValue gives for the text v. -/
theorem decode_accepts_qualified_and_bare (fc : FloatConv) (ns : NsMap)
    (attrs : List (String × String)) (T : String) (hT : T ∈ catalogue) (v : String) :
    decodeWritten fc ns ⟨⟨"property", attrs⟩, [⟨⟨"vt:" ++ T, []⟩, v⟩]⟩ =
      decodeWritten fc ns ⟨⟨"property", attrs⟩, [⟨⟨T, []⟩, v⟩]⟩ ∧
    ∀ d, decodeWritten fc ns ⟨⟨"property", attrs⟩, [⟨⟨T, []⟩, v⟩]⟩ = .ok d →
      populatedSlots decodeProperty.fields d = [T] ∧
      ∃ t x, slotType acceptDecls T = some (.ptr t) ∧ copyValue fc (.ptr t) v = .ok x ∧
        slotValue decodeProperty.fields d T = some x := by
  obtain ⟨hbare, hqual⟩ := catalogue_names_read T hT
  have hfound := accept_slot_found T hT
  cases hfind : (typeFields acceptDecls).find? (elementMatch T) with
  | none => simp [hfind] at hfound
  | some fa =>
    simp only [hfind, Option.any_some, Bool.and_eq_true, decide_eq_true_eq] at hfound
    obtain ⟨⟨⟨⟨hmem, hname⟩, hty⟩, htype⟩, hidx⟩ := hfound
    have hmap : acceptDecls[fa.idx]? = (decodeProperty.fields[fa.idx]?).map Field.decl := by
      simp [acceptDecls]
    cases hf : decodeProperty.fields[fa.idx]? with
    | none => simp [hmap, hf] at htype
    | some f =>
      simp only [hmap, hf, Option.map_some', Option.any_some, Bool.and_eq_true,
        decide_eq_true_eq, Field.decl] at htype
      obtain ⟨⟨hs, hx⟩, hptr⟩ := htype
      have e1 := decodeWritten_one fc ns attrs ("vt:" ++ T) ⟨"vt", T⟩ v fa f hqual hfind hf hx hs
      have e2 := decodeWritten_one fc ns attrs T ⟨"", T⟩ v fa f hbare hfind hf hx hs
      refine ⟨e1.trans e2.symm, ?_⟩
      intro d hd
      rw [e2] at hd
      cases hrs : readStart ns ⟨"property", attrs⟩ with
      | error e => simp [hrs] at hd
      | ok p =>
        obtain ⟨inner, st⟩ := p
        simp only [hrs] at hd
        cases hst : unmarshalStart fc decodeProperty.fields
            ⟨some ⟨0, "property", "", 1, []⟩, typeFields acceptDecls⟩ st {} with
        | error e => simp [hst] at hd
        | ok r1 =>
          simp only [hst] at hd
          cases hcv : copyValue fc f.goType v with
          | error e => simp [hcv] at hd
          | ok x =>
            simp only [hcv, Except.ok.injEq] at hd
            have hxt := copyValue_goType fc _ _ _ hcv
            have hvals : fieldValues decodeProperty.fields d =
                (fieldValues decodeProperty.fields r1).set fa.idx (some x) := by
              rw [← hd, lawful_decodeProperty fa.idx f hf r1 x, if_pos hxt.symm]
            have hpop1 : populatedSlots decodeProperty.fields r1 = [] := by
              rw [unmarshalStart_populates_nothing fc st _ _ hst, populatedSlots_zero]
            have hlen : fa.idx < (fieldValues decodeProperty.fields r1).length := by
              rw [fieldValues_length]; exact hidx
            refine ⟨?_, f.goType.deref, x, ?_, ?_, ?_⟩
            · rw [populatedSlots_set decodeProperty.fields r1 d fa x hmem accept_slot_idx_nodup
                hpop1 hlen hvals, hname]
            · unfold slotType
              rw [hty, Option.some_bind, fieldType, hmap, hf]
              simp only [Option.map_some', Field.decl]
              rw [← hptr]
            · rw [← hptr]; exact hcv
            · unfold slotValue
              have hfind2 : (variantSlots (decodeProperty.fields.map Field.decl)).find?
                  (fun finfo => decide (finfo.name = T)) = some fa := hty
              rw [hfind2, hvals]
              simp [List.getElem?_set_self hlen]

/-- C4 at the variant type i4 and the text 42, with vt bound to the variant-types name
space: both spellings decode to the record whose I4 slot holds the int32 42. -/
theorem decode_accepts_qualified_and_bare_witness :
    "i4" ∈ catalogue ∧
    decodeWritten FloatConv.ofBits
      [("vt", "http://schemas.openxmlformats.org/officeDocument/2006/docPropsVTypes")]
      ⟨⟨"property", [("fmtid", "f"), ("pid", "2"), ("name", "n")]⟩,
        [⟨⟨"vt:" ++ "i4", []⟩, "42"⟩]⟩ =
    decodeWritten FloatConv.ofBits
      [("vt", "http://schemas.openxmlformats.org/officeDocument/2006/docPropsVTypes")]
      ⟨⟨"property", [("fmtid", "f"), ("pid", "2"), ("name", "n")]⟩, [⟨⟨"i4", []⟩, "42"⟩]⟩ ∧
    decodeWritten FloatConv.ofBits
      [("vt", "http://schemas.openxmlformats.org/officeDocument/2006/docPropsVTypes")]
      ⟨⟨"property", [("fmtid", "f"), ("pid", "2"), ("name", "n")]⟩, [⟨⟨"i4", []⟩, "42"⟩]⟩ =
    .ok { XMLName := ⟨"", "property"⟩, FmtID := "f", PID := ⟨2, by decide, by decide⟩,
          Name := "n", I4 := some ⟨42, by decide, by decide⟩ } :=
  ⟨by decide!,
   (decode_accepts_qualified_and_bare FloatConv.ofBits _ _ "i4" (by decide!) "42").1,
   by decide!⟩

/-- The emit record cannot stand in for the accept record: unmarshalled into xlsxProperty,
whose tags carry the qualifier in the local name, neither spelling of the child populates
a slot. -/
theorem emit_record_decodes_no_slot :
    (match readProperty
        [("vt", "http://schemas.openxmlformats.org/officeDocument/2006/docPropsVTypes")]
        ⟨⟨"property", [("fmtid", "f"), ("pid", "2")]⟩,
          [⟨⟨"vt:i4", []⟩, "42"⟩, ⟨⟨"i4", []⟩, "42"⟩]⟩ with
      | .error e => Except.error e
      | .ok e => (unmarshalStruct FloatConv.ofBits xlsxProperty.fields {} e).map
          (populatedSlots xlsxProperty.fields)) = Except.ok [] := by
  decide!

/-! ## At most one slot per child element -/

theorem traverse_length {α β : Type} (f : α → Except String β) :
    ∀ (l : List α) (l1 : List β), traverse f l = .ok l1 → l1.length = l.length := by
  intro l
  induction l with
  | nil =>
    intro l1 h
    simp only [traverse, Except.ok.injEq] at h
    subst h
    rfl
  | cons a more ih =>
    intro l1 h
    unfold traverse at h
    cases hfa : f a with
    | error e => simp [hfa] at h
    | ok b =>
      simp only [hfa] at h
      cases hm : traverse f more with
      | error e => simp [hm] at h
      | ok bs =>
        simp only [hm, Except.ok.injEq] at h
        rw [← h, List.length_cons, List.length_cons, ih bs hm]

/-- Assigning one field of a lawful record populates at most one more slot. -/
theorem Lawful.populated_set_le {R : Type} {fields : List (Field R)} (hl : Lawful fields)
    (hnd : ((variantSlots (fields.map Field.decl)).map (·.idx)).Nodup)
    {k : Nat} {f : Field R} (hf : fields[k]? = some f) (r : R) (v : Scalar) :
    (populatedSlots fields (f.set r v)).length ≤ (populatedSlots fields r).length + 1 := by
  have h := hl k f hf r v
  split at h
  · exact populatedSlots_set_le fields r _ k _ hnd h
  · unfold populatedSlots
    rw [h]
    omega

theorem unmarshalPath_populated_le {R : Type} (fc : FloatConv) {fields : List (Field R)}
    (hl : Lawful fields)
    (hnd : ((variantSlots (fields.map Field.decl)).map (·.idx)).Nodup)
    (tfields : List fieldInfo) (hplain : ∀ f ∈ tfields, f.xmlns = "" ∧ f.parents = [])
    (child : VariantElement xml.StartElement) (r r1 : R)
    (h : unmarshalPath fc fields child tfields r = .ok r1) :
    (populatedSlots fields r1).length ≤ (populatedSlots fields r).length + 1 := by
  rw [unmarshalPath_eq_find fc fields child tfields hplain] at h
  split at h
  · rename_i finfo _
    unfold assignElement at h
    cases hf : fields[finfo.idx]? with
    | none => simp [hf] at h
    | some f =>
      simp only [hf] at h
      split at h
      · simp only [Except.ok.injEq] at h
        rw [← h]
        exact hl.populated_set_le hnd hf r _
      · split at h
        · cases hcv : copyValue fc f.goType child.content with
          | error e => simp [hcv] at h
          | ok x =>
            simp only [hcv, Except.ok.injEq] at h
            rw [← h]
            exact hl.populated_set_le hnd hf r _
        · simp at h
  · simp only [Except.ok.injEq] at h
    rw [← h]
    omega

theorem unmarshalChildren_populated_le {R : Type} (fc : FloatConv) {fields : List (Field R)}
    (hl : Lawful fields)
    (hnd : ((variantSlots (fields.map Field.decl)).map (·.idx)).Nodup)
    (tfields : List fieldInfo) (hplain : ∀ f ∈ tfields, f.xmlns = "" ∧ f.parents = [])
    (children : List (VariantElement xml.StartElement)) :
    ∀ r r1 : R, unmarshalChildren fc fields tfields children r = .ok r1 →
      (populatedSlots fields r1).length ≤ (populatedSlots fields r).length + children.length := by
  induction children with
  | nil =>
    intro r r1 h
    simp only [unmarshalChildren, Except.ok.injEq] at h
    rw [← h]
    omega
  | cons child more ih =>
    intro r r1 h
    unfold unmarshalChildren at h
    cases h1 : unmarshalPath fc fields child tfields r with
    | error e => simp [h1] at h
    | ok r2 =>
      simp only [h1] at h
      have a := unmarshalPath_populated_le fc hl hnd tfields hplain child r r2 h1
      have b := ih r2 r1 h
      rw [List.length_cons]
      omega

/-- C6, as amended: the record types admit several populated slots, but decoding keeps
them apart.  A decodeProperty decoded from a property element has at most as many
non-empty variant slots as the element has child elements, hence at most one when the
element has at most one child; and the zero record of either dialect has none. -/
theorem decoded_slots_bounded_by_children (fc : FloatConv) (ns : NsMap)
    (e : PropertyElement RawStart) (d : decodeProperty)
    (h : decodeWritten fc ns e = .ok d) :
    (populatedSlots decodeProperty.fields d).length ≤ e.content.length ∧
    (e.content.length ≤ 1 → (populatedSlots decodeProperty.fields d).length ≤ 1) ∧
    populatedSlots decodeProperty.fields {} = [] ∧
    populatedSlots xlsxProperty.fields {} = [] := by
  have key : (populatedSlots decodeProperty.fields d).length ≤ e.content.length := by
    unfold decodeWritten readProperty at h
    cases hrs : readStart ns e.start with
    | error err => simp [hrs] at h
    | ok p =>
      obtain ⟨inner, st⟩ := p
      simp only [hrs] at h
      cases htr : traverse (readVariant inner) e.content with
      | error err => simp [htr, Except.map] at h
      | ok cs =>
        simp only [htr, Except.map] at h
        unfold unmarshalStruct at h
        rw [getTypeInfo_accept] at h
        simp only at h
        cases hst : unmarshalStart fc decodeProperty.fields
            ⟨some ⟨0, "property", "", 1, []⟩, typeFields acceptDecls⟩ st {} with
        | error err => simp [hst] at h
        | ok r1 =>
          simp only [hst] at h
          have a := unmarshalChildren_populated_le fc lawful_decodeProperty
            accept_slot_idx_nodup _ accept_fields_plain cs r1 d h
          rw [unmarshalStart_populates_nothing fc st _ _ hst, populatedSlots_zero,
            traverse_length _ _ _ htr] at a
          simpa using a
  exact ⟨key, fun h1 => le_trans key h1, populatedSlots_zero, by decide!⟩

/-- C6, counterexample: a record with two populated slots exists in both dialects, and the
accept one is what decoding a property element with two variant children gives. -/
theorem two_slots_populated :
    populatedSlots xlsxProperty.fields
      { I4 := some ⟨1, by decide, by decide⟩, Lpwstr := some "x" } = ["vt:i4", "vt:lpwstr"] ∧
    decodeWritten FloatConv.ofBits []
      ⟨⟨"property", [("fmtid", "f"), ("pid", "2"), ("name", "n")]⟩,
        [⟨⟨"vt:i4", []⟩, "1"⟩, ⟨⟨"vt:lpwstr", []⟩, "x"⟩]⟩ =
      .ok { XMLName := ⟨"", "property"⟩, FmtID := "f", PID := ⟨2, by decide, by decide⟩,
            Name := "n", I4 := some ⟨1, by decide, by decide⟩, Lpwstr := some "x" } ∧
    populatedSlots decodeProperty.fields
      { XMLName := ⟨"", "property"⟩, FmtID := "f", PID := ⟨2, by decide, by decide⟩,
        Name := "n", I4 := some ⟨1, by decide, by decide⟩, Lpwstr := some "x" } =
      ["i4", "lpwstr"] := by
  refine ⟨by decide!, by decide!, by decide!⟩

/-- C6 as amended, at a property element with the single child vt:lpwstr: the decoded
record has one populated slot. -/
theorem decoded_slots_bounded_by_children_witness :
    decodeWritten FloatConv.ofBits []
      ⟨⟨"property", [("fmtid", "f"), ("pid", "2"), ("name", "n")]⟩,
        [⟨⟨"vt:lpwstr", []⟩, "x"⟩]⟩ =
      .ok { XMLName := ⟨"", "property"⟩, FmtID := "f", PID := ⟨2, by decide, by decide⟩,
            Name := "n", Lpwstr := some "x" } ∧
    (populatedSlots decodeProperty.fields
      { XMLName := ⟨"", "property"⟩, FmtID := "f", PID := ⟨2, by decide, by decide⟩,
        Name := "n", Lpwstr := some "x" }).length ≤ 1 :=
  ⟨by decide!, (decoded_slots_bounded_by_children FloatConv.ofBits []
    ⟨⟨"property", [("fmtid", "f"), ("pid", "2"), ("name", "n")]⟩,
      [⟨⟨"vt:lpwstr", []⟩, "x"⟩]⟩ _ (by decide!)).1⟩

/-! ## Marshalling the slots and unmarshalling them again -/

theorem marshalElems_filter {R : Type} (fc : FloatConv) (fields : List (Field R)) (r : R)
    (l : List fieldInfo) :
    marshalElems fc fields r l =
      marshalElems fc fields r (l.filter (fun f => decide (f.flags &&& fAttr = 0))) := by
  induction l with
  | nil => rfl
  | cons f more ih =>
    by_cases h : f.flags &&& fAttr = 0
    · rw [List.filter_cons_of_pos (by simpa using h)]
      unfold marshalElems
      rw [ih]
    · rw [List.filter_cons_of_neg (by simpa using h)]
      conv_lhs => unfold marshalElems
      rw [if_pos h, ih]

theorem marshalAttrs_filter {R : Type} (fc : FloatConv) (fields : List (Field R)) (r : R)
    (l : List fieldInfo) :
    marshalAttrs fc fields r l =
      marshalAttrs fc fields r (l.filter (fun f => decide (f.flags &&& fAttr ≠ 0))) := by
  induction l with
  | nil => rfl
  | cons f more ih =>
    by_cases h : f.flags &&& fAttr = 0
    · rw [List.filter_cons_of_neg (by simpa using h)]
      conv_lhs => unfold marshalAttrs
      rw [if_pos h, ih]
    · rw [List.filter_cons_of_pos (by simpa using h)]
      unfold marshalAttrs
      rw [ih]

theorem unmarshalAttr_filter {R : Type} (fc : FloatConv) (fields : List (Field R))
    (a : xml.Attr) (l : List fieldInfo) :
    ∀ r, unmarshalAttr fc fields a l r =
      unmarshalAttr fc fields a (l.filter (fun f => decide (f.flags &&& fMode = fAttr))) r := by
  induction l with
  | nil => intro r; rfl
  | cons f more ih =>
    intro r
    by_cases h : f.flags &&& fMode = fAttr
    · rw [List.filter_cons_of_pos (by simpa using h)]
      unfold unmarshalAttr
      split
      · cases fields[f.idx]? with
        | none => rfl
        | some fld =>
          simp only
          cases copyValue fc fld.goType a.Value with
          | error e => rfl
          | ok v => simp only; rw [ih]
      · rw [ih]
    · rw [List.filter_cons_of_neg (by simpa using h)]
      conv_lhs => unfold unmarshalAttr
      rw [if_neg (fun hc => h hc.1), ih]

theorem unmarshalAttrs_filter {R : Type} (fc : FloatConv) (fields : List (Field R))
    (l : List fieldInfo) (attrs : List xml.Attr) :
    ∀ r, unmarshalAttrs fc fields l attrs r =
      unmarshalAttrs fc fields (l.filter (fun f => decide (f.flags &&& fMode = fAttr)))
        attrs r := by
  induction attrs with
  | nil => intro r; rfl
  | cons a more ih =>
    intro r
    unfold unmarshalAttrs
    rw [unmarshalAttr_filter]
    cases unmarshalAttr fc fields a
        (l.filter (fun f => decide (f.flags &&& fMode = fAttr))) r with
    | error e => rfl
    | ok r1 => simp only; rw [ih]

/-- What the alignment of a slot says, spelled out. -/
theorem slotAligned_spec {R D : Type} (E : List (Field R)) (A : List (Field D))
    (ta : List fieldInfo) (fe : fieldInfo)
    (h : slotAligned (E.map Field.decl) (A.map Field.decl) ta fe = true) :
    fe.flags = fElement ∧ fe.parents = [] ∧ fe.xmlns = "" ∧ fe.name ≠ "" ∧
    ∃ nm f g fa, nsname fe.name = .ok nm ∧ E[fe.idx]? = some f ∧ A[fe.idx]? = some g ∧
      ta.find? (elementMatch nm.Local) = some fa ∧ fa.idx = fe.idx ∧
      g.goType = f.goType ∧ isSimple f.goType = true ∧ f.goType ≠ .xmlName := by
  unfold slotAligned at h
  simp only [Bool.and_eq_true, decide_eq_true_eq] at h
  obtain ⟨⟨⟨⟨h1, h2⟩, h3⟩, h4⟩, h5⟩ := h
  refine ⟨h1, h2, h3, h4, ?_⟩
  split at h5
  · rename_i nm de hnm hde
    simp only [Bool.and_eq_true, decide_eq_true_eq] at h5
    obtain ⟨⟨h6, h7⟩, h8⟩ := h5
    split at h6
    · rename_i fa hfa
      simp only [Bool.and_eq_true, decide_eq_true_eq] at h6
      obtain ⟨h9, h10⟩ := h6
      rw [List.getElem?_map] at hde h10
      cases hf : E[fe.idx]? with
      | none => simp [hf] at hde
      | some f =>
        rw [h9] at h10
        cases hg : A[fe.idx]? with
        | none => simp [hg] at h10
        | some g =>
          simp only [hf, Option.map_some', Option.some.injEq] at hde
          simp only [hg, Option.map_some', Option.some.injEq] at h10
          subst hde
          exact ⟨nm, f, g, fa, hnm, rfl, rfl, hfa, h9, h10, h7, h8⟩
    · simp at h6
  · simp at h5

theorem slots_round_trip {R D : Type} (fc : FloatConv) (E : List (Field R))
    (A : List (Field D)) (ta : List fieldInfo)
    (hta : ∀ f ∈ ta, f.xmlns = "" ∧ f.parents = []) (p : R) (ns : NsMap) :
    ∀ te : List fieldInfo,
      (∀ fe ∈ te, slotAligned (E.map Field.decl) (A.map Field.decl) ta fe = true) →
      (∀ fe ∈ te, ∀ f v, E[fe.idx]? = some f → f.get p = some v →
        Scalar.Survives fc f.goType v) →
      ∃ cs cs1, marshalElems fc E p te = .ok cs ∧ cs.length ≤ te.length ∧
        traverse (readVariant ns) cs = .ok cs1 ∧
        ∀ d, unmarshalChildren fc A ta cs1 d = .ok (transfer E A p te d) := by
  intro te
  induction te with
  | nil =>
    intro _ _
    exact ⟨[], [], rfl, le_refl _, rfl, fun d => rfl⟩
  | cons fe more ih =>
    intro hal hsv
    obtain ⟨cs, cs1, hm, hlen, htr, hun⟩ := ih
      (fun g hg => hal g (List.mem_cons_of_mem _ hg))
      (fun g hg => hsv g (List.mem_cons_of_mem _ hg))
    obtain ⟨hflags, hpar, hns, hname, nm, f, g, fa, hnm, hf, hg, hfind, hidx, hty, hsimple,
      hnx⟩ := slotAligned_spec E A ta fe (hal fe (List.mem_cons_self _ _))
    have hA : fe.flags &&& fAttr = 0 := by rw [hflags]; decide!
    have hM : fe.flags &&& fMode = fElement := by rw [hflags]; decide!
    have hO : fe.flags &&& fOmitEmpty = 0 := by rw [hflags]; decide!
    cases hget : f.get p with
    | none =>
      refine ⟨cs, cs1, ?_, Nat.le_succ_of_le hlen, htr, ?_⟩
      · unfold marshalElems
        simp [hA, hM, hpar, hf, hget, hm]
      · intro d
        unfold transfer
        simp only [hf, hg, Option.some_bind, hget]
        exact hun d
    | some v =>
      obtain ⟨s, hs, hcv⟩ := hsv fe (List.mem_cons_self _ _) f v hf hget
      refine ⟨⟨⟨fe.name, []⟩, escapeText s⟩ :: cs,
        ⟨⟨translate ns nm true, []⟩, escapeText s⟩ :: cs1, ?_, ?_, ?_, ?_⟩
      · unfold marshalElems
        simp [hA, hM, hpar, hf, hget, hm, hO, hname, hs, writeStart, hns]
      · simp only [List.length_cons]; omega
      · unfold traverse
        rw [readVariant_plain ns fe.name nm _ hnm]
        simp only [htr]
      · intro d
        unfold unmarshalChildren transfer
        rw [unmarshalPath_eq_find fc A _ ta hta]
        simp only [translate_local, hfind]
        rw [assignElement_simple fc A fa g (hidx ▸ hg) (hty ▸ hnx) (hty ▸ hsimple)]
        simp only [hty, hcv, hf, hg, Option.some_bind, hget]
        exact hun _

/-! ## The values of the fields after the transfer -/

theorem typed_xlsxProperty (k : Nat) (f : Field xlsxProperty) (r : xlsxProperty) (v : Scalar)
    (hf : xlsxProperty.fields[k]? = some f) (hget : f.get r = some v) :
    f.goType.deref = v.goType := by
  have hk : k < 38 := by
    obtain ⟨h, _⟩ := List.getElem?_eq_some.mp hf
    simpa [xlsxProperty.fields] using h
  interval_cases k <;>
    (simp only [xlsxProperty.fields, List.getElem?_cons_succ, List.getElem?_cons_zero,
       Option.some.injEq] at hf
     subst hf
     simp only [ptrField, valField, Option.map_eq_some', Option.some.injEq] at hget
     first
     | (obtain ⟨x, _, hx⟩ := hget; subst hx; rfl)
     | (subst hget; rfl))

theorem fieldValues_getElem? {R : Type} (fields : List (Field R)) (r : R) (k : Nat) :
    (fieldValues fields r)[k]? = (fields[k]?).map (fun f => f.get r) := by
  simp [fieldValues]

theorem transfer_values {R D : Type} (E : List (Field R)) (A : List (Field D)) (p : R)
    (hl : Lawful A)
    (hty : ∀ (k : Nat) (f : Field R) (v : Scalar), E[k]? = some f → f.get p = some v →
      f.goType.deref = v.goType) :
    ∀ (te : List fieldInfo) (d : D),
      (∀ fe ∈ te, ∃ f g, E[fe.idx]? = some f ∧ A[fe.idx]? = some g ∧ g.goType = f.goType) →
      ∀ k, (fieldValues A (transfer E A p te d))[k]? =
        if (∃ fe ∈ te, fe.idx = k ∧ ((fieldValues E p)[k]?).join.isSome = true) then
          ((fieldValues E p)[k]?).map (Option.map Scalar.asRead)
        else (fieldValues A d)[k]? := by
  intro te
  induction te with
  | nil =>
    intro d _ k
    simp [transfer]
  | cons fe more ih =>
    intro d hte k
    obtain ⟨f, g, hf, hg, hfg⟩ := hte fe (List.mem_cons_self _ _)
    have ih' := fun d' => ih d' (fun x hx => hte x (List.mem_cons_of_mem _ hx)) k
    unfold transfer
    simp only [hf, hg, Option.some_bind]
    by_cases hmore : ∃ x ∈ more, x.idx = k ∧ ((fieldValues E p)[k]?).join.isSome = true
    · have hall : ∃ x ∈ fe :: more, x.idx = k ∧ ((fieldValues E p)[k]?).join.isSome = true := by
        obtain ⟨x, hx, h⟩ := hmore
        exact ⟨x, List.mem_cons_of_mem _ hx, h⟩
      rw [if_pos hall]
      cases hget : f.get p <;> simp only [] <;> rw [ih', if_pos hmore]
    · cases hget : f.get p with
      | none =>
        simp only []
        rw [ih', if_neg hmore]
        have hno : ¬ ∃ x ∈ fe :: more, x.idx = k ∧
            ((fieldValues E p)[k]?).join.isSome = true := by
          rintro ⟨x, hx, hxk, hsome⟩
          rcases List.mem_cons.mp hx with h | h
          · subst h
            rw [← hxk, fieldValues_getElem?, hf] at hsome
            simp [hget] at hsome
          · exact hmore ⟨x, h, hxk, hsome⟩
        rw [if_neg hno]
      | some v =>
        simp only []
        rw [ih', if_neg hmore]
        have hset := hl fe.idx g hg d v.asRead
        rw [if_pos (by rw [hfg, asRead_goType]; exact hty fe.idx f v hf hget)] at hset
        by_cases hk : fe.idx = k
        · have hyes : ∃ x ∈ fe :: more, x.idx = k ∧
              ((fieldValues E p)[k]?).join.isSome = true := by
            refine ⟨fe, List.mem_cons_self _ _, hk, ?_⟩
            rw [← hk, fieldValues_getElem?, hf]
            simp [hget]
          rw [if_pos hyes, hset, ← hk]
          have hlen : fe.idx < (fieldValues A d).length := by
            obtain ⟨h, _⟩ := List.getElem?_eq_some.mp hg
            simpa [fieldValues] using h
          rw [List.getElem?_set_self hlen, fieldValues_getElem?, hf]
          simp [hget]
        · have hno : ¬ ∃ x ∈ fe :: more, x.idx = k ∧
              ((fieldValues E p)[k]?).join.isSome = true := by
            rintro ⟨x, hx, hxk, hsome⟩
            rcases List.mem_cons.mp hx with h | h
            · subst h; exact hk hxk
            · exact hmore ⟨x, h, hxk, hsome⟩
          rw [if_neg hno, hset, List.getElem?_set_ne hk]

/-! ## The start tag of a property element -/

theorem getTypeInfo_emit : getTypeInfo (xlsxProperty.fields.map Field.decl) =
    .ok ⟨some ⟨0, "property", "", 1, []⟩, typeFields emitDecls⟩ := by rfl

theorem emit_attr_fields :
    (typeFields emitDecls).filter (fun f => decide (f.flags &&& fAttr ≠ 0)) =
      [⟨1, "fmtid", "", 2, []⟩, ⟨2, "pid", "", 2, []⟩, ⟨3, "name", "", 130, []⟩,
       ⟨4, "linkTarget", "", 130, []⟩] := by decide!

theorem accept_attr_fields :
    (typeFields acceptDecls).filter (fun f => decide (f.flags &&& fMode = fAttr)) =
      [⟨1, "fmtid", "", 2, []⟩, ⟨2, "pid", "", 2, []⟩, ⟨3, "name", "", 130, []⟩,
       ⟨4, "linkTarget", "", 130, []⟩] := by decide!

theorem emit_elem_fields :
    (typeFields emitDecls).filter (fun f => decide (f.flags &&& fAttr = 0)) =
      variantSlots emitDecls := by decide!

/-- The attributes written for a property record of the emit dialect: fmtid and pid
always, name and linkTarget exactly when they are not empty. -/
theorem marshalAttrs_emit (fc : FloatConv) (p : xlsxProperty) :
    marshalAttrs fc xlsxProperty.fields p (typeFields emitDecls) =
      .ok ([("fmtid", escapeText p.FmtID), ("pid", escapeText (strconv.FormatInt p.PID.val))] ++
        (if p.Name = "" then [] else [("name", escapeText p.Name)]) ++
        (if p.LinkTarget = "" then [] else [("linkTarget", escapeText p.LinkTarget)])) := by
  rw [marshalAttrs_filter, emit_attr_fields]
  have e1 : (2 : Nat) &&& 128 = 0 := by decide!
  have e2 : (130 : Nat) &&& 128 = 128 := by decide!
  have e3 : (2 : Nat) &&& 2 = 2 := by decide!
  have e4 : (130 : Nat) &&& 2 = 2 := by decide!
  by_cases h1 : p.Name = "" <;> by_cases h2 : p.LinkTarget = "" <;>
    simp [marshalAttrs, xlsxProperty.fields, valField, Kind.string, Kind.int, marshalSimple,
      isEmptyValue, fAttr, fOmitEmpty, h1, h2, e1, e2, e3, e4]

theorem nsname_attr_names :
    nsname "property" = .ok ⟨"", "property"⟩ ∧ nsname "fmtid" = .ok ⟨"", "fmtid"⟩ ∧
    nsname "pid" = .ok ⟨"", "pid"⟩ ∧ nsname "name" = .ok ⟨"", "name"⟩ ∧
    nsname "linkTarget" = .ok ⟨"", "linkTarget"⟩ := by decide!

theorem translate_attr (ns : NsMap) (loc : String) :
    translate ns ⟨"", loc⟩ false = ⟨"", loc⟩ := by
  simp [translate]

/-- Reading the start tag of a written property element: the attribute names carry no
qualifier and declare no name space, so the bindings in scope stay as they are. -/
theorem readStart_property (ns : NsMap) (fmtid pid name linkTarget : String) :
    readStart ns ⟨"property",
        [("fmtid", fmtid), ("pid", pid)] ++
        (if name = "" then [] else [("name", name)]) ++
        (if linkTarget = "" then [] else [("linkTarget", linkTarget)])⟩ =
      .ok (ns, ⟨translate ns ⟨"", "property"⟩ true,
        [⟨⟨"", "fmtid"⟩, fmtid⟩, ⟨⟨"", "pid"⟩, pid⟩] ++
        (if name = "" then [] else [⟨⟨"", "name"⟩, name⟩]) ++
        (if linkTarget = "" then [] else [⟨⟨"", "linkTarget"⟩, linkTarget⟩])⟩) := by
  obtain ⟨n0, n1, n2, n3, n4⟩ := nsname_attr_names
  by_cases h1 : name = "" <;> by_cases h2 : linkTarget = "" <;>
    simp [readStart, traverse, n0, n1, n2, n3, n4, declare, h1, h2, Except.map,
      translate_attr]

/-- Starting to unmarshal a property element into a fresh accept record: the attributes
are assigned, a missing name or linkTarget stays the empty string, and XMLName takes the
element name. -/
theorem unmarshalStart_property (fc : FloatConv) (nm : xml.Name) (hnm : nm.Local = "property")
    (fmtid name linkTarget : String) (pid : int) :
    unmarshalStart fc decodeProperty.fields
        ⟨some ⟨0, "property", "", 1, []⟩, typeFields acceptDecls⟩
        ⟨nm, [⟨⟨"", "fmtid"⟩, fmtid⟩, ⟨⟨"", "pid"⟩, strconv.FormatInt pid.val⟩] ++
          (if name = "" then [] else [⟨⟨"", "name"⟩, name⟩]) ++
          (if linkTarget = "" then [] else [⟨⟨"", "linkTarget"⟩, linkTarget⟩])⟩ {} =
      .ok { XMLName := nm, FmtID := fmtid, PID := pid, Name := name,
            LinkTarget := linkTarget } := by
  have hpid : copyValue fc .int (strconv.FormatInt pid.val) = .ok (.int pid) := by
    obtain ⟨s, hs, hcv⟩ := (survives_of_exact fc (.int pid) (by simp [Scalar.goType])).2
    simp only [marshalSimple, Except.ok.injEq] at hs
    subst hs
    rwa [(text_of_plain _ (formatInt_plain pid.val).1).1] at hcv
  have e1 : (2 : Nat) &&& 127 = 2 := by decide!
  have e2 : (130 : Nat) &&& 127 = 2 := by decide!
  have hmode : fMode = 127 := by decide!
  have hattr : fAttr = 2 := rfl
  have hstr : ∀ s, copyValue fc .string s = .ok (.string s) := fun s => rfl
  unfold unmarshalStart
  simp only [hnm, unmarshalAttrs_filter fc decodeProperty.fields (typeFields acceptDecls),
    accept_attr_fields]
  by_cases h1 : name = "" <;> by_cases h2 : linkTarget = "" <;>
    simp [unmarshalAttrs, unmarshalAttr, decodeProperty.fields, valField, Kind.string,
      Kind.int, Kind.xmlName, hstr, hpid, h1, h2, e1, e2, hmode, hattr]

/-! ## A property record through the document -/

theorem emit_slots_aligned : ∀ fe ∈ variantSlots emitDecls,
    slotAligned emitDecls acceptDecls (typeFields acceptDecls) fe = true ∧
    ((emitDecls[fe.idx]?).map (·.goType)).all (fun t => decide (t = .ptr t.deref)) = true := by
  decide!

theorem emit_slot_at : ∀ k < 38, 5 ≤ k → ∃ fe ∈ variantSlots emitDecls, fe.idx = k := by
  decide!

theorem mem_fieldValues {R : Type} (fields : List (Field R)) (r : R) (k : Nat) (f : Field R)
    (hf : fields[k]? = some f) : f.get r ∈ fieldValues fields r := by
  unfold fieldValues
  exact List.mem_map.mpr ⟨f, List.getElem?_mem hf, rfl⟩

/-- Every slot value of a record whose floats survive survives the document. -/
theorem slot_values_survive (fc : FloatConv) (p : xlsxProperty)
    (hfloat : p.FloatsSurvive fc) (fe : fieldInfo) (hfe : fe ∈ variantSlots emitDecls)
    (f : Field xlsxProperty) (v : Scalar) (hf : xlsxProperty.fields[fe.idx]? = some f)
    (hget : f.get p = some v) : Scalar.Survives fc f.goType v := by
  have hptr := (emit_slots_aligned fe hfe).2
  have hmap : emitDecls[fe.idx]? = (xlsxProperty.fields[fe.idx]?).map Field.decl := by
    simp [emitDecls]
  simp only [hmap, hf, Option.map_some', Option.all_some, decide_eq_true_eq, Field.decl] at hptr
  have hty := typed_xlsxProperty fe.idx f p v hf hget
  rw [hptr, hty]
  have hmem : some v ∈ fieldValues xlsxProperty.fields p := hget ▸ mem_fieldValues _ p _ f hf
  cases v with
  | string s => exact (survives_string fc s).1
  | float32 x => exact hfloat _ hmem (Or.inl rfl)
  | float64 x => exact hfloat _ hmem (Or.inr rfl)
  | xmlName n =>
    obtain ⟨_, _, _, _, nm, f', g, fa, _, hf', _, _, _, _, hsimple, _⟩ :=
      slotAligned_spec xlsxProperty.fields decodeProperty.fields _ fe (emit_slots_aligned fe hfe).1
    rw [hf] at hf'
    injection hf' with hf'
    subst hf'
    rw [hptr, hty] at hsimple
    simp [Scalar.goType, isSimple] at hsimple
  | _ => exact (survives_of_exact fc _ (by simp [Scalar.goType])).1

theorem decodedFrom_sameFields (nm : xml.Name) (p : xlsxProperty) :
    sameFieldsAsRead p (decodedFrom nm p) ∧ (decodedFrom nm p).XMLName = nm := by
  have hvals := transfer_values xlsxProperty.fields decodeProperty.fields p
    lawful_decodeProperty (fun k f v hf hget => typed_xlsxProperty k f p v hf hget)
    (variantSlots emitDecls)
    ({ XMLName := nm, FmtID := escapeText p.FmtID, PID := p.PID, Name := escapeText p.Name,
       LinkTarget := escapeText p.LinkTarget } : decodeProperty)
    (by
      intro fe hfe
      obtain ⟨_, _, _, _, _, f, g, _, _, hf, hg, _, _, hty, _, _⟩ :=
        slotAligned_spec xlsxProperty.fields decodeProperty.fields _ fe
          (emit_slots_aligned fe hfe).1
      exact ⟨f, g, hf, hg, hty⟩)
  have hzero : ∀ k < 38, 5 ≤ k → (fieldValues decodeProperty.fields
      ({ XMLName := nm, FmtID := escapeText p.FmtID, PID := p.PID, Name := escapeText p.Name,
         LinkTarget := escapeText p.LinkTarget } : decodeProperty))[k]? = some none := by
    intro k hk h5
    interval_cases k <;> rfl
  have hlow : ∀ k < 5, (fieldValues decodeProperty.fields
      ({ XMLName := nm, FmtID := escapeText p.FmtID, PID := p.PID, Name := escapeText p.Name,
         LinkTarget := escapeText p.LinkTarget } : decodeProperty))[k]? =
      if k = 0 then some (some (.xmlName nm))
      else ((fieldValues xlsxProperty.fields p)[k]?).map (Option.map Scalar.asRead) := by
    intro k hk
    interval_cases k <;> rfl
  have hpoint : ∀ k, (fieldValues decodeProperty.fields (decodedFrom nm p))[k]? =
      if k = 0 then some (some (.xmlName nm))
      else ((fieldValues xlsxProperty.fields p)[k]?).map (Option.map Scalar.asRead) := by
    intro k
    unfold decodedFrom
    rw [hvals k]
    by_cases hk5 : k < 5
    · have hno : ¬ ∃ fe ∈ variantSlots emitDecls, fe.idx = k ∧
          ((fieldValues xlsxProperty.fields p)[k]?).join.isSome = true := by
        rintro ⟨fe, hfe, hidx, _⟩
        have : ∀ fe ∈ variantSlots emitDecls, 5 ≤ fe.idx := by decide!
        have := this fe hfe
        omega
      rw [if_neg hno, hlow k hk5]
    · by_cases hk38 : k < 38
      · have hk0 : k ≠ 0 := by omega
        rw [if_neg hk0]
        split
        · rfl
        · rename_i hno
          rw [hzero k hk38 (by omega)]
          obtain ⟨fe, hfe, hidx⟩ := emit_slot_at k hk38 (by omega)
          have hlen : k < (fieldValues xlsxProperty.fields p).length := by
            simp [fieldValues, xlsxProperty.fields]; exact hk38
          rw [List.getElem?_eq_getElem hlen]
          cases hw : (fieldValues xlsxProperty.fields p)[k] with
          | none => rfl
          | some w =>
            exfalso
            apply hno
            refine ⟨fe, hfe, hidx, ?_⟩
            rw [List.getElem?_eq_getElem hlen, hw]
            rfl
      · have hk0 : k ≠ 0 := by omega
        have h1 : (fieldValues xlsxProperty.fields p)[k]? = none := by
          apply List.getElem?_eq_none
          simp [fieldValues, xlsxProperty.fields]; omega
        have h2 : (fieldValues decodeProperty.fields
            ({ XMLName := nm, FmtID := escapeText p.FmtID, PID := p.PID,
               Name := escapeText p.Name,
               LinkTarget := escapeText p.LinkTarget } : decodeProperty))[k]? = none := by
          apply List.getElem?_eq_none
          simp [fieldValues, decodeProperty.fields]; omega
        rw [if_neg hk0, h1, h2]
        simp
  constructor
  · unfold sameFieldsAsRead
    apply List.ext_getElem?
    intro j
    rw [List.getElem?_map, List.getElem?_tail, List.getElem?_tail, hpoint (j + 1),
      if_neg (by omega)]
  · have h0 := hpoint 0
    rw [if_pos rfl, fieldValues_getElem?] at h0
    simp only [decodeProperty.fields, List.getElem?_cons_zero, Option.map_some', valField,
      Kind.xmlName, Option.some.injEq, Scalar.xmlName.injEq] at h0
    exact h0

/-- For a record whose strings are made of XML characters, reading back changes nothing. -/
theorem sameFields_of_clean (p : xlsxProperty) (d : decodeProperty) (hclean : p.TextClean)
    (h : sameFieldsAsRead p d) : sameFields p d := by
  unfold sameFields
  unfold sameFieldsAsRead at h
  rw [← h]
  have hid : ∀ v ∈ (fieldValues xlsxProperty.fields p).tail, Option.map Scalar.asRead v = v := by
    intro v hv
    cases v with
    | none => rfl
    | some w =>
      simp only [Option.map_some', Option.some.injEq]
      apply asRead_of_clean
      intro s hs
      subst hs
      exact hclean s (List.mem_of_mem_tail hv)
  conv_lhs => rw [← List.map_id (fieldValues xlsxProperty.fields p).tail]
  exact List.map_congr_left (fun v hv => (hid v hv).symm)

/-- Marshalling a property record of the emit dialect, reading the element and
unmarshalling it into a fresh accept record gives the record decodedFrom describes,
provided the floats survive their text. -/
theorem property_round_trip (fc : FloatConv) (ns : NsMap) (finfo : Option fieldInfo)
    (p : xlsxProperty) (hfloat : p.FloatsSurvive fc) :
    ∃ e el, marshalStruct fc "xlsxProperty" xlsxProperty.fields finfo p = .ok e ∧
      e.start.name = "property" ∧ e.content.length ≤ 33 ∧
      readProperty ns e = .ok el ∧
      el.start.Name = translate ns ⟨"", "property"⟩ true ∧
      unmarshalStruct fc decodeProperty.fields {} el =
        .ok (decodedFrom (translate ns ⟨"", "property"⟩ true) p) := by
  obtain ⟨cs, cs1, hm, hlen, htr, hun⟩ := slots_round_trip fc xlsxProperty.fields
    decodeProperty.fields (typeFields acceptDecls) accept_fields_plain p ns
    (variantSlots emitDecls) (fun fe hfe => (emit_slots_aligned fe hfe).1)
    (fun fe hfe f v hf hget => slot_values_survive fc p hfloat fe hfe f v hf hget)
  have hattrs := marshalAttrs_emit fc p
  have hN : (p.Name = "") = (escapeText p.Name = "") := propext (escapeText_eq_empty _).symm
  have hL : (p.LinkTarget = "") = (escapeText p.LinkTarget = "") :=
    propext (escapeText_eq_empty _).symm
  simp only [(text_of_plain _ (formatInt_plain p.PID.val).1).1, hN, hL] at hattrs
  have hslots : (variantSlots emitDecls).length = 33 := by decide!
  refine ⟨⟨⟨"property",
      [("fmtid", escapeText p.FmtID), ("pid", strconv.FormatInt p.PID.val)] ++
      (if escapeText p.Name = "" then [] else [("name", escapeText p.Name)]) ++
      (if escapeText p.LinkTarget = "" then []
        else [("linkTarget", escapeText p.LinkTarget)])⟩, cs⟩,
    ⟨⟨translate ns ⟨"", "property"⟩ true,
      [⟨⟨"", "fmtid"⟩, escapeText p.FmtID⟩, ⟨⟨"", "pid"⟩, strconv.FormatInt p.PID.val⟩] ++
      (if escapeText p.Name = "" then [] else [⟨⟨"", "name"⟩, escapeText p.Name⟩]) ++
      (if escapeText p.LinkTarget = "" then []
        else [⟨⟨"", "linkTarget"⟩, escapeText p.LinkTarget⟩])⟩, cs1⟩,
    ?_, rfl, hslots ▸ hlen, ?_, rfl, ?_⟩
  · unfold marshalStruct
    rw [getTypeInfo_emit]
    simp only [hattrs, marshalElems_filter fc xlsxProperty.fields p (typeFields emitDecls),
      emit_elem_fields, hm]
    simp [startName, writeStart]
  · unfold readProperty
    simp only [readStart_property, htr, Except.map]
  · unfold unmarshalStruct
    rw [getTypeInfo_accept]
    dsimp only
    rw [unmarshalStart_property fc (translate ns ⟨"", "property"⟩ true)
      (translate_local ns ⟨"", "property"⟩ true)]
    exact hun _

/-! ## What agreement field by field says about the slots -/

theorem emit_slots_of_accept_slots :
    variantSlots emitDecls =
      (variantSlots acceptDecls).map (fun fa => { fa with name := "vt:" ++ fa.name }) := by
  decide!

theorem accept_slot_idx_pos : ∀ fa ∈ variantSlots acceptDecls, 1 ≤ fa.idx := by decide!

theorem emit_slot_idx_nodup :
    ((variantSlots (xlsxProperty.fields.map Field.decl)).map (·.idx)).Nodup := by
  decide!

theorem qualified_inj (a b : String) : ("vt:" ++ a = "vt:" ++ b) ↔ a = b := by
  constructor
  · intro h
    have h1 := congrArg String.data h
    simp only [String.data_append] at h1
    exact String.ext (List.append_cancel_left h1)
  · intro h; rw [h]

theorem sameFieldsAsRead_getElem? (p : xlsxProperty) (d : decodeProperty)
    (h : sameFieldsAsRead p d) (k : Nat) (hk : 1 ≤ k) :
    (fieldValues decodeProperty.fields d)[k]? =
      ((fieldValues xlsxProperty.fields p)[k]?).map (Option.map Scalar.asRead) := by
  obtain ⟨j, rfl⟩ : ∃ j, k = j + 1 := ⟨k - 1, by omega⟩
  unfold sameFieldsAsRead at h
  have h1 := congrArg (fun l => l[j]?) h
  simp only [List.getElem?_map, List.getElem?_tail] at h1
  exact h1.symm

/-- A record of the accept dialect that agrees with a record of the emit dialect field by
field has the same slots populated, under the bare names. -/
theorem populatedSlots_of_sameFieldsAsRead (p : xlsxProperty) (d : decodeProperty)
    (h : sameFieldsAsRead p d) :
    populatedSlots xlsxProperty.fields p =
      (populatedSlots decodeProperty.fields d).map (fun T => "vt:" ++ T) := by
  unfold populatedSlots
  change ((variantSlots emitDecls).filter _).map _ =
    (((variantSlots acceptDecls).filter _).map _).map _
  rw [emit_slots_of_accept_slots, List.filter_map, List.map_map, List.map_map]
  have hf : (variantSlots acceptDecls).filter
      ((fun finfo => ((fieldValues xlsxProperty.fields p)[finfo.idx]?).join.isSome) ∘
        (fun fa : fieldInfo => { fa with name := "vt:" ++ fa.name })) =
      (variantSlots acceptDecls).filter
        (fun finfo => ((fieldValues decodeProperty.fields d)[finfo.idx]?).join.isSome) := by
    apply List.filter_congr
    intro fa hfa
    simp only [Function.comp]
    rw [sameFieldsAsRead_getElem? p d h fa.idx (accept_slot_idx_pos fa hfa)]
    cases (fieldValues xlsxProperty.fields p)[fa.idx]? with
    | none => rfl
    | some o => cases o <;> rfl
  rw [hf]
  rfl

/-- A record of the accept dialect that agrees with a record of the emit dialect field by
field holds in the slot of a bare name the value of the slot of the qualified name, as it
reads back. -/
theorem slotValue_of_sameFieldsAsRead (p : xlsxProperty) (d : decodeProperty)
    (h : sameFieldsAsRead p d) (T : String) :
    slotValue decodeProperty.fields d T =
      (slotValue xlsxProperty.fields p ("vt:" ++ T)).map Scalar.asRead := by
  unfold slotValue
  change (((variantSlots acceptDecls).find? _).bind _).join =
    ((((variantSlots emitDecls).find? _).bind _).join).map _
  rw [emit_slots_of_accept_slots, List.find?_map]
  have hp : ((fun finfo : fieldInfo => decide (finfo.name = "vt:" ++ T)) ∘
      (fun fa : fieldInfo => { fa with name := "vt:" ++ fa.name })) =
      (fun fa => decide (fa.name = T)) := by
    funext fa
    simp only [Function.comp, qualified_inj]
  rw [hp]
  cases hf : (variantSlots acceptDecls).find? (fun fa => decide (fa.name = T)) with
  | none => rfl
  | some fa =>
    have hmem := List.mem_of_find?_eq_some hf
    simp only [Option.map_some', Option.some_bind]
    rw [sameFieldsAsRead_getElem? p d h fa.idx (accept_slot_idx_pos fa hmem)]
    cases (fieldValues xlsxProperty.fields p)[fa.idx]? with
    | none => rfl
    | some o => cases o <;> rfl

/-! ## The container through the document -/

theorem getTypeInfo_emitContainer : getTypeInfo emitContainerDecls =
    .ok ⟨some ⟨0, "Properties", customPropertiesNs, 1, []⟩,
      [⟨1, "xmlns:vt", "", 2, []⟩, ⟨2, "property", "", 1, []⟩]⟩ := by rfl

theorem getTypeInfo_acceptContainer : getTypeInfo acceptContainerDecls =
    .ok ⟨some ⟨0, "Properties", customPropertiesNs, 1, []⟩,
      [⟨1, "xmlns:vt", "", 2, []⟩, ⟨2, "property", "", 1, []⟩]⟩ := by rfl

theorem traverse_append_nil {α β : Type} (f : α → Except String β) (l : List α) (l1 : List β)
    (h : traverse f l = .ok l1) : traverse f l = .ok (l1 ++ []) := by
  rw [List.append_nil]; exact h

/-- A property child of the root goes to the Property field: the record it unmarshals to
is appended to the slice. -/
theorem unmarshalPropertyChild_property (fc : FloatConv)
    (child : PropertyElement xml.StartElement) (c0 : decodeCustomProperties)
    (d : decodeProperty) (hname : child.start.Name.Local = "property")
    (hd : unmarshalStruct fc decodeProperty.fields {} child = .ok d) :
    unmarshalPropertyChild fc child
      [⟨1, "xmlns:vt", "", 2, []⟩, ⟨2, "property", "", 1, []⟩] c0 =
      .ok { c0 with Property := c0.Property ++ [d] } := by
  have e3 : (decodeCustomProperties.fields[2]?).map (·.goType) =
      some (.slice (.named "decodeProperty")) := by rfl
  simp [unmarshalPropertyChild, fElement, e3, hname, hd]

/-- The properties of a container, one after another: each is marshalled, read with the
bindings of the root in scope and unmarshalled into a fresh record appended to the slice. -/
theorem properties_round_trip (fc : FloatConv) (inner : NsMap) (finfo : Option fieldInfo)
    (hinner : translate inner ⟨"", "property"⟩ true = ⟨customPropertiesNs, "property"⟩) :
    ∀ ps : List xlsxProperty, (∀ p ∈ ps, p.FloatsSurvive fc) →
      ∃ es els, traverse (marshalStruct fc "xlsxProperty" xlsxProperty.fields finfo) ps = .ok es ∧
        traverse (readProperty inner) es = .ok els ∧
        ∀ c0, unmarshalPropertyChildren fc
          [⟨1, "xmlns:vt", "", 2, []⟩, ⟨2, "property", "", 1, []⟩] els c0 =
          .ok { c0 with
            Property := (c0.Property ++ ps.map (decodedFrom ⟨customPropertiesNs, "property"⟩)) } := by
  intro ps
  induction ps with
  | nil =>
    intro _
    refine ⟨[], [], rfl, rfl, ?_⟩
    intro c0
    simp [unmarshalPropertyChildren]
  | cons p more ih =>
    intro hfloat
    obtain ⟨es, els, h1, h2, h3⟩ := ih (fun q hq => hfloat q (List.mem_cons_of_mem _ hq))
    obtain ⟨e, el, g1, _, _, g2, g3, g4⟩ := property_round_trip fc inner finfo p
      (hfloat p (List.mem_cons_self _ _))
    rw [hinner] at g3 g4
    refine ⟨e :: es, el :: els, ?_, ?_, ?_⟩
    · simp [traverse, g1, h1]
    · simp [traverse, g2, h2]
    · intro c0
      unfold unmarshalPropertyChildren
      rw [unmarshalPropertyChild_property fc el c0 _ (by rw [g3]) g4]
      simp only [h3, List.append_assoc, List.singleton_append, List.map_cons]

/-- Decoding the encoding of an emit container succeeds, for every container whose floats
survive their text, and gives back the properties: the same number in the same order, each
with the same fmtid, pid, name, linkTarget and slot by slot the same value as it reads back
(a character outside the XML range in a string comes back as U+FFFD) and the same slots
populated, so exactly the same fields when the strings are made of XML characters.  The
name space declaration string does not come back: the decoded Vt is empty, and XMLName
holds the element names. -/
theorem container_round_trip (fc : FloatConv) (c : xlsxCustomProperties)
    (hfloat : ∀ p ∈ c.Property, p.FloatsSurvive fc) :
    ∃ d, decodeEncoded fc c = .ok d ∧
      d.Vt = "" ∧
      d.XMLName = ⟨customPropertiesNs, "Properties"⟩ ∧
      d.Property.length = c.Property.length ∧
      List.Forall₂ sameFieldsAsRead c.Property d.Property ∧
      List.Forall₂ (fun p q => populatedSlots xlsxProperty.fields p =
        (populatedSlots decodeProperty.fields q).map (fun T => "vt:" ++ T))
        c.Property d.Property ∧
      ((∀ p ∈ c.Property, p.TextClean) → List.Forall₂ sameFields c.Property d.Property) ∧
      ∀ q ∈ d.Property, q.XMLName = ⟨customPropertiesNs, "property"⟩ := by
  have n1 : nsname "Properties" = .ok ⟨"", "Properties"⟩ := by decide!
  have n2 : nsname "xmlns" = .ok ⟨"", "xmlns"⟩ := by decide!
  have n3 : nsname "xmlns:vt" = .ok ⟨"xmlns", "vt"⟩ := by decide!
  have hinner : translate [("vt", escapeText c.Vt), ("", customPropertiesNs)]
      ⟨"", "property"⟩ true = ⟨customPropertiesNs, "property"⟩ := by
    simp [translate, List.lookup]
  obtain ⟨es, els, h1, h2, h3⟩ := properties_round_trip fc _
    (some ⟨2, "property", "", 1, []⟩) hinner c.Property hfloat
  have hsame : List.Forall₂ sameFieldsAsRead c.Property
      (c.Property.map (decodedFrom ⟨customPropertiesNs, "property"⟩)) := by
    rw [List.forall₂_map_right_iff]
    exact List.forall₂_same.mpr (fun p _ => (decodedFrom_sameFields _ p).1)
  refine ⟨{ XMLName := ⟨customPropertiesNs, "Properties"⟩, Vt := "",
            Property := c.Property.map (decodedFrom ⟨customPropertiesNs, "property"⟩) },
    ?_, rfl, rfl, by simp, hsame,
    List.Forall₂.imp (fun p q h => populatedSlots_of_sameFieldsAsRead p q h) hsame, ?_, ?_⟩
  · unfold decodeEncoded marshalProperties
    rw [getTypeInfo_emitContainer]
    have e1 : (2 : Nat) &&& 2 = 2 := by decide!
    have e2 : (1 : Nat) &&& 2 = 0 := by decide!
    have e3 : (2 : Nat) &&& 128 = 0 := by decide!
    have e4 : (1 : Nat) &&& 127 = 1 := by decide!
    have hmode : fMode = 127 := by decide!
    have e5 : (xlsxCustomProperties.fields[2]?).map (·.goType) =
        some (.slice (.named "xlsxProperty")) := by rfl
    have hattrs : marshalAttrs fc xlsxCustomProperties.fields c
        [⟨1, "xmlns:vt", "", 2, []⟩, ⟨2, "property", "", 1, []⟩] =
        .ok [("xmlns:vt", escapeText c.Vt)] := by
      simp [marshalAttrs, e1, e2, e3, fAttr, fOmitEmpty, xlsxCustomProperties.fields,
        valField, Kind.string, marshalSimple]
    have hprops : marshalPropertyFields fc c
        [⟨1, "xmlns:vt", "", 2, []⟩, ⟨2, "property", "", 1, []⟩] =
        .ok es := by
      simp [marshalPropertyFields, e1, e2, e4, e5, h1, fAttr, fElement, hmode]
    simp only [hattrs, hprops]
    have hstart : startName (some ⟨0, "Properties", customPropertiesNs, 1, []⟩)
        (some (.xmlName c.XMLName)) none "xlsxCustomProperties" =
        ⟨customPropertiesNs, "Properties"⟩ := by
      simp [startName]
    have hns : customPropertiesNs ≠ "" := by decide!
    have hread : readProperties ⟨writeStart ⟨customPropertiesNs, "Properties"⟩
        [("xmlns:vt", escapeText c.Vt)], es⟩ =
        .ok ⟨⟨⟨customPropertiesNs, "Properties"⟩,
          [⟨⟨"", "xmlns"⟩, customPropertiesNs⟩, ⟨⟨"xmlns", "vt"⟩, escapeText c.Vt⟩]⟩, els⟩ := by
      unfold readProperties
      simp [writeStart, hns, readStart, n1, n2, n3, traverse, declare, Except.map, translate,
        List.lookup, h2]
    rw [hstart, hread]
    dsimp only
    unfold unmarshalProperties
    rw [getTypeInfo_acceptContainer]
    dsimp only
    have f1 : (2 : Nat) &&& 127 = 2 := by decide!
    have hst : unmarshalStart fc decodeCustomProperties.fields
        ⟨some ⟨0, "Properties", customPropertiesNs, 1, []⟩,
          [⟨1, "xmlns:vt", "", 2, []⟩, ⟨2, "property", "", 1, []⟩]⟩
        ⟨⟨customPropertiesNs, "Properties"⟩,
          [⟨⟨"", "xmlns"⟩, customPropertiesNs⟩, ⟨⟨"xmlns", "vt"⟩, escapeText c.Vt⟩]⟩ {} =
        .ok { XMLName := ⟨customPropertiesNs, "Properties"⟩ } := by
      simp [unmarshalStart, unmarshalAttrs, unmarshalAttr, f1, e4, hmode, fAttr,
        decodeCustomProperties.fields, valField, Kind.xmlName]
    rw [hst]
    dsimp only
    rw [h3]
    simp
  · intro hclean
    rw [List.forall₂_map_right_iff]
    exact List.forall₂_same.mpr (fun p hp =>
      sameFields_of_clean p _ (hclean p hp) (decodedFrom_sameFields _ p).1)
  · intro q hq
    obtain ⟨p, _, hp⟩ := List.mem_map.mp hq
    rw [← hp]
    exact (decodedFrom_sameFields _ p).2

/-! ## The name space declaration of the root on the way back -/

theorem cut_some (sep : Char) : ∀ (l a b : List Char), cut sep l = some (a, b) →
    l = a ++ sep :: b := by
  intro l
  induction l with
  | nil => intro a b h; simp [cut] at h
  | cons c cs ih =>
    intro a b h
    unfold cut at h
    split at h
    · rename_i hc
      simp only [Option.some.injEq, Prod.mk.injEq] at h
      rw [← h.1, ← h.2, hc]
      rfl
    · cases hcut : cut sep cs with
      | none => rw [hcut] at h; simp at h
      | some ab =>
        obtain ⟨a1, b1⟩ := ab
        rw [hcut] at h
        simp only [Option.some.injEq, Prod.mk.injEq] at h
        rw [← h.1, ← h.2, ih a1 b1 hcut]
        rfl

/-- The local part of a name the reader has split is never the spelling xmlns:vt. -/
theorem nsname_local_ne (s : String) (nm : xml.Name) (h : nsname s = .ok nm) :
    nm.Local ≠ "xmlns:vt" := by
  by_cases hs : s = "xmlns:vt"
  · subst hs
    have h1 : nsname "xmlns:vt" = .ok ⟨"xmlns", "vt"⟩ := by decide!
    rw [h1] at h
    injection h with h
    rw [← h]
    decide!
  · unfold nsname at h
    split at h
    · exact absurd h (by simp)
    · rename_i hcount
      split at h
      · rename_i space loc hcut
        split at h
        · injection h with h; rw [← h]; exact hs
        · injection h with h
          rw [← h]
          intro hloc
          have hdata := cut_some ':' s.data space loc hcut
          rw [hdata] at hcount
          have hl : loc = "xmlns:vt".data := by
            have := congrArg String.data hloc
            simpa using this
          have hc : List.count ':' loc = 1 := by rw [hl]; decide!
          have e : List.count ':' (space ++ ':' :: loc) =
              List.count ':' space + (List.count ':' loc + 1) := by
            rw [List.count_append, List.count_cons_self]
          rw [e, hc] at hcount
          omega
      · injection h with h; rw [← h]; exact hs

theorem traverse_mem {α β : Type} (f : α → Except String β) :
    ∀ (l : List α) (l1 : List β), traverse f l = .ok l1 →
      ∀ b ∈ l1, ∃ a ∈ l, f a = .ok b := by
  intro l
  induction l with
  | nil =>
    intro l1 h b hb
    simp only [traverse, Except.ok.injEq] at h
    rw [← h] at hb
    exact absurd hb (List.not_mem_nil _)
  | cons a more ih =>
    intro l1 h b hb
    unfold traverse at h
    cases h1 : f a with
    | error e => rw [h1] at h; simp at h
    | ok b1 =>
      cases h2 : traverse f more with
      | error e => rw [h1, h2] at h; simp at h
      | ok bs =>
        rw [h1, h2] at h
        simp only [Except.ok.injEq] at h
        rw [← h] at hb
        rcases List.mem_cons.mp hb with hb | hb
        · exact ⟨a, List.mem_cons_self _ _, hb ▸ h1⟩
        · obtain ⟨a1, ha1, hfa⟩ := ih bs h2 b hb
          exact ⟨a1, List.mem_cons_of_mem _ ha1, hfa⟩

/-- The attributes the reader hands over for a start tag: none has the local name
xmlns:vt. -/
theorem readStart_attr_local_ne (ns : NsMap) (s : RawStart) (inner : NsMap)
    (st : xml.StartElement) (h : readStart ns s = .ok (inner, st)) :
    ∀ a ∈ st.Attr, a.Name.Local ≠ "xmlns:vt" := by
  unfold readStart at h
  cases h1 : nsname s.name with
  | error e => rw [h1] at h; simp at h
  | ok name =>
    cases h2 : traverse (fun a => (nsname a.1).map (fun n => (⟨n, a.2⟩ : xml.Attr))) s.attrs with
    | error e => rw [h1, h2] at h; simp at h
    | ok attrs =>
      rw [h1, h2] at h
      simp only [Except.ok.injEq, Prod.mk.injEq] at h
      intro a ha
      rw [← h.2] at ha
      obtain ⟨a0, ha0, rfl⟩ := List.mem_map.mp ha
      obtain ⟨raw, _, hraw⟩ := traverse_mem _ _ _ h2 a0 ha0
      rw [translate_local]
      cases h3 : nsname raw.1 with
      | error e => rw [h3] at hraw; simp [Except.map] at hraw
      | ok nm =>
        rw [h3] at hraw
        simp only [Except.map, Except.ok.injEq] at hraw
        rw [← hraw]
        exact nsname_local_ne _ _ h3

theorem unmarshalAttrs_container (fc : FloatConv) :
    ∀ (attrs : List xml.Attr), (∀ a ∈ attrs, a.Name.Local ≠ "xmlns:vt") →
      ∀ c : decodeCustomProperties,
        unmarshalAttrs fc decodeCustomProperties.fields
          [⟨1, "xmlns:vt", "", 2, []⟩, ⟨2, "property", "", 1, []⟩] attrs c =
          .ok c := by
  intro attrs
  induction attrs with
  | nil => intro _ c; rfl
  | cons a more ih =>
    intro h c
    have ha := h a (List.mem_cons_self _ _)
    have f1 : (2 : Nat) &&& 127 = 2 := by decide!
    have f2 : (1 : Nat) &&& 127 = 1 := by decide!
    have hmode : fMode = 127 := by decide!
    have h1 : unmarshalAttr fc decodeCustomProperties.fields a
        [⟨1, "xmlns:vt", "", 2, []⟩, ⟨2, "property", "", 1, []⟩] c = .ok c := by
      simp [unmarshalAttr, f1, f2, hmode, fAttr, ha]
    unfold unmarshalAttrs
    rw [h1]
    exact ih (fun b hb => h b (List.mem_cons_of_mem _ hb)) c

theorem unmarshalPropertyChildren_vt (fc : FloatConv) (tfields : List fieldInfo) :
    ∀ (els : List (PropertyElement xml.StartElement)) (c d : decodeCustomProperties),
      unmarshalPropertyChildren fc tfields els c = .ok d → d.Vt = c.Vt := by
  have hchild : ∀ (child : PropertyElement xml.StartElement) (l : List fieldInfo)
      (c d : decodeCustomProperties), unmarshalPropertyChild fc child l c = .ok d →
        d.Vt = c.Vt := by
    intro child l
    induction l with
    | nil => intro c d h; simp only [unmarshalPropertyChild, Except.ok.injEq] at h; rw [h]
    | cons f more ih =>
      intro c d h
      unfold unmarshalPropertyChild at h
      split at h
      · exact ih c d h
      · split at h
        · split at h
          · split at h
            · exact absurd h (by simp)
            · injection h with h; rw [← h]
          · exact absurd h (by simp)
        · split at h
          · exact absurd h (by simp)
          · exact ih c d h
  intro els
  induction els with
  | nil => intro c d h; simp only [unmarshalPropertyChildren, Except.ok.injEq] at h; rw [h]
  | cons child more ih =>
    intro c d h
    unfold unmarshalPropertyChildren at h
    cases h1 : unmarshalPropertyChild fc child tfields c with
    | error e => rw [h1] at h; simp at h
    | ok c1 =>
      rw [h1] at h
      rw [ih c1 d h, hchild child tfields c c1 h1]

/-- Whatever document is read into an accept container, the field Vt is never assigned:
the tag of the field asks for an attribute with the local name xmlns:vt, and the reader
hands the declaration over as the name vt in the space xmlns. -/
theorem vt_not_assigned (fc : FloatConv) (c0 : decodeCustomProperties)
    (written : PropertiesElement RawStart) (el : PropertiesElement xml.StartElement)
    (d : decodeCustomProperties) (hread : readProperties written = .ok el)
    (hd : unmarshalProperties fc c0 el = .ok d) : d.Vt = c0.Vt := by
  have hattrs : ∀ a ∈ el.start.Attr, a.Name.Local ≠ "xmlns:vt" := by
    unfold readProperties at hread
    cases h1 : readStart [] written.start with
    | error e => rw [h1] at hread; simp at hread
    | ok r =>
      obtain ⟨inner, st⟩ := r
      rw [h1] at hread
      simp only at hread
      cases h2 : traverse (readProperty inner) written.content with
      | error e => rw [h2] at hread; simp [Except.map] at hread
      | ok cs =>
        rw [h2] at hread
        simp only [Except.map, Except.ok.injEq] at hread
        rw [← hread]
        exact readStart_attr_local_ne _ _ _ _ h1
  unfold unmarshalProperties at hd
  rw [getTypeInfo_acceptContainer] at hd
  simp only at hd
  cases h1 : unmarshalStart fc decodeCustomProperties.fields
      ⟨some ⟨0, "Properties", customPropertiesNs, 1, []⟩,
        [⟨1, "xmlns:vt", "", 2, []⟩, ⟨2, "property", "", 1, []⟩]⟩
      el.start c0 with
  | error e => rw [h1] at hd; simp at hd
  | ok c1 =>
    rw [h1] at hd
    simp only at hd
    rw [unmarshalPropertyChildren_vt fc _ _ _ _ hd]
    unfold unmarshalStart at h1
    simp only at h1
    split at h1
    · exact absurd h1 (by simp)
    · rename_i r1 hnamed
      rw [unmarshalAttrs_container fc _ hattrs] at h1
      injection h1 with h1
      rw [← h1]
      split at hnamed
      · exact absurd hnamed (by simp)
      · split at hnamed
        · exact absurd hnamed (by simp)
        · simp only [decodeCustomProperties.fields, List.getElem?_cons_zero] at hnamed
          injection hnamed with hnamed
          rw [← hnamed]
          rfl

/-! ## One slot through the document -/

theorem float_fields_are_slots : ∀ k < 38,
    ((emitDecls[k]?).map (·.goType)).all
      (fun t => decide (t.deref = .float32 ∨ t.deref = .float64 → 5 ≤ k)) = true := by
  decide!

theorem emitDecls_getElem? (k : Nat) :
    emitDecls[k]? = (xlsxProperty.fields[k]?).map Field.decl := by
  simp [emitDecls]

/-- A record with no slot populated holds no float. -/
theorem unpopulated_no_float (p0 : xlsxProperty)
    (h0 : populatedSlots xlsxProperty.fields p0 = []) (x : Scalar)
    (hx : some x ∈ fieldValues xlsxProperty.fields p0) :
    ¬ (x.goType = .float32 ∨ x.goType = .float64) := by
  intro hfl
  obtain ⟨k, hk⟩ := List.mem_iff_getElem?.mp hx
  have hk0 := hk
  rw [fieldValues_getElem?] at hk
  cases hf : xlsxProperty.fields[k]? with
  | none => rw [hf] at hk; exact absurd hk (by simp)
  | some f =>
    rw [hf] at hk
    simp only [Option.map_some', Option.some.injEq] at hk
    have hty := typed_xlsxProperty k f p0 x hf hk
    have hk38 : k < 38 := by
      obtain ⟨h, _⟩ := List.getElem?_eq_some.mp hf
      simpa [xlsxProperty.fields] using h
    have h5 := float_fields_are_slots k hk38
    rw [emitDecls_getElem?, hf] at h5
    simp only [Option.map_some', Option.all_some, decide_eq_true_eq, Field.decl] at h5
    rw [hty] at h5
    obtain ⟨fe, hfe, hidx⟩ := emit_slot_at k hk38 (h5 hfl)
    unfold populatedSlots at h0
    have h1 := List.map_eq_nil_iff.mp h0
    have h2 := List.filter_eq_nil_iff.mp h1 fe hfe
    rw [hidx, hk0] at h2
    exact h2 rfl

theorem setSlot_eq {R : Type} (fields : List (Field R)) (r0 : R) (name : String)
    (v : Scalar) (hv : slotType (fields.map Field.decl) name = some (.ptr v.goType)) :
    ∃ fe f, (variantSlots (fields.map Field.decl)).find? (fun finfo => finfo.name = name) =
        some fe ∧ fe ∈ variantSlots (fields.map Field.decl) ∧ fe.name = name ∧
      fields[fe.idx]? = some f ∧ f.goType = .ptr v.goType ∧
      setSlot fields r0 name v = f.set r0 v := by
  unfold slotType at hv
  cases hfind : (variantSlots (fields.map Field.decl)).find? (fun finfo => finfo.name = name) with
  | none => rw [hfind] at hv; exact absurd hv (by simp)
  | some fe =>
    rw [hfind] at hv
    simp only [Option.some_bind, fieldType, List.getElem?_map] at hv
    cases hf : fields[fe.idx]? with
    | none => rw [hf] at hv; exact absurd hv (by simp)
    | some f =>
      rw [hf] at hv
      simp only [Option.map_some', Option.some.injEq, Field.decl] at hv
      refine ⟨fe, f, rfl, List.mem_of_find?_eq_some hfind, ?_, hf, hv, ?_⟩
      · have := List.find?_some hfind
        simpa using this
      · unfold setSlot
        rw [hfind]
        simp only [Option.some_bind, hf]

/-- Assigning a value of the type of a slot to that slot of a record with no slot
populated gives a record with exactly that slot populated, holding the value. -/
theorem setSlot_populated {R : Type} (fields : List (Field R)) (hl : Lawful fields)
    (hnd : ((variantSlots (fields.map Field.decl)).map (·.idx)).Nodup) (r0 : R)
    (h0 : populatedSlots fields r0 = []) (name : String) (v : Scalar)
    (hv : slotType (fields.map Field.decl) name = some (.ptr v.goType)) :
    populatedSlots fields (setSlot fields r0 name v) = [name] ∧
    slotValue fields (setSlot fields r0 name v) name = some v ∧
    ∃ k, fieldValues fields (setSlot fields r0 name v) = (fieldValues fields r0).set k (some v) := by
  obtain ⟨fe, f, hfind, hfe, hname, hf, hty, hset⟩ := setSlot_eq fields r0 name v hv
  have hvals : fieldValues fields (f.set r0 v) = (fieldValues fields r0).set fe.idx (some v) := by
    rw [hl fe.idx f hf r0 v, hty]
    simp [GoType.deref]
  have hlen : fe.idx < (fieldValues fields r0).length := by
    obtain ⟨h, _⟩ := List.getElem?_eq_some.mp hf
    simpa [fieldValues] using h
  rw [hset]
  refine ⟨?_, ?_, fe.idx, hvals⟩
  · rw [← hname]
    exact populatedSlots_set fields r0 _ fe v hfe hnd h0 hlen hvals
  · unfold slotValue
    rw [hfind]
    simp only [Option.some_bind, hvals, List.getElem?_set_self hlen, Option.join]
    rfl

/-- One slot of the emit record, populated in a record that had no slot populated, goes
through the document: the record marshals, the element decodes, and the accept record has
exactly the slot of the bare name populated, with the value as it reads back. -/
theorem single_slot_round_trip (fc : FloatConv) (ns : NsMap) (p0 : xlsxProperty)
    (h0 : populatedSlots xlsxProperty.fields p0 = []) (T : String) (v : Scalar)
    (hv : slotType emitDecls ("vt:" ++ T) = some (.ptr v.goType))
    (hfl : v.goType = .float32 ∨ v.goType = .float64 → Scalar.Survives fc (.ptr v.goType) v) :
    ∃ e d, marshalStruct fc "xlsxProperty" xlsxProperty.fields none
        (setSlot xlsxProperty.fields p0 ("vt:" ++ T) v) = .ok e ∧
      decodeWritten fc ns e = .ok d ∧
      sameFieldsAsRead (setSlot xlsxProperty.fields p0 ("vt:" ++ T) v) d ∧
      populatedSlots decodeProperty.fields d = [T] ∧
      slotValue decodeProperty.fields d T = some v.asRead := by
  obtain ⟨hpop, hval, k, hvals⟩ := setSlot_populated xlsxProperty.fields lawful_xlsxProperty
    emit_slot_idx_nodup p0 h0 ("vt:" ++ T) v hv
  generalize setSlot xlsxProperty.fields p0 ("vt:" ++ T) v = p at hpop hval hvals ⊢
  have hfloat : p.FloatsSurvive fc := by
    intro x hx hxf
    rw [hvals] at hx
    rcases List.mem_or_eq_of_mem_set hx with h | h
    · exact absurd hxf (unpopulated_no_float p0 h0 x h)
    · injection h with h
      subst h
      exact hfl hxf
  obtain ⟨e, el, g1, _, _, g2, _, g4⟩ := property_round_trip fc ns none p hfloat
  have hsame := (decodedFrom_sameFields (translate ns ⟨"", "property"⟩ true) p).1
  refine ⟨e, _, g1, ?_, hsame, ?_, ?_⟩
  · unfold decodeWritten
    rw [g2]
    exact g4
  · have h1 := populatedSlots_of_sameFieldsAsRead _ _ hsame
    rw [hpop] at h1
    cases hl : populatedSlots decodeProperty.fields
        (decodedFrom (translate ns ⟨"", "property"⟩ true) p) with
    | nil => rw [hl] at h1; exact absurd h1 (by simp)
    | cons a l =>
      rw [hl] at h1
      simp only [List.map_cons, List.cons.injEq] at h1
      have ha := (qualified_inj T a).mp h1.1
      have hl0 := List.map_eq_nil_iff.mp h1.2.symm
      rw [ha, hl0]
  · rw [slotValue_of_sameFieldsAsRead _ _ hsame, hval]
    rfl

/-! ## The container: a closed example -/

/-- C5, the round trip fails on the name space declaration string.  The example container,
whose Vt is the variant-types name space, encodes and decodes to a container whose Vt is
empty; the four properties do come back, in order, each with its slot.  The example holds
no float. -/
theorem namespace_declaration_is_lost :
    exampleContainer.Vt =
      "http://schemas.openxmlformats.org/officeDocument/2006/docPropsVTypes" ∧
    (decodeEncoded FloatConv.ofBits exampleContainer).map
        (fun d => (d.Vt, d.Property.map (fun q => (q.Name, populatedSlots decodeProperty.fields q)))) =
      .ok ("", [("Department", ["lpwstr"]), ("Answer", ["i4"]),
        ("Checked", ["bool"]), ("Since", ["date"])]) := by
  decide!

/-- The decoded name space declaration string is empty for every emit container and every
float conversion: encoding and decoding never gives back a Vt that was not empty. -/
theorem decoded_vt_is_empty (fc : FloatConv) (c : xlsxCustomProperties)
    (d : decodeCustomProperties) (h : decodeEncoded fc c = .ok d) : d.Vt = "" := by
  unfold decodeEncoded at h
  cases h1 : marshalProperties fc c with
  | error e => rw [h1] at h; simp at h
  | ok written =>
    rw [h1] at h
    simp only at h
    cases h2 : readProperties written with
    | error e => rw [h2] at h; simp at h
    | ok el =>
      rw [h2] at h
      simp only at h
      exact vt_not_assigned fc {} written el d h2 h

/-! ## Numeric slots -/

theorem numeric_slot_types :
    ∀ Tt ∈ [("i1", GoType.int8), ("i2", .int16), ("i4", .int32), ("i8", .int64),
        ("ui1", .uint8), ("ui2", .uint16), ("ui4", .uint32), ("ui8", .uint64),
        ("r4", .float32), ("r8", .float64)],
      slotType emitDecls ("vt:" ++ Tt.1) = some (.ptr Tt.2) ∧
      slotType acceptDecls Tt.1 = some (.ptr Tt.2) := by
  unfold slotType
  rw [variantSlots_emit_table, variantSlots_accept_table]
  decide!

/-- C7, the claim fails for a float: the float64 NaN with the bit pattern
0x7FF8000000000002, stored in the slot r8 of the emit record, is written as the text NaN and
read from the slot r8 of the accept record as 0x7FF8000000000001.  The first two parts
evaluate the round trip; the third says that no float conversion gives the stored value
back. -/
theorem nan_payload_is_not_returned :
    (marshalStruct FloatConv.ofBits "xlsxProperty" xlsxProperty.fields none
        { R8 := some ⟨0x7FF8000000000002, by decide⟩ }).map (fun e => e.content) =
      .ok [⟨⟨"vt:r8", []⟩, "NaN"⟩] ∧
    ((marshalStruct FloatConv.ofBits "xlsxProperty" xlsxProperty.fields none
        { R8 := some ⟨0x7FF8000000000002, by decide⟩ }).bind
      (decodeWritten FloatConv.ofBits [])).map
        (fun d => slotValue decodeProperty.fields d "r8") =
      .ok (some (.float64 ⟨0x7FF8000000000001, by decide⟩)) ∧
    ¬ ∃ (fc : FloatConv) (e : PropertyElement RawStart) (d : decodeProperty),
      marshalStruct fc "xlsxProperty" xlsxProperty.fields none
        { R8 := some ⟨0x7FF8000000000002, by decide⟩ } = .ok e ∧
      decodeWritten fc [] e = .ok d ∧
      slotValue decodeProperty.fields d "r8" =
        some (.float64 ⟨0x7FF8000000000002, by decide⟩) := by
  refine ⟨by decide!, by decide!, ?_⟩
  rintro ⟨fc, e, d, h1, h2, h3⟩
  have e1 : marshalStruct fc "xlsxProperty" xlsxProperty.fields none
      { R8 := some ⟨0x7FF8000000000002, by decide⟩ } =
      .ok ⟨⟨"property", [("fmtid", ""), ("pid", "0")]⟩, [⟨⟨"vt:r8", []⟩, "NaN"⟩]⟩ := rfl
  rw [e1] at h1
  injection h1 with h1
  subst h1
  have e2 : (decodeWritten fc [] ⟨⟨"property", [("fmtid", ""), ("pid", "0")]⟩,
      [⟨⟨"vt:r8", []⟩, "NaN"⟩]⟩).map (fun d => slotValue decodeProperty.fields d "r8") =
      .ok (some (.float64 ⟨0x7FF8000000000001, by decide⟩)) := rfl
  rw [h2] at e2
  simp only [Except.map, Except.ok.injEq] at e2
  rw [h3] at e2
  exact absurd e2 (by decide)

/-- C7, as amended: the numeric slots have the type their name states, in both dialects:
i1, i2, i4 and i8 are pointers to int8, int16, int32 and int64, ui1, ui2, ui4 and ui8 to
uint8, uint16, uint32 and uint64, r4 and r8 to float32 and float64.  An integer of one of
the eight integer types, stored in the emit slot of a record with no slot populated, is
found after encoding and decoding in the accept slot of the same name, and in no other: the
same value of the same type, whatever the float conversion is. -/
theorem numeric_slots_typed_and_integers_returned (fc : FloatConv) (ns : NsMap)
    (p0 : xlsxProperty) (h0 : populatedSlots xlsxProperty.fields p0 = []) (T : String)
    (v : Scalar)
    (hT : (T, v.goType) ∈ [("i1", GoType.int8), ("i2", .int16), ("i4", .int32),
      ("i8", .int64), ("ui1", .uint8), ("ui2", .uint16), ("ui4", .uint32),
      ("ui8", .uint64)]) :
    (∀ Tt ∈ [("i1", GoType.int8), ("i2", .int16), ("i4", .int32), ("i8", .int64),
        ("ui1", .uint8), ("ui2", .uint16), ("ui4", .uint32), ("ui8", .uint64),
        ("r4", .float32), ("r8", .float64)],
      slotType emitDecls ("vt:" ++ Tt.1) = some (.ptr Tt.2) ∧
      slotType acceptDecls Tt.1 = some (.ptr Tt.2)) ∧
    slotValue xlsxProperty.fields (setSlot xlsxProperty.fields p0 ("vt:" ++ T) v)
      ("vt:" ++ T) = some v ∧
    ∃ e d, marshalStruct fc "xlsxProperty" xlsxProperty.fields none
        (setSlot xlsxProperty.fields p0 ("vt:" ++ T) v) = .ok e ∧
      decodeWritten fc ns e = .ok d ∧
      populatedSlots decodeProperty.fields d = [T] ∧
      slotValue decodeProperty.fields d T = some v := by
  have hmem : (T, v.goType) ∈ [("i1", GoType.int8), ("i2", .int16), ("i4", .int32),
      ("i8", .int64), ("ui1", .uint8), ("ui2", .uint16), ("ui4", .uint32), ("ui8", .uint64),
      ("r4", .float32), ("r8", .float64)] := by
    simp only [List.mem_cons, List.mem_singleton, List.not_mem_nil, or_false] at hT ⊢
    tauto
  obtain ⟨ht1, _⟩ := numeric_slot_types (T, v.goType) hmem
  have hread : v.asRead = v := by
    cases v <;> first | rfl | (exfalso; simp [Scalar.goType] at hT)
  have hnf : ¬ (v.goType = .float32 ∨ v.goType = .float64) := by
    cases v <;> simp [Scalar.goType] at hT ⊢
  obtain ⟨e, d, g1, g2, _, g4, g5⟩ := single_slot_round_trip fc ns p0 h0 T v ht1
    (fun h => absurd h hnf)
  rw [hread] at g5
  exact ⟨numeric_slot_types,
    (setSlot_populated xlsxProperty.fields lawful_xlsxProperty emit_slot_idx_nodup p0 h0
      ("vt:" ++ T) v ht1).2.1,
    e, d, g1, g2, g4, g5⟩

/-- C7 as amended, at the least int8 in the slot i1 and at the greatest uint64 in the slot
ui8. -/
theorem numeric_slots_typed_and_integers_returned_witness :
    (populatedSlots xlsxProperty.fields { FmtID := "f", PID := ⟨2, by decide, by decide⟩ } = [] ∧
      setSlot xlsxProperty.fields { FmtID := "f", PID := ⟨2, by decide, by decide⟩ }
          ("vt:" ++ "i1") (.int8 ⟨-128, by decide, by decide⟩) =
        { FmtID := "f", PID := ⟨2, by decide, by decide⟩,
          I1 := some ⟨-128, by decide, by decide⟩ }) ∧
    (∃ e d, marshalStruct FloatConv.ofBits "xlsxProperty" xlsxProperty.fields none
          (setSlot xlsxProperty.fields { FmtID := "f", PID := ⟨2, by decide, by decide⟩ }
            ("vt:" ++ "i1") (.int8 ⟨-128, by decide, by decide⟩)) = .ok e ∧
        decodeWritten FloatConv.ofBits [] e = .ok d ∧
        populatedSlots decodeProperty.fields d = ["i1"] ∧
        slotValue decodeProperty.fields d "i1" =
          some (.int8 ⟨-128, by decide, by decide⟩)) ∧
    (∃ e d, marshalStruct FloatConv.ofBits "xlsxProperty" xlsxProperty.fields none
          (setSlot xlsxProperty.fields {} ("vt:" ++ "ui8")
            (.uint64 ⟨18446744073709551615, by decide⟩)) = .ok e ∧
        decodeWritten FloatConv.ofBits [] e = .ok d ∧
        slotValue decodeProperty.fields d "ui8" =
          some (.uint64 ⟨18446744073709551615, by decide⟩)) := by
  refine ⟨⟨by decide!, by decide!⟩, ?_, ?_⟩
  · obtain ⟨_, _, e, d, g1, g2, g3, g4⟩ :=
      numeric_slots_typed_and_integers_returned FloatConv.ofBits []
        { FmtID := "f", PID := ⟨2, by decide, by decide⟩ } (by decide!) "i1"
        (.int8 ⟨-128, by decide, by decide⟩) (by decide!)
    exact ⟨e, d, g1, g2, g3, g4⟩
  · obtain ⟨_, _, e, d, g1, g2, _, g4⟩ :=
      numeric_slots_typed_and_integers_returned FloatConv.ofBits [] {} (by decide!) "ui8"
        (.uint64 ⟨18446744073709551615, by decide⟩) (by decide!)
    exact ⟨e, d, g1, g2, g4⟩

/-! ## The string-like variants -/

theorem string_slot_types :
    ∀ T ∈ ["lpstr", "lpwstr", "bstr"],
      slotType emitDecls ("vt:" ++ T) = some (.ptr .string) ∧
      slotType acceptDecls T = some (.ptr .string) := by
  decide!

/-- C8: lpstr, lpwstr and bstr are three slots of their own in each dialect, each a
pointer to a string.  For two different names T and U of the three and any text, the
record with the text in the slot T and the record with the same text in the slot U are
different records, in the emit dialect and in the accept dialect; and the emit record with
the text in the slot T, encoded and decoded, gives the accept record with exactly the slot
T populated, holding the text as it reads back. -/
theorem string_variants_are_distinct_slots (fc : FloatConv) (ns : NsMap)
    (p0 : xlsxProperty) (q0 : decodeProperty)
    (hp0 : populatedSlots xlsxProperty.fields p0 = [])
    (hq0 : populatedSlots decodeProperty.fields q0 = [])
    (T U : String) (hT : T ∈ ["lpstr", "lpwstr", "bstr"]) (hU : U ∈ ["lpstr", "lpwstr", "bstr"])
    (hne : T ≠ U) (s : String) :
    (slotType emitDecls ("vt:" ++ T) = some (.ptr .string) ∧
      slotType acceptDecls T = some (.ptr .string)) ∧
    setSlot xlsxProperty.fields p0 ("vt:" ++ T) (.string s) ≠
      setSlot xlsxProperty.fields p0 ("vt:" ++ U) (.string s) ∧
    setSlot decodeProperty.fields q0 T (.string s) ≠
      setSlot decodeProperty.fields q0 U (.string s) ∧
    ∃ e d, marshalStruct fc "xlsxProperty" xlsxProperty.fields none
        (setSlot xlsxProperty.fields p0 ("vt:" ++ T) (.string s)) = .ok e ∧
      decodeWritten fc ns e = .ok d ∧
      populatedSlots decodeProperty.fields d = [T] ∧
      slotValue decodeProperty.fields d T = some (.string (escapeText s)) ∧
      slotValue decodeProperty.fields d U = none := by
  obtain ⟨hT1, hT2⟩ := string_slot_types T hT
  obtain ⟨hU1, hU2⟩ := string_slot_types U hU
  have hpT := (setSlot_populated xlsxProperty.fields lawful_xlsxProperty emit_slot_idx_nodup
    p0 hp0 ("vt:" ++ T) (.string s) hT1).1
  have hpU := (setSlot_populated xlsxProperty.fields lawful_xlsxProperty emit_slot_idx_nodup
    p0 hp0 ("vt:" ++ U) (.string s) hU1).1
  have hqT := (setSlot_populated decodeProperty.fields lawful_decodeProperty
    accept_slot_idx_nodup q0 hq0 T (.string s) hT2).1
  have hqU := (setSlot_populated decodeProperty.fields lawful_decodeProperty
    accept_slot_idx_nodup q0 hq0 U (.string s) hU2).1
  obtain ⟨e, d, g1, g2, _, g4, g5⟩ := single_slot_round_trip fc ns p0 hp0 T (.string s) hT1
    (fun h => by simp [Scalar.goType] at h)
  refine ⟨⟨hT1, hT2⟩, ?_, ?_, e, d, g1, g2, g4, g5, ?_⟩
  · intro h
    rw [h, hpU] at hpT
    simp only [List.cons.injEq, and_true] at hpT
    exact hne ((qualified_inj U T).mp hpT).symm
  · intro h
    rw [h, hqU] at hqT
    simp only [List.cons.injEq, and_true] at hqT
    exact hne hqT.symm
  · cases hx : slotValue decodeProperty.fields d U with
    | none => rfl
    | some x =>
      exfalso
      have hmem : U ∈ populatedSlots decodeProperty.fields d := by
        unfold slotValue at hx
        unfold populatedSlots
        cases hfind : (variantSlots (decodeProperty.fields.map Field.decl)).find?
            (fun finfo => finfo.name = U) with
        | none => rw [hfind] at hx; simp at hx
        | some fu =>
          rw [hfind] at hx
          simp only [Option.some_bind] at hx
          have hname : fu.name = U := by
            have := List.find?_some hfind
            simpa using this
          exact List.mem_map.mpr ⟨fu, List.mem_filter.mpr
            ⟨List.mem_of_find?_eq_some hfind, by rw [hx]; rfl⟩, hname⟩
      rw [g4] at hmem
      exact hne (List.mem_singleton.mp hmem).symm

/-- C8 at lpwstr against lpstr with the text Finance. -/
theorem string_variants_are_distinct_slots_witness :
    (setSlot xlsxProperty.fields {} ("vt:" ++ "lpwstr") (.string "Finance") =
        { Lpwstr := some "Finance" } ∧
      setSlot xlsxProperty.fields {} ("vt:" ++ "lpstr") (.string "Finance") =
        { Lpstr := some "Finance" }) ∧
    (({ Lpwstr := some "Finance" } : xlsxProperty) ≠ { Lpstr := some "Finance" }) ∧
    ∃ e d, marshalStruct FloatConv.ofBits "xlsxProperty" xlsxProperty.fields none
        (setSlot xlsxProperty.fields {} ("vt:" ++ "lpwstr") (.string "Finance")) = .ok e ∧
      decodeWritten FloatConv.ofBits [] e = .ok d ∧
      populatedSlots decodeProperty.fields d = ["lpwstr"] ∧
      slotValue decodeProperty.fields d "lpwstr" = some (.string (escapeText "Finance")) ∧
      slotValue decodeProperty.fields d "lpstr" = none := by
  refine ⟨⟨by decide!, by decide!⟩, by decide!, ?_⟩
  exact (string_variants_are_distinct_slots FloatConv.ofBits [] {} {} (by decide!) (by decide!)
    "lpwstr" "lpstr" (by decide!) (by decide!) (by decide!) "Finance").2.2.2

/-! ## The public holder -/

/-- C9, the declared type against its comment: Value is declared as the empty interface,
so a CustomProperty can hold a value of any type; this one holds an int64, which is
outside the set the comment on the type lists. -/
theorem holder_admits_undocumented_value :
    (CustomProperty.fields[1]?).map (fun f => (f.goName, f.goType)) =
      some ("Value", GoType.emptyInterface) ∧
    (({ Name := "Count", Value := .scalar (.int64 ⟨5000000000, by decide, by decide⟩) } :
      CustomProperty).Value.documented = false) := by
  decide!

/-! ## The shape outside the variant slots -/

theorem accept_attr_fields_written :
    (typeFields acceptDecls).filter (fun f => decide (f.flags &&& fAttr ≠ 0)) =
      [⟨1, "fmtid", "", 2, []⟩, ⟨2, "pid", "", 2, []⟩, ⟨3, "name", "", 130, []⟩,
       ⟨4, "linkTarget", "", 130, []⟩] := by decide!

/-- The attributes written for a property record of the accept dialect, were it
marshalled: the same as for the emit dialect. -/
theorem marshalAttrs_accept (fc : FloatConv) (p : decodeProperty) :
    marshalAttrs fc decodeProperty.fields p (typeFields acceptDecls) =
      .ok ([("fmtid", escapeText p.FmtID), ("pid", escapeText (strconv.FormatInt p.PID.val))] ++
        (if p.Name = "" then [] else [("name", escapeText p.Name)]) ++
        (if p.LinkTarget = "" then [] else [("linkTarget", escapeText p.LinkTarget)])) := by
  rw [marshalAttrs_filter, accept_attr_fields_written]
  have e1 : (2 : Nat) &&& 128 = 0 := by decide!
  have e2 : (130 : Nat) &&& 128 = 128 := by decide!
  have e3 : (2 : Nat) &&& 2 = 2 := by decide!
  have e4 : (130 : Nat) &&& 2 = 2 := by decide!
  by_cases h1 : p.Name = "" <;> by_cases h2 : p.LinkTarget = "" <;>
    simp [marshalAttrs, decodeProperty.fields, valField, Kind.string, Kind.int, marshalSimple,
      isEmptyValue, fAttr, fOmitEmpty, h1, h2, e1, e2, e3, e4]

/-- The root element written for an emit container: Properties in the custom-properties
name space, the attribute xmlns:vt with the text of Vt, and the property elements of the
records in the order of the slice. -/
theorem marshalProperties_eq (fc : FloatConv) (c : xlsxCustomProperties)
    (es : List (PropertyElement RawStart))
    (h : traverse (marshalStruct fc "xlsxProperty" xlsxProperty.fields
      (some ⟨2, "property", "", 1, []⟩)) c.Property = .ok es) :
    marshalProperties fc c = .ok ⟨writeStart ⟨customPropertiesNs, "Properties"⟩
      [("xmlns:vt", escapeText c.Vt)], es⟩ := by
  unfold marshalProperties
  rw [getTypeInfo_emitContainer]
  have e1 : (2 : Nat) &&& 2 = 2 := by decide!
  have e2 : (1 : Nat) &&& 2 = 0 := by decide!
  have e3 : (2 : Nat) &&& 128 = 0 := by decide!
  have e4 : (1 : Nat) &&& 127 = 1 := by decide!
  have hmode : fMode = 127 := by decide!
  have e5 : (xlsxCustomProperties.fields[2]?).map (·.goType) =
      some (.slice (.named "xlsxProperty")) := by rfl
  have hattrs : marshalAttrs fc xlsxCustomProperties.fields c
      [⟨1, "xmlns:vt", "", 2, []⟩, ⟨2, "property", "", 1, []⟩] =
      .ok [("xmlns:vt", escapeText c.Vt)] := by
    simp [marshalAttrs, e1, e2, e3, fAttr, fOmitEmpty, xlsxCustomProperties.fields,
      valField, Kind.string, marshalSimple]
  have hprops : marshalPropertyFields fc c
      [⟨1, "xmlns:vt", "", 2, []⟩, ⟨2, "property", "", 1, []⟩] =
      .ok es := by
    simp [marshalPropertyFields, e1, e2, e4, e5, h, fAttr, fElement, hmode]
  simp only [hattrs, hprops]
  have hstart : startName (some ⟨0, "Properties", customPropertiesNs, 1, []⟩)
      (some (.xmlName c.XMLName)) none "xlsxCustomProperties" =
      ⟨customPropertiesNs, "Properties"⟩ := by
    simp [startName]
  rw [hstart]

/-- C10: outside the variant slots the two dialects have the same shape.  The type
information of both containers is the root element Properties in the custom-properties
name space, an attribute xmlns:vt (a string) and an element field property (a slice of
property records) that names no name space; an emit container is written as that root with
the attribute and the property elements in the order of the slice, and on decoding every
child element named property, in whatever name space, is unmarshalled and appended to the
slice.  Both property records have the attribute fields fmtid (string), pid (int), name
and linkTarget (string, omitempty), and written they give fmtid and pid always, name and
linkTarget exactly when not empty. -/
theorem dialects_share_shape (fc : FloatConv) :
    (getTypeInfo emitContainerDecls = getTypeInfo acceptContainerDecls ∧
      getTypeInfo emitContainerDecls =
        .ok ⟨some ⟨0, "Properties",
            "http://schemas.openxmlformats.org/officeDocument/2006/custom-properties", fElement,
            []⟩,
          [⟨1, "xmlns:vt", "", fAttr, []⟩,
           ⟨2, "property", "", fElement, []⟩]⟩) ∧
    ((typeFields emitContainerDecls).map (fieldType emitContainerDecls) =
        [some .string, some (.slice (.named "xlsxProperty"))] ∧
      (typeFields acceptContainerDecls).map (fieldType acceptContainerDecls) =
        [some .string, some (.slice (.named "decodeProperty"))]) ∧
    (∀ (c : xlsxCustomProperties) (es : List (PropertyElement RawStart)),
      traverse (marshalStruct fc "xlsxProperty" xlsxProperty.fields
        (some ⟨2, "property", "", 1, []⟩)) c.Property = .ok es →
      marshalProperties fc c = .ok ⟨writeStart ⟨customPropertiesNs, "Properties"⟩
        [("xmlns:vt", escapeText c.Vt)], es⟩ ∧ es.length = c.Property.length) ∧
    (∀ (child : PropertyElement xml.StartElement) (c0 : decodeCustomProperties)
        (d : decodeProperty), child.start.Name.Local = "property" →
      unmarshalStruct fc decodeProperty.fields {} child = .ok d →
      unmarshalPropertyChild fc child
        [⟨1, "xmlns:vt", "", 2, []⟩, ⟨2, "property", "", 1, []⟩] c0 =
        .ok { c0 with Property := c0.Property ++ [d] }) ∧
    (attrFields emitDecls = attrFields acceptDecls ∧
      attrFields emitDecls =
        [⟨1, "fmtid", "", fAttr, []⟩, ⟨2, "pid", "", fAttr, []⟩,
         ⟨3, "name", "", fAttr ||| fOmitEmpty, []⟩,
         ⟨4, "linkTarget", "", fAttr ||| fOmitEmpty, []⟩] ∧
      (attrFields emitDecls).map (fieldType emitDecls) =
        [some .string, some .int, some .string, some .string] ∧
      (attrFields acceptDecls).map (fieldType acceptDecls) =
        [some .string, some .int, some .string, some .string]) ∧
    (∀ p : xlsxProperty,
      marshalAttrs fc xlsxProperty.fields p (typeFields emitDecls) =
        .ok ([("fmtid", escapeText p.FmtID),
            ("pid", escapeText (strconv.FormatInt p.PID.val))] ++
          (if p.Name = "" then [] else [("name", escapeText p.Name)]) ++
          (if p.LinkTarget = "" then [] else [("linkTarget", escapeText p.LinkTarget)]))) ∧
    (∀ p : decodeProperty,
      marshalAttrs fc decodeProperty.fields p (typeFields acceptDecls) =
        .ok ([("fmtid", escapeText p.FmtID),
            ("pid", escapeText (strconv.FormatInt p.PID.val))] ++
          (if p.Name = "" then [] else [("name", escapeText p.Name)]) ++
          (if p.LinkTarget = "" then [] else [("linkTarget", escapeText p.LinkTarget)]))) := by
  refine ⟨⟨by rw [getTypeInfo_emitContainer, getTypeInfo_acceptContainer],
      getTypeInfo_emitContainer⟩, ⟨by decide!, by decide!⟩, ?_,
    fun child c0 d hname hd => unmarshalPropertyChild_property fc child c0 d hname hd,
    ⟨by decide!, by decide!, by decide!, by decide!⟩, marshalAttrs_emit fc,
    marshalAttrs_accept fc⟩
  intro c es h
  exact ⟨marshalProperties_eq fc c es h, traverse_length _ _ _ h⟩

end excelize
